import Mathlib

/-!
Verification of the blind-draw tournament scheduling core
(`src/src/App.tsx`, first build variant): score parsing, the round
generator, the standings aggregator, and the single-elimination
bracket builder.  TypeScript functions are embedded as executable
Lean definitions; JS `Map`/`Set` values become association lists,
`undefined`-able fields become `Option`, and the nondeterministic
pieces (`Date.now()`, `Math.random()`) become explicit oracle
parameters.  Loops are written with a structurally decreasing
counter so every definition reduces in the kernel.
-/

/- ========================= Types & helpers ========================= -/

/-- Tag of a same-gender extra team (`'ULTIMATE_REVCO'|'POWER_PUFF'` in the source). -/
inductive Tag where
  | ULTIMATE_REVCO
  | POWER_PUFF
deriving Repr, DecidableEq

/-- `MatchRow` from the source.  `tag?` and `scoreText?` are optional fields. -/
structure MatchRow where
  id : String
  round : Nat
  court : Nat
  t1p1 : String
  t1p2 : String
  t2p1 : String
  t2p2 : String
  tag : Option Tag := none
  scoreText : Option String := none
deriving Repr, DecidableEq

/-- JS `String.prototype.trim`, written structurally over the character
list (Lean core `String.trim` is extensionally the same but does not
reduce in the kernel). -/
def jsTrim (s : String) : String :=
  ⟨((s.data.dropWhile Char.isWhitespace).reverse.dropWhile Char.isWhitespace).reverse⟩

/-- JS `String.prototype.toLowerCase` (ASCII case mapping, which is all
this program's input exercises). -/
def jsToLower (s : String) : String := ⟨s.data.map Char.toLower⟩

/-- One step of collapsing whitespace runs: the Bool records whether the
previous character was whitespace (so a run is emitted as one space).
Models `replace(/\s+/g, ' ')`; JS `\s` agrees with `Char.isWhitespace`
on the ASCII input this program feeds it. -/
def collapseWS : Bool → List Char → List Char
  | _, [] => []
  | prevWS, c :: rest =>
    if c.isWhitespace then
      if prevWS then collapseWS true rest
      else ' ' :: collapseWS true rest
    else c :: collapseWS false rest

/-- `slug = s.trim().toLowerCase().replace(/\s+/g, ' ')`. -/
def slug (s : String) : String :=
  ⟨collapseWS false (jsToLower (jsTrim s)).data⟩

/-- Decimal value of a digit list, as computed by JS `parseInt` on it. -/
def digitsVal (ds : List Char) : Nat :=
  ds.foldl (fun n c => 10 * n + (c.toNat - 48)) 0

/-- Matching of the anchored regex `^(\d+)\s*[-–]\s*(\d+)$` against an
already-trimmed character list.  Greedy `\d+` never benefits from
backtracking here (a digit can never match `[-–]`), so `takeWhile`
is exact. -/
def parseScoreCore (t : List Char) : Option (Nat × Nat) :=
  let d1 := t.takeWhile Char.isDigit
  let r1 := t.dropWhile Char.isDigit
  if d1 = [] then none
  else
    match r1.dropWhile Char.isWhitespace with
    | [] => none
    | c :: r3 =>
      if c = '-' ∨ c = '–' then
        let r4 := r3.dropWhile Char.isWhitespace
        let d2 := r4.takeWhile Char.isDigit
        let r5 := r4.dropWhile Char.isDigit
        if d2 = [] then none
        else if r5 = [] then some (digitsVal d1, digitsVal d2)
        else none
      else none

/-- `parseScore(text?: string)`.  `if (!text) return null` rejects both
`undefined` and the empty string (JS falsiness); otherwise the trimmed
string must match `^(\d+)\s*[-–]\s*(\d+)$`. -/
def parseScore (text : Option String) : Option (Nat × Nat) :=
  match text with
  | none => none
  | some s => if s = "" then none else parseScoreCore (jsTrim s).data

/-- `isValidPoolScore(a, b)`: `diff = Math.abs(a-b)`, `max = Math.max(a,b)`,
result `max >= 21 && diff >= 2`. -/
def isValidPoolScore (a b : Int) : Bool :=
  let diff := |a - b|
  let mx := max a b
  decide (21 ≤ mx) && decide (2 ≤ diff)

/- ========================= C9 ========================= -/

/-- C9: for all integers `a`, `b`, `isValidPoolScore a b` holds iff
`max a b ≥ 21` and `|a - b| ≥ 2`; in particular `(22,20)` is valid
while `(21,20)` and `(20,18)` are invalid. -/
theorem isValidPoolScore_iff :
    (∀ a b : Int, isValidPoolScore a b = true ↔ (21 ≤ max a b ∧ 2 ≤ |a - b|)) ∧
    isValidPoolScore 22 20 = true ∧
    isValidPoolScore 21 20 = false ∧
    isValidPoolScore 20 18 = false := by
  refine ⟨fun a b => ?_, by decide, by decide, by decide⟩
  simp [isValidPoolScore]

/- ========================= Shuffle (seeded LCG) ========================= -/

/-- One step of the linear-congruential generator inside `shuffle`:
`r = (r * 1664525 + 1013904223) % 4294967296`.  For `r < 2^32` the JS
double-precision computation is exact, so plain `Nat` arithmetic is a
faithful model. -/
def lcgNext (r : Nat) : Nat := (r * 1664525 + 1013904223) % 4294967296

/-- Swap two positions of a list (`[a[i], a[j]] = [a[j], a[i]]`).
Both indices are in range at every use. -/
def swapList (l : List String) (i j : Nat) : List String :=
  (l.set i (l.getD j "")).set j (l.getD i "")

/-- The Fisher-Yates loop of `shuffle`, indexed by the current position
(the source iterates `i` from `a.length - 1` down to `1`).  Each step
draws `rand()` (updating `r`) and computes `j = Math.floor(rand() * (i + 1))`;
because `r * (i + 1) < 2^53` this floating-point expression equals the
exact natural division `r * (i + 1) / 2^32`. -/
def shuffleGo : List String → Nat → Nat → List String
  | a, _, 0 => a
  | a, r, i + 1 =>
    let r2 := lcgNext r
    let j := r2 * (i + 2) / 4294967296
    shuffleGo (swapList a (i + 1) j) r2 i

/-- `shuffle(arr, seed?)`: the initial state is `seed ?? Math.floor(Math.random()*1e9)`;
the unseeded branch is modeled by the explicit `oracle` argument. -/
def shuffle (arr : List String) (seed : Option Nat) (oracle : Nat) : List String :=
  shuffleGo arr (seed.getD oracle) (arr.length - 1)

/- ========================= Partner / opponent maps ========================= -/

/-- A `Map<string, Set<string>>` of slugs, flattened to the list of directed
pairs it contains; only membership is ever queried. -/
abbrev PMap := List (String × String)

/-- Membership query `mp.get(slug(a))?.has(slug(b))`. -/
def pmHas (mp : PMap) (a b : String) : Bool := mp.contains (slug a, slug b)

/-- The symmetric `add` inside `buildPartnerMap`, including its
`if (!a || !b) return` guard (empty strings are falsy). -/
def pmAddPair (mp : PMap) (a b : String) : PMap :=
  if a = "" ∨ b = "" then mp
  else (slug a, slug b) :: (slug b, slug a) :: mp

/-- `buildPartnerMap(history)`: records both teams of every historical match. -/
def buildPartnerMap (history : List MatchRow) : PMap :=
  history.foldl (fun mp m => pmAddPair (pmAddPair mp m.t1p1 m.t1p2) m.t2p1 m.t2p2) []

/-- A directed opponent-map insertion with the `if (!a || !b) continue` guard. -/
def omAddDirected (mp : PMap) (a b : String) : PMap :=
  if a = "" ∨ b = "" then mp else (slug a, slug b) :: mp

/-- `buildOpponentMap(history)`: for every match, all cross pairs in both
directions. -/
def buildOpponentMap (history : List MatchRow) : PMap :=
  history.foldl
    (fun mp m =>
      let t1 := [m.t1p1, m.t1p2]
      let t2 := [m.t2p1, m.t2p2]
      let mp := t1.foldl (fun mp a => t2.foldl (fun mp b => omAddDirected mp a b) mp) mp
      t2.foldl (fun mp a => t1.foldl (fun mp b => omAddDirected mp a b) mp) mp)
    []

/-- `canPair(mp, a, b) = !strict || !(mp.get(slug(a))?.has(slug(b)))`. -/
def canPair (strict : Bool) (mp : PMap) (a b : String) : Bool :=
  !strict || !(pmHas mp a b)

/-- `haventOpposed`, textually identical to `canPair` in the source. -/
def haventOpposed (strict : Bool) (mp : PMap) (a b : String) : Bool :=
  !strict || !(pmHas mp a b)

/-- The unguarded symmetric partner-map insertion performed when a pair is
committed during round building. -/
def commitPair (mp : PMap) (g h : String) : PMap :=
  (slug g, slug h) :: (slug h, slug g) :: mp

/- ========================= Round building ========================= -/

/-- An entry of the `pairs` array: a two-person team plus its optional tag. -/
structure PairT where
  team : String × String
  tag : Option Tag := none
deriving Repr, DecidableEq

/-- The swap search `for (let j = i + 1; j < n; j++)`; the second argument
is the remaining iteration count `n - j`. -/
def findSwap (strict : Bool) (pm : PMap) (g : String) (H : List String) :
    Nat → Nat → Option Nat
  | _, 0 => none
  | j, k + 1 =>
    if canPair strict pm g (H.getD j "") then some j
    else findSwap strict pm g H (j + 1) k

/-- The 1:1 mixed-pair loop of `buildRound` (`for i = 0..n-1` with
`n = min(|G|, |H|)`), written with the remaining iteration count `n - i`
as a structural counter.  State threaded exactly as in the source: the
mutable `H` array, the partner map (updated on every commit), and the
accumulated `pairs`. -/
def mixedPass (strict : Bool) (G : List String) :
    Nat → Nat → List String → PMap → List PairT → List PairT × PMap × List String
  | _, 0, H, pm, acc => (acc, pm, H)
  | i, k + 1, H, pm, acc =>
    let g := G.getD i ""
    let h0 := H.getD i ""
    if canPair strict pm g h0 then
      mixedPass strict G (i + 1) k H (commitPair pm g h0) (acc ++ [⟨(g, h0), none⟩])
    else
      match findSwap strict pm g H (i + 1) k with
      | some j =>
        let H2 := swapList H i j
        let h2 := H2.getD i ""
        mixedPass strict G (i + 1) k H2 (commitPair pm g h2) (acc ++ [⟨(g, h2), none⟩])
      | none =>
        mixedPass strict G (i + 1) k H (commitPair pm g h0) (acc ++ [⟨(g, h0), none⟩])

/-- The opponent-compatibility test for two candidate teams (all four cross
pairs must pass `haventOpposed`). -/
def oppOk (strict : Bool) (om : PMap) (a b : PairT) : Bool :=
  haventOpposed strict om a.team.1 b.team.1 &&
  haventOpposed strict om a.team.1 b.team.2 &&
  haventOpposed strict om a.team.2 b.team.1 &&
  haventOpposed strict om a.team.2 b.team.2

/-- A single directed opponent-map insertion (the update loops after a
match is formed carry no emptiness guard). -/
def omIns (om : PMap) (a b : String) : PMap := (slug a, slug b) :: om

/-- Record the eight directed opponent relations of a new match. -/
def omAddAll (om : PMap) (a b : PairT) : PMap :=
  let om := omIns om a.team.1 b.team.1
  let om := omIns om a.team.1 b.team.2
  let om := omIns om a.team.2 b.team.1
  let om := omIns om a.team.2 b.team.2
  let om := omIns om b.team.1 a.team.1
  let om := omIns om b.team.1 a.team.2
  let om := omIns om b.team.2 a.team.1
  omIns om b.team.2 a.team.2

/-- The court-assignment loop (`while (teamList.length >= 2)`): take the
first team, scan for the first opponent-compatible partner (else index 0),
record the new opponent relations, emit a `MatchRow`.  The match id embeds
`Date.now()` and `Math.random()` in the source; that nondeterminism is the
`idGen` oracle, applied to the (unique) court number.  The first argument
is a structural bound, always called with the list length. -/
def matchTeams (strict : Bool) (idGen : Nat → String) (roundIdx : Nat) :
    Nat → PMap → List PairT → Nat → List MatchRow
  | 0, _, _, _ => []
  | _ + 1, _, [], _ => []
  | _ + 1, _, [_], _ => []
  | fuel + 1, om, a :: rest, court =>
    let idx := (rest.findIdx? (fun b => oppOk strict om a b)).getD 0
    match rest.get? idx with
    | none => []
    | some b =>
      let rest2 := rest.eraseIdx idx
      let om2 := omAddAll om a b
      { id := idGen court, round := roundIdx, court := court,
        t1p1 := a.team.1, t1p2 := a.team.2,
        t2p1 := b.team.1, t2p2 := b.team.2,
        tag := a.tag.orElse (fun _ => b.tag), scoreText := some "" } ::
      matchTeams strict idGen roundIdx fuel om2 rest2 (court + 1)

/-- The full `pairs` array of one round: the 1:1 mixed-pair pass, then the
leftover same-gender teams (first two leftover guys, first two leftover
girls; note the leftover girls are read from the post-swap `H`). -/
def roundTeams (strict : Bool) (G H : List String) (pm : PMap) : List PairT :=
  let n := min G.length H.length
  let res := mixedPass strict G 0 n H pm []
  let pairs := res.1
  let Hf := res.2.2
  let extraGuys := G.drop n
  let extraGirls := Hf.drop n
  pairs ++
    (if 2 ≤ extraGuys.length then
      [⟨(extraGuys.getD 0 "", extraGuys.getD 1 ""), some Tag.ULTIMATE_REVCO⟩] else []) ++
    (if 2 ≤ extraGirls.length then
      [⟨(extraGirls.getD 0 "", extraGirls.getD 1 ""), some Tag.POWER_PUFF⟩] else [])

/-- `buildRound` after the two shuffles: history maps, team formation, and
court assignment. -/
def buildRoundFrom (strict : Bool) (idGen : Nat → String) (G H : List String)
    (history : List MatchRow) (roundIdx startCourt : Nat) : List MatchRow :=
  let om := buildOpponentMap history
  let allPairs := roundTeams strict G H (buildPartnerMap history)
  matchTeams strict idGen roundIdx allPairs.length om allPairs startCourt

/-- `buildRound(roundIdx, history)`: shuffles the rosters (girls are seeded
with `seedNum ? seedNum + 17 : undefined`, so a `0` seed falls back to the
unseeded oracle for the girls while the guys still use `0` via `??`),
then delegates to the paired passes above. -/
def buildRound (strict : Bool) (guys girls : List String) (seedNum : Option Nat)
    (oracleG oracleH : Nat) (idGen : Nat → String) (roundIdx startCourt : Nat)
    (history : List MatchRow) : List MatchRow :=
  let G := shuffle guys seedNum oracleG
  let H := shuffle girls
    (match seedNum with
     | some s => if s ≠ 0 then some (s + 17) else none
     | none => none) oracleH
  buildRoundFrom strict idGen G H history roundIdx startCourt

/-- `matches.reduce((mx, m) => Math.max(mx, m.round), 0) || 0`. -/
def maxRound (ms : List MatchRow) : Nat := ms.foldl (fun mx m => max mx m.round) 0

/-- The round-generation loop of `onGenerate`: rounds are numbered from
`maxRound + 1`, and each generated round is appended to the history seen
by the next one.  `oracles`/`idGens` supply the per-round nondeterminism. -/
def generateRoundsGo (strict : Bool) (guys girls : List String) (seedNum : Option Nat)
    (oracles : Nat → Nat × Nat) (idGens : Nat → Nat → String) (startCourt : Nat) :
    Nat → Nat → List MatchRow → List MatchRow
  | _, 0, _ => []
  | i, k + 1, history =>
    let one := buildRound strict guys girls seedNum (oracles i).1 (oracles i).2
      (idGens i) i startCourt history
    one ++ generateRoundsGo strict guys girls seedNum oracles idGens startCourt
      (i + 1) k (history ++ one)

/-- `generateRounds`: the new matches produced by one generation batch. -/
def generateRounds (strict : Bool) (guys girls : List String) (seedNum : Option Nat)
    (oracles : Nat → Nat × Nat) (idGens : Nat → Nat → String)
    (roundCount startCourt : Nat) (history : List MatchRow) : List MatchRow :=
  generateRoundsGo strict guys girls seedNum oracles idGens startCourt
    (maxRound history + 1) roundCount history

/- ========================= Mixed-pair pass: lemmas ========================= -/

theorem swapList_length (l : List String) (i j : Nat) :
    (swapList l i j).length = l.length := by
  simp [swapList]

theorem swapList_getElem? (l : List String) (i j k : Nat)
    (hi : i < l.length) (hj : j < l.length) :
    (swapList l i j)[k]? = if j = k then l[i]? else if i = k then l[j]? else l[k]? := by
  simp only [swapList, List.getElem?_set, List.length_set,
    List.getD_eq_getElem?_getD]
  rcases eq_or_ne j k with rfl | hjk
  · simp [hj, List.getElem?_eq_getElem hi]
  · rcases eq_or_ne i k with rfl | hik
    · simp [hjk, hi, List.getElem?_eq_getElem hj]
    · simp [hjk, hik]

theorem swapList_getD_fst (l : List String) (i j : Nat)
    (hi : i < l.length) (hj : j < l.length) :
    (swapList l i j).getD i "" = l.getD j "" := by
  rw [List.getD_eq_getElem?_getD, List.getD_eq_getElem?_getD,
    swapList_getElem? l i j i hi hj]
  rcases eq_or_ne j i with rfl | hji
  · simp
  · simp [hji]

/-- The swap search is exactly a first-match scan over the positions
`j, j+1, ..., j+k-1`. -/
theorem findSwap_eq_find? (strict : Bool) (pm : PMap) (g : String) (H : List String) :
    ∀ k j, findSwap strict pm g H j k
      = (List.range' j k).find? (fun x => canPair strict pm g (H.getD x "")) := by
  intro k
  induction k with
  | zero => intro j; simp [findSwap]
  | succ k ih =>
    intro j
    rw [List.range'_succ]
    simp only [findSwap, List.find?_cons]
    rcases hc : canPair strict pm g (H.getD j "") with _ | _
    · simp [ih (j + 1)]
    · simp

/-- The mixed-pair loop commits exactly one pair per position: it can
never fail, and a full run from position `0` emits `n` pairs. -/
theorem mixedPass_fst_length (strict : Bool) (G : List String) :
    ∀ (k i : Nat) (H : List String) (pm : PMap) (acc : List PairT),
      ((mixedPass strict G i k H pm acc).1).length = acc.length + k := by
  intro k
  induction k with
  | zero => intro i H pm acc; simp [mixedPass]
  | succ k ih =>
    intro i H pm acc
    simp only [mixedPass]
    rcases hc : canPair strict pm (G.getD i "") (H.getD i "") with _ | _
    · simp only [Bool.false_eq_true, if_false]
      rcases hf : findSwap strict pm (G.getD i "") H (i + 1) k with _ | j
      · simp only [ih]; simp; omega
      · simp only [ih]; simp; omega
    · simp only [if_true]
      simp only [ih]; simp; omega

/-- The per-position behavior of the (strict-mode) 1:1 pass as the amended
specification describes it: pair `G[i]` with `H[i]` unless they are already
partners, in which case the first not-yet-partnered girl among positions
`i+1 .. n-1` (`n = min(|G|, |H|)` — positions beyond the 1:1 range are
never scanned) is swapped into position `i`; if none exists the repeat
pair is committed anyway. -/
def mixedStepSpec (G H : List String) (pm : PMap) (acc : List PairT)
    (i k : Nat) : List PairT × PMap × List String :=
  let g := G.getD i ""
  let h0 := H.getD i ""
  if pmHas pm g h0 = false then
    mixedPass true G (i + 1) k H (commitPair pm g h0) (acc ++ [⟨(g, h0), none⟩])
  else
    match (List.range' (i + 1) k).find? (fun x => !(pmHas pm g (H.getD x ""))) with
    | some j =>
      mixedPass true G (i + 1) k (swapList H i j) (commitPair pm g (H.getD j ""))
        (acc ++ [⟨(g, H.getD j ""), none⟩])
    | none =>
      mixedPass true G (i + 1) k H (commitPair pm g h0) (acc ++ [⟨(g, h0), none⟩])

theorem mixedPass_step (G H : List String) (pm : PMap) (acc : List PairT)
    (i k : Nat) (hH : i + (k + 1) ≤ H.length) :
    mixedPass true G i (k + 1) H pm acc = mixedStepSpec G H pm acc i k := by
  have hi : i < H.length := by omega
  simp only [mixedPass, mixedStepSpec, canPair, Bool.not_eq_eq_eq_not, Bool.not_true,
    Bool.true_and]
  rcases hp : pmHas pm (G.getD i "") (H.getD i "") with _ | _
  · simp
  · simp only [Bool.not_true, Bool.false_eq_true, if_false,
      findSwap_eq_find? true pm (G.getD i "") H k (i + 1)]
    have hpred : (fun x => canPair true pm (G.getD i "") (H.getD x ""))
        = fun x => !(pmHas pm (G.getD i "") (H.getD x "")) := by
      funext x; simp [canPair]
    rw [hpred]
    rcases hf : (List.range' (i + 1) k).find? (fun x => !(pmHas pm (G.getD i "") (H.getD x ""))) with _ | j
    · simp
    · have hjmem : j ∈ List.range' (i + 1) k := List.mem_of_find?_eq_some hf
      have hjlt : j < H.length := by
        have := List.mem_range'_1.mp hjmem
        omega
      have heq : (swapList H i j)[i]?.getD "" = H[j]?.getD "" := by
        rw [← List.getD_eq_getElem?_getD, ← List.getD_eq_getElem?_getD]
        exact swapList_getD_fst H i j hi hjlt
      simp [heq]

/- ========================= C1 ========================= -/

/-- C1 counterexample: one guy, two girls, strict mode, with `g1`/`h1`
former partners.  The 1:1 pass covers only `min(|G|, |H|) = 1` position
and the swap scan runs over `H[i+1..n-1]`, not the whole girls tail, so
the never-partnered girl `h2` (who sits after position 0) is NOT swapped
in: the repeat pair `(g1, h1)` is committed, contradicting the claim that
the first girl after position `i` not yet partnered with `G[i]` is used. -/
theorem mixedPass_swap_scan_cex :
    min (["g1"] : List String).length (["h1", "h2"] : List String).length = 1 ∧
    pmHas (buildPartnerMap
      [{ id := "m1", round := 1, court := 1,
         t1p1 := "g1", t1p2 := "h1", t2p1 := "x", t2p2 := "y" }]) "g1" "h1" = true ∧
    pmHas (buildPartnerMap
      [{ id := "m1", round := 1, court := 1,
         t1p1 := "g1", t1p2 := "h1", t2p1 := "x", t2p2 := "y" }]) "g1" "h2" = false ∧
    roundTeams true ["g1"] ["h1", "h2"]
      (buildPartnerMap
        [{ id := "m1", round := 1, court := 1,
           t1p1 := "g1", t1p2 := "h1", t2p1 := "x", t2p2 := "y" }])
      = [⟨("g1", "h1"), none⟩] := by decide

/-- C1 (amended): in strict mode, each position of the 1:1 mixed-pair pass
commits exactly one pair — pairing never fails and a full pass from
position 0 always commits `min(|G|, |H|)` pairs — and the per-position
behavior is `mixedStepSpec`: a repeat pair `G[i]`-`H[i]` is replaced by
swapping in the first girl among positions `i+1 .. n-1` (not the whole
tail of `H`) who has never partnered `G[i]`, and if no such girl exists
there, the repeat pair is committed anyway. -/
theorem mixedPass_strict_spec :
    (∀ (strict : Bool) (G H : List String) (pm : PMap),
      ((mixedPass strict G 0 (min G.length H.length) H pm []).1).length
        = min G.length H.length) ∧
    (∀ (G H : List String) (pm : PMap) (acc : List PairT) (i k : Nat),
      i + (k + 1) ≤ H.length →
      mixedPass true G i (k + 1) H pm acc = mixedStepSpec G H pm acc i k) := by
  constructor
  · intro strict G H pm
    simpa using mixedPass_fst_length strict G (min G.length H.length) 0 H pm []
  · intro G H pm acc i k h
    exact mixedPass_step G H pm acc i k h

/-- Witness for `mixedPass_strict_spec` at the §8 scenario
(`G = [Al, Bo]`, `H = [Cy, Di]`, history pairs Al-Cy and Bo-Di). -/
theorem mixedPass_strict_spec_witness :
    0 + (1 + 1) ≤ (["Cy", "Di"] : List String).length ∧
    mixedPass true ["Al", "Bo"] 0 (1 + 1) ["Cy", "Di"]
        [("al", "cy"), ("cy", "al"), ("bo", "di"), ("di", "bo")] []
      = mixedStepSpec ["Al", "Bo"] ["Cy", "Di"]
        [("al", "cy"), ("cy", "al"), ("bo", "di"), ("di", "bo")] [] 0 1 :=
  ⟨by decide,
   mixedPass_strict_spec.2 ["Al", "Bo"] ["Cy", "Di"]
     [("al", "cy"), ("cy", "al"), ("bo", "di"), ("di", "bo")] [] 0 1 (by decide)⟩

/- ========================= C7: seeded determinism ========================= -/

/-- Every field of a generated `MatchRow` except the nondeterministic `id`. -/
def rowData (m : MatchRow) :
    Nat × Nat × String × String × String × String × Option Tag × Option String :=
  (m.round, m.court, m.t1p1, m.t1p2, m.t2p1, m.t2p2, m.tag, m.scoreText)

theorem buildPartnerMap_congr :
    ∀ (h1 h2 : List MatchRow), h1.map rowData = h2.map rowData →
      buildPartnerMap h1 = buildPartnerMap h2 := by
  have aux : ∀ (h1 h2 : List MatchRow), h1.map rowData = h2.map rowData →
      ∀ mp, h1.foldl (fun mp m => pmAddPair (pmAddPair mp m.t1p1 m.t1p2) m.t2p1 m.t2p2) mp
        = h2.foldl (fun mp m => pmAddPair (pmAddPair mp m.t1p1 m.t1p2) m.t2p1 m.t2p2) mp := by
    intro h1
    induction h1 with
    | nil => intro h2 he mp; cases h2 <;> simp_all
    | cons m t ih =>
      intro h2 he mp
      cases h2 with
      | nil => simp at he
      | cons m2 t2 =>
        simp only [List.map_cons, List.cons.injEq] at he
        obtain ⟨hm, ht⟩ := he
        simp only [rowData, Prod.mk.injEq] at hm
        obtain ⟨_, _, e1, e2, e3, e4, _, _⟩ := hm
        simp only [List.foldl_cons, e1, e2, e3, e4]
        exact ih t2 ht _
  intro h1 h2 he
  exact aux h1 h2 he []

theorem buildOpponentMap_congr :
    ∀ (h1 h2 : List MatchRow), h1.map rowData = h2.map rowData →
      buildOpponentMap h1 = buildOpponentMap h2 := by
  have aux : ∀ (h1 h2 : List MatchRow), h1.map rowData = h2.map rowData →
      ∀ mp,
        h1.foldl (fun mp m =>
          let t1 := [m.t1p1, m.t1p2]
          let t2 := [m.t2p1, m.t2p2]
          let mp := t1.foldl (fun mp a => t2.foldl (fun mp b => omAddDirected mp a b) mp) mp
          t2.foldl (fun mp a => t1.foldl (fun mp b => omAddDirected mp a b) mp) mp) mp
        = h2.foldl (fun mp m =>
          let t1 := [m.t1p1, m.t1p2]
          let t2 := [m.t2p1, m.t2p2]
          let mp := t1.foldl (fun mp a => t2.foldl (fun mp b => omAddDirected mp a b) mp) mp
          t2.foldl (fun mp a => t1.foldl (fun mp b => omAddDirected mp a b) mp) mp) mp := by
    intro h1
    induction h1 with
    | nil => intro h2 he mp; cases h2 <;> simp_all
    | cons m t ih =>
      intro h2 he mp
      cases h2 with
      | nil => simp at he
      | cons m2 t2 =>
        simp only [List.map_cons, List.cons.injEq] at he
        obtain ⟨hm, ht⟩ := he
        simp only [rowData, Prod.mk.injEq] at hm
        obtain ⟨_, _, e1, e2, e3, e4, _, _⟩ := hm
        simp only [List.foldl_cons, e1, e2, e3, e4]
        exact ih t2 ht _
  intro h1 h2 he
  exact aux h1 h2 he []

theorem maxRound_congr (h1 h2 : List MatchRow)
    (he : h1.map rowData = h2.map rowData) : maxRound h1 = maxRound h2 := by
  have aux : ∀ (h1 h2 : List MatchRow), h1.map rowData = h2.map rowData →
      ∀ mx, h1.foldl (fun mx m => max mx m.round) mx = h2.foldl (fun mx m => max mx m.round) mx := by
    intro h1
    induction h1 with
    | nil => intro h2 he mx; cases h2 <;> simp_all
    | cons m t ih =>
      intro h2 he mx
      cases h2 with
      | nil => simp at he
      | cons m2 t2 =>
        simp only [List.map_cons, List.cons.injEq] at he
        obtain ⟨hm, ht⟩ := he
        simp only [rowData, Prod.mk.injEq] at hm
        obtain ⟨e0, _⟩ := hm
        simp only [List.foldl_cons, e0]
        exact ih t2 ht _
  exact aux h1 h2 he 0

/-- The generated match list, seen through `rowData`, does not depend on
the id oracle. -/
theorem matchTeams_map_rowData (strict : Bool) (ig1 ig2 : Nat → String) (r : Nat) :
    ∀ (fuel : Nat) (om : PMap) (l : List PairT) (court : Nat),
      (matchTeams strict ig1 r fuel om l court).map rowData
        = (matchTeams strict ig2 r fuel om l court).map rowData := by
  intro fuel
  induction fuel with
  | zero => intro om l court; simp [matchTeams]
  | succ fuel ih =>
    intro om l court
    match l with
    | [] => simp [matchTeams]
    | [a] => simp [matchTeams]
    | a :: b0 :: rest =>
      simp only [matchTeams]
      rcases hg : (b0 :: rest).get?
          (((b0 :: rest).findIdx? (fun b => oppOk strict om a b)).getD 0) with _ | b
      · simp
      · simp only [List.map_cons, List.cons.injEq, rowData]
        exact ⟨trivial, ih _ _ _⟩

/-- One seeded `buildRound` is deterministic modulo ids: with a nonzero
integer seed neither the shuffles nor any non-id field depends on the
`Math.random` / `Date.now` oracles, and histories that agree modulo ids
produce the same round modulo ids. -/
theorem buildRound_map_rowData (strict : Bool) (guys girls : List String) (s : Nat)
    (hs : s ≠ 0) (o1G o1H o2G o2H : Nat) (ig1 ig2 : Nat → String) (r sc : Nat)
    (hist1 hist2 : List MatchRow) (hh : hist1.map rowData = hist2.map rowData) :
    (buildRound strict guys girls (some s) o1G o1H ig1 r sc hist1).map rowData
      = (buildRound strict guys girls (some s) o2G o2H ig2 r sc hist2).map rowData := by
  simp only [buildRound, Option.getD_some, hs, if_pos, ne_eq, not_false_iff, shuffle,
    Option.getD]
  simp only [buildRoundFrom]
  rw [buildPartnerMap_congr hist1 hist2 hh, buildOpponentMap_congr hist1 hist2 hh]
  exact matchTeams_map_rowData strict ig1 ig2 r _ _ _ _

theorem generateRoundsGo_map_rowData (strict : Bool) (guys girls : List String)
    (s : Nat) (hs : s ≠ 0) (or1 or2 : Nat → Nat × Nat) (ig1 ig2 : Nat → Nat → String)
    (sc : Nat) :
    ∀ (k i : Nat) (hist1 hist2 : List MatchRow),
      hist1.map rowData = hist2.map rowData →
      (generateRoundsGo strict guys girls (some s) or1 ig1 sc i k hist1).map rowData
        = (generateRoundsGo strict guys girls (some s) or2 ig2 sc i k hist2).map rowData := by
  intro k
  induction k with
  | zero => intro i hist1 hist2 hh; simp [generateRoundsGo]
  | succ k ih =>
    intro i hist1 hist2 hh
    simp only [generateRoundsGo, List.map_append]
    have hone := buildRound_map_rowData strict guys girls s hs (or1 i).1 (or1 i).2
      (or2 i).1 (or2 i).2 (ig1 i) (ig2 i) i sc hist1 hist2 hh
    rw [hone]
    congr 1
    apply ih
    simp only [List.map_append, hh, hone]

/-- C7 (amended): with the same nonzero integer seed and identical inputs,
`generateRounds` is deterministic in every generated field except the
match `id` (which embeds `Date.now()` and `Math.random()` and so differs
between calls): for any two runs, arbitrary id/unseeded-shuffle oracles
included, the outputs agree through `rowData`. -/
theorem generateRounds_seeded_deterministic (strict : Bool) (guys girls : List String)
    (s : Nat) (hs : s ≠ 0) (or1 or2 : Nat → Nat × Nat) (ig1 ig2 : Nat → Nat → String)
    (rc sc : Nat) (history : List MatchRow) :
    (generateRounds strict guys girls (some s) or1 ig1 rc sc history).map rowData
      = (generateRounds strict guys girls (some s) or2 ig2 rc sc history).map rowData := by
  simp only [generateRounds]
  exact generateRoundsGo_map_rowData strict guys girls s hs or1 or2 ig1 ig2 sc rc _
    history history rfl

/-- Witness for `generateRounds_seeded_deterministic`: seed 42, one round,
one guy and one girl, two different oracle bundles. -/
theorem generateRounds_seeded_deterministic_witness :
    (42 : Nat) ≠ 0 ∧
    (generateRounds true ["A", "C"] ["B", "D"] (some 42) (fun _ => (0, 0))
        (fun _ _ => "x") 1 1 []).map rowData
      = (generateRounds true ["A", "C"] ["B", "D"] (some 42) (fun _ => (7, 9))
        (fun _ _ => "y") 1 1 []).map rowData :=
  ⟨by decide,
   generateRounds_seeded_deterministic true ["A", "C"] ["B", "D"] 42 (by decide)
     (fun _ => (0, 0)) (fun _ => (7, 9)) (fun _ _ => "x") (fun _ _ => "y") 1 1 []⟩

/-- C7 counterexample: the outputs of two calls with byte-identical rosters,
history and options are NOT byte-identical, because the id field embeds
`Date.now()` and `Math.random()` (modeled by the id oracle, which differs
between any two real calls). -/
theorem generateRounds_ids_cex :
    generateRounds true ["A", "C"] ["B", "D"] (some 42) (fun _ => (0, 0))
        (fun _ _ => "1-1-1730000000000-aaaaa") 1 1 []
      ≠ generateRounds true ["A", "C"] ["B", "D"] (some 42) (fun _ => (0, 0))
        (fun _ _ => "1-1-1730000000001-bbbbb") 1 1 [] := by decide

/- ========================= C8: leftover handling ========================= -/

/-- The four participant names of a pool match. -/
def matchPlayers (m : MatchRow) : List String := [m.t1p1, m.t1p2, m.t2p1, m.t2p2]

/-- All pairs committed by the 1:1 pass are untagged. -/
theorem mixedPass_tags (strict : Bool) (G : List String) :
    ∀ (k i : Nat) (H : List String) (pm : PMap) (acc : List PairT) (p : PairT),
      p ∈ (mixedPass strict G i k H pm acc).1 → p ∈ acc ∨ p.tag = none := by
  intro k
  induction k with
  | zero => intro i H pm acc p hp; simp only [mixedPass] at hp; exact Or.inl hp
  | succ k ih =>
    intro i H pm acc p hp
    simp only [mixedPass] at hp
    rcases hc : canPair strict pm (G.getD i "") (H.getD i "") with _ | _ <;>
      simp only [hc, Bool.false_eq_true, if_false, if_true] at hp
    · rcases hf : findSwap strict pm (G.getD i "") H (i + 1) k with _ | j <;>
        simp only [hf] at hp
      · rcases ih (i + 1) H _ _ p hp with hmem | ht
        · rcases List.mem_append.mp hmem with h | h
          · exact Or.inl h
          · simp at h; subst h; exact Or.inr rfl
        · exact Or.inr ht
      · rcases ih (i + 1) _ _ _ p hp with hmem | ht
        · rcases List.mem_append.mp hmem with h | h
          · exact Or.inl h
          · simp at h; subst h; exact Or.inr rfl
        · exact Or.inr ht
    · rcases ih (i + 1) H _ _ p hp with hmem | ht
      · rcases List.mem_append.mp hmem with h | h
        · exact Or.inl h
        · simp at h; subst h; exact Or.inr rfl
      · exact Or.inr ht

theorem getD_mem_take {l : List String} {i n : Nat} (hi : i < n) (hl : i < l.length) :
    l.getD i "" ∈ l.take n := by
  rw [List.getD_eq_getElem?_getD, List.getElem?_eq_getElem hl]
  exact List.mem_take_iff_getElem.mpr ⟨i, by omega, rfl⟩

theorem swapList_take_subset {H : List String} {i j n : Nat} (hi : i < n) (hj : j < n)
    (hi2 : i < H.length) (hj2 : j < H.length) {x : String}
    (hx : x ∈ (swapList H i j).take n) : x ∈ H.take n := by
  rcases List.mem_take_iff_getElem.mp hx with ⟨m, hm, he⟩
  have hlen : (swapList H i j).length = H.length := swapList_length H i j
  have hm2 : m < H.length := by
    have := hm; simp [hlen] at this; omega
  have hme : (swapList H i j)[m]? = some x := by
    rw [List.getElem?_eq_getElem (by omega)]
    exact congrArg some he
  rw [swapList_getElem? H i j m hi2 hj2] at hme
  by_cases hjm : j = m
  · subst hjm
    rw [if_pos rfl, List.getElem?_eq_getElem hi2] at hme
    cases hme
    exact List.mem_take_iff_getElem.mpr ⟨i, by omega, rfl⟩
  · rw [if_neg hjm] at hme
    by_cases him : i = m
    · subst him
      rw [if_pos rfl, List.getElem?_eq_getElem hj2] at hme
      cases hme
      exact List.mem_take_iff_getElem.mpr ⟨j, by omega, rfl⟩
    · rw [if_neg him, List.getElem?_eq_getElem hm2] at hme
      cases hme
      have hmn : m < n := by
        have := hm; simp [hlen] at this; omega
      exact List.mem_take_iff_getElem.mpr ⟨m, by omega, rfl⟩

/-- Every pair committed by a run of the 1:1 pass over positions
`i .. i+k-1` draws its guy from `G.take (i+k)` and its girl from
`H.take (i+k)`. -/
theorem mixedPass_members (strict : Bool) (G : List String) :
    ∀ (k i : Nat) (H : List String) (pm : PMap) (acc : List PairT)
      (hG : i + k ≤ G.length) (hH : i + k ≤ H.length) (p : PairT),
      p ∈ (mixedPass strict G i k H pm acc).1 →
      p ∈ acc ∨ (p.team.1 ∈ G.take (i + k) ∧ p.team.2 ∈ H.take (i + k)) := by
  intro k
  induction k with
  | zero => intro i H pm acc hG hH p hp; simp only [mixedPass] at hp; exact Or.inl hp
  | succ k ih =>
    intro i H pm acc hG hH p hp
    have hiG : i < G.length := by omega
    have hiH : i < H.length := by omega
    simp only [mixedPass] at hp
    rcases hc : canPair strict pm (G.getD i "") (H.getD i "") with _ | _ <;>
      simp only [hc, Bool.false_eq_true, if_false, if_true] at hp
    · rcases hf : findSwap strict pm (G.getD i "") H (i + 1) k with _ | j <;>
        simp only [hf] at hp
      · rcases ih (i + 1) H _ _ (by omega) (by omega) p hp with hmem | hin
        · rcases List.mem_append.mp hmem with h | h
          · exact Or.inl h
          · simp at h; subst h
            refine Or.inr ⟨?_, ?_⟩
            · simpa using getD_mem_take (show i < i + (k + 1) by omega) hiG
            · simpa using getD_mem_take (show i < i + (k + 1) by omega) hiH
        · have : i + 1 + k = i + (k + 1) := by omega
          rw [this] at hin
          exact Or.inr hin
      · have hj : i + 1 ≤ j ∧ j < i + 1 + k := by
          have := List.mem_range'_1.mp (List.mem_of_find?_eq_some
            (by rw [← findSwap_eq_find?]; exact hf))
          omega
        have hjH : j < H.length := by omega
        rcases ih (i + 1) _ _ _ (by omega) (by simp [swapList_length]; omega) p hp with hmem | hin
        · rcases List.mem_append.mp hmem with h | h
          · exact Or.inl h
          · simp at h; subst h
            refine Or.inr ⟨?_, ?_⟩
            · simpa using getD_mem_take (show i < i + (k + 1) by omega) hiG
            · have hsw : (swapList H i j).getD i "" = H.getD j "" :=
                swapList_getD_fst H i j hiH hjH
              have hmem := getD_mem_take (show j < i + (k + 1) by omega) hjH
              rw [← hsw] at hmem
              simpa using hmem
        · have heq : i + 1 + k = i + (k + 1) := by omega
          rw [heq] at hin
          exact Or.inr ⟨hin.1,
            swapList_take_subset (by omega) (by omega) hiH hjH hin.2⟩
    · rcases ih (i + 1) H _ _ (by omega) (by omega) p hp with hmem | hin
      · rcases List.mem_append.mp hmem with h | h
        · exact Or.inl h
        · simp at h; subst h
          refine Or.inr ⟨?_, ?_⟩
          · simpa using getD_mem_take (show i < i + (k + 1) by omega) hiG
          · simpa using getD_mem_take (show i < i + (k + 1) by omega) hiH
      · have : i + 1 + k = i + (k + 1) := by omega
        rw [this] at hin
        exact Or.inr hin

theorem mixedPass_H_length (strict : Bool) (G : List String) :
    ∀ (k i : Nat) (H : List String) (pm : PMap) (acc : List PairT),
      ((mixedPass strict G i k H pm acc).2.2).length = H.length := by
  intro k
  induction k with
  | zero => intro i H pm acc; simp [mixedPass]
  | succ k ih =>
    intro i H pm acc
    simp only [mixedPass]
    rcases hc : canPair strict pm (G.getD i "") (H.getD i "") with _ | _ <;>
      simp only [Bool.false_eq_true, if_false, if_true]
    · rcases hf : findSwap strict pm (G.getD i "") H (i + 1) k with _ | j <;>
        simp only []
      · exact ih (i + 1) H _ _
      · rw [ih (i + 1) _ _ _, swapList_length]
    · exact ih (i + 1) H _ _

/-- The 1:1 pass never moves a girl at or beyond position `i + k`. -/
theorem mixedPass_H_high (strict : Bool) (G : List String) :
    ∀ (k i : Nat) (H : List String) (pm : PMap) (acc : List PairT) (d : Nat)
      (hk : i + k ≤ H.length) (hd : i + k ≤ d),
      ((mixedPass strict G i k H pm acc).2.2)[d]? = H[d]? := by
  intro k
  induction k with
  | zero => intro i H pm acc d hk hd; simp [mixedPass]
  | succ k ih =>
    intro i H pm acc d hk hd
    have hiH : i < H.length := by omega
    simp only [mixedPass]
    rcases hc : canPair strict pm (G.getD i "") (H.getD i "") with _ | _ <;>
      simp only [Bool.false_eq_true, if_false, if_true]
    · rcases hf : findSwap strict pm (G.getD i "") H (i + 1) k with _ | j <;>
        simp only []
      · exact ih (i + 1) H _ _ d (by omega) (by omega)
      · have hj : i + 1 ≤ j ∧ j < i + 1 + k := by
          have := List.mem_range'_1.mp (List.mem_of_find?_eq_some
            (by rw [← findSwap_eq_find?]; exact hf))
          omega
        have hjH : j < H.length := by omega
        rw [ih (i + 1) _ _ _ d (by simp [swapList_length]; omega) (by omega)]
        rw [swapList_getElem? H i j d hiH hjH]
        rw [if_neg (by omega), if_neg (by omega)]
    · exact ih (i + 1) H _ _ d (by omega) (by omega)

/-- The girls left over after the 1:1 pass are exactly the tail of the
(shuffled) girls list: swaps never reach positions `≥ n`. -/
theorem mixedPass_drop (strict : Bool) (G H : List String) (pm : PMap) :
    ((mixedPass strict G 0 (min G.length H.length) H pm []).2.2).drop
        (min G.length H.length)
      = H.drop (min G.length H.length) := by
  apply List.ext_getElem?
  intro t
  rw [List.getElem?_drop, List.getElem?_drop]
  exact mixedPass_H_high strict G (min G.length H.length) 0 H pm []
    (min G.length H.length + t) (by omega) (by omega)

theorem roundTeams_filter_revco (strict : Bool) (G H : List String) (pm : PMap) :
    (roundTeams strict G H pm).filter (fun p => p.tag = some Tag.ULTIMATE_REVCO)
      = if 2 ≤ (G.drop (min G.length H.length)).length then
          [⟨((G.drop (min G.length H.length)).getD 0 "",
             (G.drop (min G.length H.length)).getD 1 ""), some Tag.ULTIMATE_REVCO⟩]
        else [] := by
  simp only [roundTeams, List.filter_append]
  have h1 : (mixedPass strict G 0 (min G.length H.length) H pm []).1.filter
      (fun p => decide (p.tag = some Tag.ULTIMATE_REVCO)) = [] := by
    rw [List.filter_eq_nil]
    intro p hp
    rcases mixedPass_tags strict G _ 0 H pm [] p hp with h | h
    · simp at h
    · simp [h]
  rw [h1]
  simp only [List.length_drop, mixedPass_H_length]
  by_cases h2 : 2 ≤ G.length - G.length ⊓ H.length <;>
    by_cases h3 : 2 ≤ H.length - G.length ⊓ H.length <;>
    simp [h2, h3, mixedPass_H_length]

theorem roundTeams_filter_puff (strict : Bool) (G H : List String) (pm : PMap) :
    (roundTeams strict G H pm).filter (fun p => p.tag = some Tag.POWER_PUFF)
      = if 2 ≤ (H.drop (min G.length H.length)).length then
          [⟨((H.drop (min G.length H.length)).getD 0 "",
             (H.drop (min G.length H.length)).getD 1 ""), some Tag.POWER_PUFF⟩]
        else [] := by
  simp only [roundTeams, List.filter_append, mixedPass_drop]
  have h1 : (mixedPass strict G 0 (min G.length H.length) H pm []).1.filter
      (fun p => decide (p.tag = some Tag.POWER_PUFF)) = [] := by
    rw [List.filter_eq_nil]
    intro p hp
    rcases mixedPass_tags strict G _ 0 H pm [] p hp with h | h
    · simp at h
    · simp [h]
  rw [h1]
  simp only [List.length_drop, mixedPass_H_length]
  by_cases h2 : 2 ≤ G.length - G.length ⊓ H.length <;>
    by_cases h3 : 2 ≤ H.length - G.length ⊓ H.length <;>
    simp [h2, h3, mixedPass_H_length]

/-- Every participant of a generated match is a member of one of the teams
handed to the court-assignment loop. -/
theorem matchTeams_players (strict : Bool) (ig : Nat → String) (r : Nat) :
    ∀ (fuel : Nat) (om : PMap) (l : List PairT) (court : Nat) (m : MatchRow),
      m ∈ matchTeams strict ig r fuel om l court →
      ∀ x ∈ matchPlayers m, ∃ p ∈ l, x = p.team.1 ∨ x = p.team.2 := by
  intro fuel
  induction fuel with
  | zero => intro om l court m hm; simp [matchTeams] at hm
  | succ fuel ih =>
    intro om l court m hm
    match l with
    | [] => simp [matchTeams] at hm
    | [a] => simp [matchTeams] at hm
    | a :: b0 :: rest =>
      simp only [matchTeams] at hm
      rcases hg : (b0 :: rest).get?
          (((b0 :: rest).findIdx? (fun b => oppOk strict om a b)).getD 0) with _ | b <;>
        rw [hg] at hm
      · simp at hm
      · have hb : b ∈ b0 :: rest := by
          rw [List.get?_eq_getElem?] at hg
          exact List.getElem?_mem hg
        rcases List.mem_cons.mp hm with rfl | hm2
        · intro x hx
          simp only [matchPlayers, List.mem_cons, List.not_mem_nil, or_false] at hx
          rcases hx with rfl | rfl | rfl | rfl
          · exact ⟨a, List.mem_cons_self _ _, Or.inl rfl⟩
          · exact ⟨a, List.mem_cons_self _ _, Or.inr rfl⟩
          · exact ⟨b, List.mem_cons_of_mem _ hb, Or.inl rfl⟩
          · exact ⟨b, List.mem_cons_of_mem _ hb, Or.inr rfl⟩
        · intro x hx
          obtain ⟨p, hp, ho⟩ := ih _ _ _ m hm2 x hx
          have hsub : List.Sublist
              ((b0 :: rest).eraseIdx
                (((b0 :: rest).findIdx? (fun b => oppOk strict om a b)).getD 0))
              (b0 :: rest) := List.eraseIdx_sublist _ _
          exact ⟨p, List.mem_cons_of_mem _ (hsub.subset hp), ho⟩

theorem not_mem_take_of_mem_drop {l : List String} {n : Nat} {x : String}
    (hnd : l.Nodup) (hx : x ∈ l.drop n) : x ∉ l.take n := by
  intro hmem
  have hsplit := List.take_append_drop n l
  rw [← hsplit] at hnd
  exact (List.disjoint_of_nodup_append hnd) hmem hx

theorem getD_mem {l : List String} {k : Nat} (hk : k < l.length) : l.getD k "" ∈ l := by
  rw [List.getD_eq_getElem?_getD, List.getElem?_eq_getElem hk]
  exact List.getElem_mem hk

theorem drop_getD_ne {l : List String} {n k m : Nat} {x : String} (hnd : l.Nodup)
    (hk : k < m) (hx : x ∈ (l.drop n).drop m) : x ≠ (l.drop n).getD k "" := by
  have hend : (l.drop n).Nodup := hnd.sublist (List.drop_sublist n l)
  have hm : m < (l.drop n).length := by
    by_contra hcon
    rw [List.drop_eq_nil_of_le (by omega)] at hx
    exact List.not_mem_nil x hx
  intro hxe
  have hkl : k < (l.drop n).length := by omega
  have hkm : (l.drop n).getD k "" ∈ (l.drop n).take m := getD_mem_take hk hkl
  rw [← hxe] at hkm
  exact not_mem_take_of_mem_drop hend hx hkm

/-- C8: after the 1:1 pass, the first two leftover guys (if at least two)
form exactly one extra `ULTIMATE_REVCO` team and the first two leftover
girls exactly one `POWER_PUFF` team; a single leftover player of a gender
forms no extra team and appears in no match of the round, and leftovers
beyond the first two per gender are likewise not placed. -/
theorem buildRound_leftover_spec (strict : Bool) (G H : List String) (pm : PMap)
    (history : List MatchRow) (ig : Nat → String) (r sc : Nat)
    (hndG : G.Nodup) (hndH : H.Nodup) (hdisj : ∀ y ∈ G, y ∉ H) :
    ((roundTeams strict G H pm).filter (fun p => p.tag = some Tag.ULTIMATE_REVCO)
        = if 2 ≤ (G.drop (min G.length H.length)).length then
            [⟨((G.drop (min G.length H.length)).getD 0 "",
               (G.drop (min G.length H.length)).getD 1 ""), some Tag.ULTIMATE_REVCO⟩]
          else []) ∧
    ((roundTeams strict G H pm).filter (fun p => p.tag = some Tag.POWER_PUFF)
        = if 2 ≤ (H.drop (min G.length H.length)).length then
            [⟨((H.drop (min G.length H.length)).getD 0 "",
               (H.drop (min G.length H.length)).getD 1 ""), some Tag.POWER_PUFF⟩]
          else []) ∧
    (∀ x, ((G.drop (min G.length H.length)).length = 1
          ∧ x = (G.drop (min G.length H.length)).getD 0 "")
        ∨ x ∈ (G.drop (min G.length H.length)).drop 2 →
      ∀ m ∈ buildRoundFrom strict ig G H history r sc, x ∉ matchPlayers m) ∧
    (∀ x, ((H.drop (min G.length H.length)).length = 1
          ∧ x = (H.drop (min G.length H.length)).getD 0 "")
        ∨ x ∈ (H.drop (min G.length H.length)).drop 2 →
      ∀ m ∈ buildRoundFrom strict ig G H history r sc, x ∉ matchPlayers m) := by
  refine ⟨roundTeams_filter_revco strict G H pm, roundTeams_filter_puff strict G H pm, ?_, ?_⟩
  · intro x hx m hm hxp
    have hxdrop : x ∈ G.drop (min G.length H.length) := by
      rcases hx with ⟨hlen, rfl⟩ | hx2
      · exact getD_mem (by omega)
      · exact (List.drop_sublist 2 (G.drop (min G.length H.length))).subset hx2
    have hxG : x ∈ G := (List.drop_sublist _ G).subset hxdrop
    have hxnH : x ∉ H := hdisj x hxG
    simp only [buildRoundFrom] at hm
    obtain ⟨p, hp, ho⟩ := matchTeams_players strict ig r _ _ _ _ m hm x hxp
    simp only [roundTeams, List.mem_append] at hp
    rw [mixedPass_drop] at hp
    rcases hp with (hp | hp) | hp
    · rcases mixedPass_members strict G (min G.length H.length) 0 H _ []
        (by omega) (by omega) p hp with habs | ⟨h1, h2⟩
      · simp at habs
      · rcases ho with rfl | rfl
        · exact not_mem_take_of_mem_drop hndG hxdrop (by simpa using h1)
        · exact hxnH ((List.take_sublist _ H).subset (by simpa using h2))
    · by_cases hc : 2 ≤ (G.drop (min G.length H.length)).length
      · simp only [hc, if_true, List.mem_singleton] at hp
        subst hp
        rcases hx with ⟨hlen, _⟩ | hx2
        · omega
        · rcases ho with he | he
          · exact drop_getD_ne hndG (show (0 : Nat) < 2 by omega) hx2 (by simpa using he)
          · exact drop_getD_ne hndG (show (1 : Nat) < 2 by omega) hx2 (by simpa using he)
      · rw [List.length_drop] at hc
        simp [hc] at hp
    · by_cases hc : 2 ≤ (H.drop (min G.length H.length)).length
      · simp only [hc, if_true, List.mem_singleton] at hp
        subst hp
        have h0 : (H.drop (min G.length H.length)).getD 0 "" ∈ H :=
          (List.drop_sublist _ H).subset (getD_mem (by omega))
        have h1 : (H.drop (min G.length H.length)).getD 1 "" ∈ H :=
          (List.drop_sublist _ H).subset (getD_mem (by omega))
        rcases ho with he | he
        · refine hxnH ?_
          rw [he]; simpa using h0
        · refine hxnH ?_
          rw [he]; simpa using h1
      · rw [List.length_drop] at hc
        simp [hc] at hp
  · intro x hx m hm hxp
    have hxdrop : x ∈ H.drop (min G.length H.length) := by
      rcases hx with ⟨hlen, rfl⟩ | hx2
      · exact getD_mem (by omega)
      · exact (List.drop_sublist 2 (H.drop (min G.length H.length))).subset hx2
    have hxH : x ∈ H := (List.drop_sublist _ H).subset hxdrop
    have hxnG : x ∉ G := fun hxG => hdisj x hxG hxH
    simp only [buildRoundFrom] at hm
    obtain ⟨p, hp, ho⟩ := matchTeams_players strict ig r _ _ _ _ m hm x hxp
    simp only [roundTeams, List.mem_append] at hp
    rw [mixedPass_drop] at hp
    rcases hp with (hp | hp) | hp
    · rcases mixedPass_members strict G (min G.length H.length) 0 H _ []
        (by omega) (by omega) p hp with habs | ⟨h1, h2⟩
      · simp at habs
      · rcases ho with rfl | rfl
        · exact hxnG ((List.take_sublist _ G).subset (by simpa using h1))
        · exact not_mem_take_of_mem_drop hndH hxdrop (by simpa using h2)
    · by_cases hc : 2 ≤ (G.drop (min G.length H.length)).length
      · simp only [hc, if_true, List.mem_singleton] at hp
        subst hp
        have h0 : (G.drop (min G.length H.length)).getD 0 "" ∈ G :=
          (List.drop_sublist _ G).subset (getD_mem (by omega))
        have h1 : (G.drop (min G.length H.length)).getD 1 "" ∈ G :=
          (List.drop_sublist _ G).subset (getD_mem (by omega))
        rcases ho with he | he
        · refine hxnG ?_
          rw [he]; simpa using h0
        · refine hxnG ?_
          rw [he]; simpa using h1
      · rw [List.length_drop] at hc
        simp [hc] at hp
    · by_cases hc : 2 ≤ (H.drop (min G.length H.length)).length
      · simp only [hc, if_true, List.mem_singleton] at hp
        subst hp
        rcases hx with ⟨hlen, _⟩ | hx2
        · omega
        · rcases ho with he | he
          · exact drop_getD_ne hndH (show (0 : Nat) < 2 by omega) hx2 (by simpa using he)
          · exact drop_getD_ne hndH (show (1 : Nat) < 2 by omega) hx2 (by simpa using he)
      · rw [List.length_drop] at hc
        simp [hc] at hp

/-- Witness for `buildRound_leftover_spec`: five guys, four girls (the §8
scenario: one leftover guy who is simply dropped). -/
theorem buildRound_leftover_spec_witness :
    ((roundTeams true ["A", "B", "C", "D", "E"] ["F", "Q", "R", "S"] []).filter
        (fun p => p.tag = some Tag.ULTIMATE_REVCO)
        = if 2 ≤ ((["A", "B", "C", "D", "E"] : List String).drop
              (min (["A", "B", "C", "D", "E"] : List String).length
                   (["F", "Q", "R", "S"] : List String).length)).length then
            [⟨(((["A", "B", "C", "D", "E"] : List String).drop
                  (min (["A", "B", "C", "D", "E"] : List String).length
                       (["F", "Q", "R", "S"] : List String).length)).getD 0 "",
               ((["A", "B", "C", "D", "E"] : List String).drop
                  (min (["A", "B", "C", "D", "E"] : List String).length
                       (["F", "Q", "R", "S"] : List String).length)).getD 1 ""),
              some Tag.ULTIMATE_REVCO⟩]
          else []) ∧
    ((roundTeams true ["A", "B", "C", "D", "E"] ["F", "Q", "R", "S"] []).filter
        (fun p => p.tag = some Tag.POWER_PUFF)
        = if 2 ≤ ((["F", "Q", "R", "S"] : List String).drop
              (min (["A", "B", "C", "D", "E"] : List String).length
                   (["F", "Q", "R", "S"] : List String).length)).length then
            [⟨(((["F", "Q", "R", "S"] : List String).drop
                  (min (["A", "B", "C", "D", "E"] : List String).length
                       (["F", "Q", "R", "S"] : List String).length)).getD 0 "",
               ((["F", "Q", "R", "S"] : List String).drop
                  (min (["A", "B", "C", "D", "E"] : List String).length
                       (["F", "Q", "R", "S"] : List String).length)).getD 1 ""),
              some Tag.POWER_PUFF⟩]
          else []) ∧
    (∀ x, (((["A", "B", "C", "D", "E"] : List String).drop
            (min (["A", "B", "C", "D", "E"] : List String).length
                 (["F", "Q", "R", "S"] : List String).length)).length = 1
          ∧ x = ((["A", "B", "C", "D", "E"] : List String).drop
            (min (["A", "B", "C", "D", "E"] : List String).length
                 (["F", "Q", "R", "S"] : List String).length)).getD 0 "")
        ∨ x ∈ ((["A", "B", "C", "D", "E"] : List String).drop
            (min (["A", "B", "C", "D", "E"] : List String).length
                 (["F", "Q", "R", "S"] : List String).length)).drop 2 →
      ∀ m ∈ buildRoundFrom true (fun _ => "") ["A", "B", "C", "D", "E"]
          ["F", "Q", "R", "S"] [] 1 1, x ∉ matchPlayers m) ∧
    (∀ x, (((["F", "Q", "R", "S"] : List String).drop
            (min (["A", "B", "C", "D", "E"] : List String).length
                 (["F", "Q", "R", "S"] : List String).length)).length = 1
          ∧ x = ((["F", "Q", "R", "S"] : List String).drop
            (min (["A", "B", "C", "D", "E"] : List String).length
                 (["F", "Q", "R", "S"] : List String).length)).getD 0 "")
        ∨ x ∈ ((["F", "Q", "R", "S"] : List String).drop
            (min (["A", "B", "C", "D", "E"] : List String).length
                 (["F", "Q", "R", "S"] : List String).length)).drop 2 →
      ∀ m ∈ buildRoundFrom true (fun _ => "") ["A", "B", "C", "D", "E"]
          ["F", "Q", "R", "S"] [] 1 1, x ∉ matchPlayers m) :=
  buildRound_leftover_spec true ["A", "B", "C", "D", "E"] ["F", "Q", "R", "S"] [] []
    (fun _ => "") 1 1 (by decide) (by decide) (by decide)

/- ========================= Standings ========================= -/

/-- A per-player standings bucket `{name, W, L, PD}`. -/
structure Bucket where
  name : String
  W : Nat
  L : Nat
  PD : Int
deriving Repr, DecidableEq

/-- `Array.from(new Set(xs))`: deduplicate keeping first occurrences. -/
def dedupGo (seen : List String) : List String → List String
  | [] => []
  | x :: rest =>
    if x ∈ seen then dedupGo seen rest else x :: dedupGo (x :: seen) rest

def dedupFirst (l : List String) : List String := dedupGo [] l

/-- Split a character list at a separator character (JS `split`). -/
def splitOnChar (sep : Char) : List Char → List (List Char)
  | [] => [[]]
  | c :: rest =>
    match splitOnChar sep rest with
    | [] => [[]]
    | cur :: parts => if c = sep then [] :: cur :: parts else (c :: cur) :: parts

/-- `(text || '').split(/\r?\n/).map(trim).filter(Boolean)` deduplicated:
splitting at a bare newline and trimming afterwards also removes any
carriage return the `\r?` would have consumed. -/
def rosterList (text : String) : List String :=
  dedupFirst (((splitOnChar '\n' text.data).map (fun cs => jsTrim ⟨cs⟩)).filter (· ≠ ""))

/-- `ensure(map, n)`: seed a `0-0-0` bucket for a new name (JS `Map`
iteration order = insertion order = list order). -/
def ensure (rows : List Bucket) (n : String) : List Bucket :=
  if rows.any (fun r => r.name = n) then rows else rows ++ [⟨n, 0, 0, 0⟩]

/-- The in-place mutation of the row `ensure` returned: apply `f` to the
(unique) row named `n`, creating it first when missing. -/
def bumpRow (rows : List Bucket) (n : String) (f : Bucket → Bucket) : List Bucket :=
  (ensure rows n).map (fun r => if r.name = n then f r else r)

/-- `row.W++ / PD += diff` resp. `row.L++ / PD -= diff`. -/
def applyResult (won : Bool) (diff : Int) (r : Bucket) : Bucket :=
  if won then { r with W := r.W + 1, PD := r.PD + diff }
  else { r with L := r.L + 1, PD := r.PD - diff }

/-- The `apply` closure of `computeStandings`: the target map is
`guysSet.has(slug(name)) ? g : h` — any name missing from the guys set,
including one on neither roster, is tallied into the girls bucket
(`girlsSet` is computed by the source but never consulted here). -/
def csApply (gSet : List String) (st : List Bucket × List Bucket) (name : String)
    (won : Bool) (diff : Int) : List Bucket × List Bucket :=
  if gSet.contains (slug name) then (bumpRow st.1 name (applyResult won diff), st.2)
  else (st.1, bumpRow st.2 name (applyResult won diff))

/-- Folding one match into the standings maps: skip when the score is
unparseable or invalid, else apply win/loss and `±diff` to all four
participants in source order. -/
def csApplyMatch (gSet : List String) (st : List Bucket × List Bucket)
    (m : MatchRow) : List Bucket × List Bucket :=
  match parseScore m.scoreText with
  | none => st
  | some (a, b) =>
    if isValidPoolScore a b then
      let diff : Int := |(a : Int) - (b : Int)|
      let t1Won := decide (b < a)
      let st := csApply gSet st m.t1p1 t1Won diff
      let st := csApply gSet st m.t1p2 t1Won diff
      let st := csApply gSet st m.t2p1 (!t1Won) diff
      csApply gSet st m.t2p2 (!t1Won) diff
    else st

/-- The ranking comparator `(x, y) => y.W - x.W || y.PD - x.PD ||
x.name.localeCompare(y.name)` as the total preorder "x sorts no later
than y" (`localeCompare` modeled as code-point order). -/
def sortLE (x y : Bucket) : Bool :=
  if x.W ≠ y.W then decide (y.W < x.W)
  else if x.PD ≠ y.PD then decide (y.PD < x.PD)
  else decide (x.name ≤ y.name)

/-- Stable insertion used by `sortRows`. -/
def insertSorted (le : Bucket → Bucket → Bool) (x : Bucket) : List Bucket → List Bucket
  | [] => [x]
  | y :: ys => if le x y then x :: y :: ys else y :: insertSorted le x ys

/-- `arr.sort(comparator)`: JS `Array.prototype.sort` is stable, and any
stable sort by the same total preorder yields the same list; insertion
sort is used here so the definition reduces in the kernel. -/
def sortRows (rows : List Bucket) : List Bucket :=
  rows.foldr (insertSorted sortLE) []

/-- `computeStandings(matches, guysText, girlsText)`: seed both rosters
with zero buckets, fold the matches, and rank each side. -/
def computeStandings (ms : List MatchRow) (guysText girlsText : String) :
    List Bucket × List Bucket :=
  let guysList := rosterList guysText
  let girlsList := rosterList girlsText
  let gSet := guysList.map slug
  let g0 := guysList.foldl (fun g n => ensure g n) []
  let h0 := girlsList.foldl (fun h n => ensure h n) []
  let st := ms.foldl (fun st m => csApplyMatch gSet st m) (g0, h0)
  (sortRows st.1, sortRows st.2)

/-- The `apply` closure of the `Leaderboard` component: its fallback is
`isGuy ? g : isGirl ? h : g`, so an unknown name lands in the guys
bucket there. -/
def lbApply (gSet hSet : List String) (st : List Bucket × List Bucket)
    (name : String) (won : Bool) (diff : Int) : List Bucket × List Bucket :=
  let isGuy := gSet.contains (slug name)
  let isGirl := hSet.contains (slug name)
  if isGuy then (bumpRow st.1 name (applyResult won diff), st.2)
  else if isGirl then (st.1, bumpRow st.2 name (applyResult won diff))
  else (bumpRow st.1 name (applyResult won diff), st.2)

def lbApplyMatch (gSet hSet : List String) (st : List Bucket × List Bucket)
    (m : MatchRow) : List Bucket × List Bucket :=
  match parseScore m.scoreText with
  | none => st
  | some (a, b) =>
    if isValidPoolScore a b then
      let diff : Int := |(a : Int) - (b : Int)|
      let t1Won := decide (b < a)
      let st := lbApply gSet hSet st m.t1p1 t1Won diff
      let st := lbApply gSet hSet st m.t1p2 t1Won diff
      let st := lbApply gSet hSet st m.t2p1 (!t1Won) diff
      lbApply gSet hSet st m.t2p2 (!t1Won) diff
    else st

/-- The `Leaderboard` component's aggregation (identical to
`computeStandings` except for the unknown-name fallback). -/
def leaderboardRows (ms : List MatchRow) (guysText girlsText : String) :
    List Bucket × List Bucket :=
  let guysList := rosterList guysText
  let girlsList := rosterList girlsText
  let gSet := guysList.map slug
  let hSet := girlsList.map slug
  let g0 := guysList.foldl (fun g n => ensure g n) []
  let h0 := girlsList.foldl (fun h n => ensure h n) []
  let st := ms.foldl (fun st m => lbApplyMatch gSet hSet st m) (g0, h0)
  (sortRows st.1, sortRows st.2)

/- ========================= Bucket lemmas ========================= -/

def rowFor (rows : List Bucket) (x : String) : Option Bucket :=
  rows.find? (fun r => r.name = x)

def namesOf (rows : List Bucket) : List String := rows.map Bucket.name

theorem applyResult_name (won : Bool) (diff : Int) (r : Bucket) :
    (applyResult won diff r).name = r.name := by
  simp only [applyResult]; split <;> rfl

theorem find?_eq_none_of_any_false {rows : List Bucket} {n : String}
    (h : rows.any (fun r => r.name = n) = false) :
    rows.find? (fun r => r.name = n) = none := by
  rw [List.find?_eq_none]
  intro r hr
  have := List.any_eq_false.mp h r hr
  simpa using this

theorem map_id_of_no_name {n : String} {f : Bucket → Bucket} :
    ∀ {rows : List Bucket}, rows.any (fun r => r.name = n) = false →
    rows.map (fun r => if r.name = n then f r else r) = rows := by
  intro rows
  induction rows with
  | nil => intro h; rfl
  | cons r rest ih =>
    intro h
    simp only [List.any_cons, Bool.or_eq_false_iff] at h
    simp only [List.map_cons, if_neg (by simpa using h.1), ih h.2]

theorem find?_map_bump_of_any {n : String} {f : Bucket → Bucket}
    (hf : ∀ r, (f r).name = r.name) :
    ∀ (rows : List Bucket), rows.any (fun r => r.name = n) = true →
      (rows.map (fun r => if r.name = n then f r else r)).find? (fun r => r.name = n)
        = (rows.find? (fun r => r.name = n)).map f := by
  intro rows
  induction rows with
  | nil => intro h; simp at h
  | cons r rest ih =>
    intro h
    by_cases hr : r.name = n
    · simp only [List.map_cons, if_pos hr, List.find?_cons]
      have : ((f r).name = n) = True := by simp [hf r, hr]
      simp [hf r, hr]
    · have h2 : rest.any (fun r => r.name = n) = true := by
        simp only [List.any_cons] at h
        rcases Bool.or_eq_true_iff.mp h with h | h
        · exact absurd (by simpa using h) hr
        · exact h
      simp only [List.map_cons, if_neg hr, List.find?_cons]
      simp only [hr]
      simpa using ih h2

theorem rowFor_bumpRow_self {n : String} {f : Bucket → Bucket}
    (hf : ∀ r, (f r).name = r.name) (rows : List Bucket) :
    rowFor (bumpRow rows n f) n = some (f ((rowFor rows n).getD ⟨n, 0, 0, 0⟩)) := by
  by_cases hany : rows.any (fun r => r.name = n) = true
  · simp only [bumpRow, ensure, hany, if_true, rowFor]
    rw [find?_map_bump_of_any hf rows hany]
    have hsome : ((rows.find? (fun r => r.name = n)).isSome : Prop) := by
      rw [List.find?_isSome]
      obtain ⟨x, hx, hpx⟩ := List.any_eq_true.mp hany
      exact ⟨x, hx, hpx⟩
    rcases hfind : rows.find? (fun r => r.name = n) with _ | r
    · rw [hfind] at hsome; simp at hsome
    · rw [hfind]; simp
  · have hany2 : rows.any (fun r => r.name = n) = false := by
      simpa using hany
    simp only [bumpRow, ensure, hany2, Bool.false_eq_true, if_false, rowFor]
    rw [List.map_append, map_id_of_no_name hany2, List.find?_append,
      find?_eq_none_of_any_false hany2]
    simp [hf]

theorem find?_map_bump_other {n x : String} {f : Bucket → Bucket}
    (hf : ∀ r, (f r).name = r.name) (hx : x ≠ n) :
    ∀ (rows : List Bucket),
      (rows.map (fun r => if r.name = n then f r else r)).find? (fun r => r.name = x)
        = rows.find? (fun r => r.name = x) := by
  intro rows
  induction rows with
  | nil => rfl
  | cons r rest ih =>
    by_cases hr : r.name = n
    · have hnx : (decide (r.name = x)) = false := by simp [hr, Ne.symm hx]
      have hfx : (decide ((f r).name = x)) = false := by
        simp [hf r, hr, Ne.symm hx]
      simp only [List.map_cons, List.find?_cons, if_pos hr, hfx, hnx]
      exact ih
    · simp only [List.map_cons, if_neg hr, List.find?_cons]
      rcases hrx : (decide (r.name = x)) with _ | _
      · simpa using ih
      · rfl

theorem rowFor_bumpRow_other {n x : String} {f : Bucket → Bucket}
    (hf : ∀ r, (f r).name = r.name) (hx : x ≠ n) (rows : List Bucket) :
    rowFor (bumpRow rows n f) x = rowFor rows x := by
  by_cases hany : rows.any (fun r => r.name = n) = true
  · simp only [bumpRow, ensure, hany, if_true, rowFor]
    exact find?_map_bump_other hf hx rows
  · have hany2 : rows.any (fun r => r.name = n) = false := by simpa using hany
    simp only [bumpRow, ensure, hany2, Bool.false_eq_true, if_false, rowFor]
    rw [List.map_append, map_id_of_no_name hany2, List.find?_append]
    have : List.find? (fun r => r.name = x)
        ([⟨n, 0, 0, 0⟩].map (fun r => if r.name = n then f r else r)) = none := by
      simp [hf, Ne.symm hx]
    rw [this]
    simp

theorem insertSorted_perm (le : Bucket → Bucket → Bool) (x : Bucket) :
    ∀ (l : List Bucket), (insertSorted le x l).Perm (x :: l) := by
  intro l
  induction l with
  | nil => simp [insertSorted]
  | cons y ys ih =>
    simp only [insertSorted]
    by_cases h : le x y = true
    · simp [h]
    · simp only [h, Bool.false_eq_true, if_false]
      exact (ih.cons y).trans (List.Perm.swap x y ys)

theorem sortRows_perm : ∀ (l : List Bucket), (sortRows l).Perm l := by
  intro l
  induction l with
  | nil => simp [sortRows]
  | cons y ys ih =>
    simp only [sortRows, List.foldr_cons]
    exact (insertSorted_perm sortLE y _).trans (ih.cons y)

theorem mem_sortRows {l : List Bucket} {r : Bucket} : r ∈ sortRows l ↔ r ∈ l :=
  (sortRows_perm l).mem_iff

/-- With pairwise-distinct bucket names, `rowFor` is determined by set
membership alone, so it transfers across any permutation (sorting). -/
theorem rowFor_eq_some_iff {rows : List Bucket} {x : String} {r : Bucket}
    (hnd : (namesOf rows).Nodup) :
    rowFor rows x = some r ↔ (r ∈ rows ∧ r.name = x) := by
  constructor
  · intro h
    exact ⟨List.mem_of_find?_eq_some h, by simpa using List.find?_some h⟩
  · rintro ⟨hmem, hname⟩
    induction rows with
    | nil => simp at hmem
    | cons y ys ih =>
      simp only [rowFor, List.find?_cons]
      rcases List.mem_cons.mp hmem with rfl | hmem2
      · simp [hname]
      · have hy : y.name ≠ x := by
          intro he
          have : x ∈ namesOf ys := by
            rw [← hname]
            exact List.mem_map_of_mem Bucket.name hmem2
          simp only [namesOf, List.map_cons] at hnd
          rw [he] at hnd
          exact (List.nodup_cons.mp hnd).1 this
        simp only [hy, decide_eq_true_eq]
        have hnd2 : (namesOf ys).Nodup := by
          simp only [namesOf, List.map_cons] at hnd
          exact (List.nodup_cons.mp hnd).2
        have := ih hnd2 hmem2
        simpa [rowFor, hy] using this

theorem rowFor_perm {rows rows2 : List Bucket} (hperm : rows.Perm rows2)
    (hnd : (namesOf rows).Nodup) (x : String) :
    rowFor rows2 x = rowFor rows x := by
  have hnd2 : (namesOf rows2).Nodup := by
    have : (namesOf rows).Perm (namesOf rows2) := hperm.map Bucket.name
    exact (this.nodup_iff).mp hnd
  rcases h : rowFor rows x with _ | r
  · rcases h2 : rowFor rows2 x with _ | r2
    · rfl
    · obtain ⟨hmem, hname⟩ := (rowFor_eq_some_iff hnd2).mp h2
      have : rowFor rows x = some r2 :=
        (rowFor_eq_some_iff hnd).mpr ⟨hperm.mem_iff.mpr hmem, hname⟩
      rw [h] at this; exact absurd this (by simp)
  · obtain ⟨hmem, hname⟩ := (rowFor_eq_some_iff hnd).mp h
    exact (rowFor_eq_some_iff hnd2).mpr ⟨hperm.mem_iff.mp hmem, hname⟩

/- Names produced by the seeding fold and the bump operations. -/

theorem namesOf_bumpRow {rows : List Bucket} {n : String} {f : Bucket → Bucket}
    (hf : ∀ r, (f r).name = r.name) :
    namesOf (bumpRow rows n f) = namesOf (ensure rows n) := by
  simp only [bumpRow, namesOf, List.map_map]
  congr 1
  funext r
  by_cases h : r.name = n <;> simp [h, hf r]

theorem namesOf_ensure {rows : List Bucket} {n : String} :
    namesOf (ensure rows n)
      = if rows.any (fun r => r.name = n) then namesOf rows else namesOf rows ++ [n] := by
  simp only [ensure]
  by_cases h : rows.any (fun r => r.name = n) <;> simp [h, namesOf]

theorem namesOf_ensure_nodup {rows : List Bucket} {n : String}
    (hnd : (namesOf rows).Nodup) : (namesOf (ensure rows n)).Nodup := by
  rw [namesOf_ensure]
  by_cases h : rows.any (fun r => r.name = n) = true
  · simpa [h]
  · have h2 : rows.any (fun r => r.name = n) = false := by simpa using h
    simp only [h2, Bool.false_eq_true, if_false]
    rw [List.nodup_append]
    refine ⟨hnd, by simp, ?_⟩
    intro a ha hb
    simp only [List.mem_singleton] at hb
    obtain ⟨r, hr, hrn⟩ := List.mem_map.mp ha
    have hany : rows.any (fun r => r.name = n) = true :=
      List.any_eq_true.mpr ⟨r, hr, by simp [hrn, hb]⟩
    rw [hany] at h2
    cases h2

theorem namesOf_seed_nodup : ∀ (l : List String) (g0 : List Bucket),
    (namesOf g0).Nodup → (namesOf (l.foldl (fun g n => ensure g n) g0)).Nodup := by
  intro l
  induction l with
  | nil => intro g0 h; simpa using h
  | cons n rest ih =>
    intro g0 h
    simpa using ih (ensure g0 n) (namesOf_ensure_nodup h)

theorem dedupGo_nodup : ∀ (l seen : List String),
    (dedupGo seen l).Nodup ∧ ∀ x ∈ dedupGo seen l, x ∉ seen := by
  intro l
  induction l with
  | nil => intro seen; simp [dedupGo]
  | cons x rest ih =>
    intro seen
    by_cases hx : x ∈ seen
    · simpa [dedupGo, hx] using ih seen
    · obtain ⟨hnd, hnotin⟩ := ih (x :: seen)
      simp only [dedupGo, hx, if_neg, Bool.false_eq_true, if_false]
      constructor
      · rw [List.nodup_cons]
        exact ⟨fun hmem => (hnotin x hmem) (List.mem_cons_self x seen), hnd⟩
      · intro y hy hyseen
        rcases List.mem_cons.mp hy with rfl | hy2
        · exact hx hyseen
        · exact (hnotin y hy2) (List.mem_cons_of_mem x hyseen)

theorem rosterList_nodup (text : String) : (rosterList text).Nodup :=
  (dedupGo_nodup _ []).1

theorem mem_ensure {r : Bucket} {rows : List Bucket} {n : String}
    (h : r ∈ rows) : r ∈ ensure rows n := by
  simp only [ensure]
  split
  · exact h
  · exact List.mem_append_left _ h

theorem mem_foldl_ensure {r : Bucket} : ∀ (l : List String) {g0 : List Bucket},
    r ∈ g0 → r ∈ l.foldl (fun g n => ensure g n) g0 := by
  intro l
  induction l with
  | nil => intro g0 h; simpa using h
  | cons n rest ih => intro g0 h; simpa using ih (mem_ensure h)

theorem zero_mem_seed {name : String} : ∀ (l : List String) (g0 : List Bucket),
    l.Nodup → (∀ r ∈ g0, r.name ∉ l) → name ∈ l →
    (⟨name, 0, 0, 0⟩ : Bucket) ∈ l.foldl (fun g n => ensure g n) g0 := by
  intro l
  induction l with
  | nil => intro g0 _ _ h; simp at h
  | cons n rest ih =>
    intro g0 hnd hg0 hmem
    rcases List.mem_cons.mp hmem with rfl | hmem2
    · have hany : g0.any (fun r => r.name = name) = false := by
        rw [Bool.eq_false_iff]
        intro hany
        obtain ⟨r, hr, hrn⟩ := List.any_eq_true.mp hany
        exact (hg0 r hr) (by simp [show r.name = name by simpa using hrn])
      have hz : (⟨name, 0, 0, 0⟩ : Bucket) ∈ ensure g0 name := by
        simp [ensure, hany]
      simpa using mem_foldl_ensure rest hz
    · have hnd2 := List.nodup_cons.mp hnd
      refine ?_
      simp only [List.foldl_cons]
      refine ih (ensure g0 n) hnd2.2 ?_ hmem2
      intro r hr
      simp only [ensure] at hr
      split at hr
      · intro hmem3
        exact (hg0 r hr) (List.mem_cons_of_mem n hmem3)
      · rcases List.mem_append.mp hr with hr2 | hr2
        · intro hmem3
          exact (hg0 r hr2) (List.mem_cons_of_mem n hmem3)
        · simp only [List.mem_singleton] at hr2
          subst hr2
          exact hnd2.1

theorem mem_bumpRow_of_ne {r : Bucket} {rows : List Bucket} {n : String}
    {f : Bucket → Bucket} (hmem : r ∈ rows) (hne : r.name ≠ n) :
    r ∈ bumpRow rows n f := by
  simp only [bumpRow]
  refine List.mem_map.mpr ⟨r, mem_ensure hmem, ?_⟩
  simp [hne]

theorem mem_csApply_of_ne {gSet : List String} {st : List Bucket × List Bucket}
    {name : String} {won : Bool} {diff : Int} {r : Bucket} (hne : r.name ≠ name) :
    (r ∈ st.1 → r ∈ (csApply gSet st name won diff).1) ∧
    (r ∈ st.2 → r ∈ (csApply gSet st name won diff).2) := by
  simp only [csApply]
  split
  · exact ⟨fun h => mem_bumpRow_of_ne h hne, fun h => h⟩
  · exact ⟨fun h => h, fun h => mem_bumpRow_of_ne h hne⟩

theorem mem_csApplyMatch_of_notin {gSet : List String} {st : List Bucket × List Bucket}
    {m : MatchRow} {r : Bucket} (hne : r.name ∉ matchPlayers m) :
    (r ∈ st.1 → r ∈ (csApplyMatch gSet st m).1) ∧
    (r ∈ st.2 → r ∈ (csApplyMatch gSet st m).2) := by
  simp only [matchPlayers, List.mem_cons, List.not_mem_nil, or_false, not_or] at hne
  obtain ⟨h1, h2, h3, h4⟩ := hne
  simp only [csApplyMatch]
  rcases parseScore m.scoreText with _ | ⟨a, b⟩
  · exact ⟨id, id⟩
  · simp only []
    split
    · refine ⟨fun h => ?_, fun h => ?_⟩
      · exact ((mem_csApply_of_ne h4).1 (((mem_csApply_of_ne h3).1
          (((mem_csApply_of_ne h2).1 (((mem_csApply_of_ne h1).1 h)))))))
      · exact ((mem_csApply_of_ne h4).2 (((mem_csApply_of_ne h3).2
          (((mem_csApply_of_ne h2).2 (((mem_csApply_of_ne h1).2 h)))))))
    · exact ⟨id, id⟩

theorem csApply_nodup (gSet : List String) (st : List Bucket × List Bucket)
    (name : String) (won : Bool) (diff : Int)
    (h1 : (namesOf st.1).Nodup) (h2 : (namesOf st.2).Nodup) :
    (namesOf (csApply gSet st name won diff).1).Nodup ∧
    (namesOf (csApply gSet st name won diff).2).Nodup := by
  simp only [csApply]
  split
  · refine ⟨?_, h2⟩
    rw [namesOf_bumpRow (applyResult_name won diff)]
    exact namesOf_ensure_nodup h1
  · refine ⟨h1, ?_⟩
    rw [namesOf_bumpRow (applyResult_name won diff)]
    exact namesOf_ensure_nodup h2

theorem csApplyMatch_nodup (gSet : List String) (st : List Bucket × List Bucket)
    (m : MatchRow) (h1 : (namesOf st.1).Nodup) (h2 : (namesOf st.2).Nodup) :
    (namesOf (csApplyMatch gSet st m).1).Nodup ∧
    (namesOf (csApplyMatch gSet st m).2).Nodup := by
  simp only [csApplyMatch]
  rcases parseScore m.scoreText with _ | ⟨a, b⟩
  · exact ⟨h1, h2⟩
  · simp only []
    split
    · have s1 := csApply_nodup gSet st m.t1p1 (decide (b < a)) |(a : Int) - b| h1 h2
      have s2 := csApply_nodup gSet (csApply gSet st m.t1p1 (decide (b < a)) |(a : Int) - b|)
        m.t1p2 (decide (b < a)) |(a : Int) - b| s1.1 s1.2
      have s3 := csApply_nodup gSet (csApply gSet
          (csApply gSet st m.t1p1 (decide (b < a)) |(a : Int) - b|)
          m.t1p2 (decide (b < a)) |(a : Int) - b|)
        m.t2p1 (!decide (b < a)) |(a : Int) - b| s2.1 s2.2
      exact csApply_nodup gSet (csApply gSet (csApply gSet
          (csApply gSet st m.t1p1 (decide (b < a)) |(a : Int) - b|)
          m.t1p2 (decide (b < a)) |(a : Int) - b|)
          m.t2p1 (!decide (b < a)) |(a : Int) - b|)
        m.t2p2 (!decide (b < a)) |(a : Int) - b| s3.1 s3.2
    · exact ⟨h1, h2⟩

theorem csFold_nodup (gSet : List String) : ∀ (ms : List MatchRow)
    (st : List Bucket × List Bucket),
    (namesOf st.1).Nodup → (namesOf st.2).Nodup →
    (namesOf (ms.foldl (fun st m => csApplyMatch gSet st m) st).1).Nodup ∧
    (namesOf (ms.foldl (fun st m => csApplyMatch gSet st m) st).2).Nodup := by
  intro ms
  induction ms with
  | nil => intro st h1 h2; exact ⟨h1, h2⟩
  | cons m rest ih =>
    intro st h1 h2
    have hm := csApplyMatch_nodup gSet st m h1 h2
    simpa using ih _ hm.1 hm.2

theorem rowFor_csApply_self (gSet : List String) (st : List Bucket × List Bucket)
    (name : String) (won : Bool) (diff : Int) :
    (gSet.contains (slug name) = true →
      (csApply gSet st name won diff).2 = st.2 ∧
      rowFor (csApply gSet st name won diff).1 name
        = some (applyResult won diff ((rowFor st.1 name).getD ⟨name, 0, 0, 0⟩))) ∧
    (gSet.contains (slug name) = false →
      (csApply gSet st name won diff).1 = st.1 ∧
      rowFor (csApply gSet st name won diff).2 name
        = some (applyResult won diff ((rowFor st.2 name).getD ⟨name, 0, 0, 0⟩))) := by
  constructor
  · intro h
    simp only [csApply, h, if_true]
    exact ⟨trivial, rowFor_bumpRow_self (applyResult_name won diff) _⟩
  · intro h
    simp only [csApply, h, Bool.false_eq_true, if_false]
    exact ⟨trivial, rowFor_bumpRow_self (applyResult_name won diff) _⟩

theorem rowFor_csApply_other (gSet : List String) (st : List Bucket × List Bucket)
    (name : String) (won : Bool) (diff : Int) (x : String) (hx : x ≠ name) :
    rowFor (csApply gSet st name won diff).1 x = rowFor st.1 x ∧
    rowFor (csApply gSet st name won diff).2 x = rowFor st.2 x := by
  simp only [csApply]
  split
  · exact ⟨rowFor_bumpRow_other (applyResult_name won diff) hx _, rfl⟩
  · exact ⟨rfl, rowFor_bumpRow_other (applyResult_name won diff) hx _⟩

/-- Whether participant `p` of match `m` (scored `a`-`b`) is on the
higher-scoring team: team 1 members win iff `a > b`, team 2 members
win iff the opposite. -/
def wonB (m : MatchRow) (a b : Nat) (p : String) : Bool :=
  if p = m.t1p1 ∨ p = m.t1p2 then decide (b < a) else !decide (b < a)

theorem rowFor_csApplyMatch_other (gSet : List String) (st : List Bucket × List Bucket)
    (m : MatchRow) (x : String) (hx : x ∉ matchPlayers m) :
    rowFor (csApplyMatch gSet st m).1 x = rowFor st.1 x ∧
    rowFor (csApplyMatch gSet st m).2 x = rowFor st.2 x := by
  simp only [matchPlayers, List.mem_cons, List.not_mem_nil, or_false, not_or] at hx
  obtain ⟨h1, h2, h3, h4⟩ := hx
  simp only [csApplyMatch]
  rcases parseScore m.scoreText with _ | ⟨a, b⟩
  · exact ⟨rfl, rfl⟩
  · simp only []
    split
    · have o1 := rowFor_csApply_other gSet st m.t1p1 (decide (b < a)) |(a : Int) - b| x h1
      have o2 := rowFor_csApply_other gSet
        (csApply gSet st m.t1p1 (decide (b < a)) |(a : Int) - b|)
        m.t1p2 (decide (b < a)) |(a : Int) - b| x h2
      have o3 := rowFor_csApply_other gSet
        (csApply gSet (csApply gSet st m.t1p1 (decide (b < a)) |(a : Int) - b|)
          m.t1p2 (decide (b < a)) |(a : Int) - b|)
        m.t2p1 (!decide (b < a)) |(a : Int) - b| x h3
      have o4 := rowFor_csApply_other gSet
        (csApply gSet (csApply gSet (csApply gSet st m.t1p1 (decide (b < a)) |(a : Int) - b|)
          m.t1p2 (decide (b < a)) |(a : Int) - b|)
          m.t2p1 (!decide (b < a)) |(a : Int) - b|)
        m.t2p2 (!decide (b < a)) |(a : Int) - b| x h4
      exact ⟨by rw [o4.1, o3.1, o2.1, o1.1], by rw [o4.2, o3.2, o2.2, o1.2]⟩
    · exact ⟨rfl, rfl⟩

theorem rowFor_csApplyMatch_self (gSet : List String) (st : List Bucket × List Bucket)
    (m : MatchRow) (a b : Nat)
    (hp : parseScore m.scoreText = some (a, b))
    (hv : isValidPoolScore (a : Int) (b : Int) = true)
    (hnd : (matchPlayers m).Nodup) :
    ∀ p ∈ matchPlayers m,
      (gSet.contains (slug p) = true →
        rowFor (csApplyMatch gSet st m).1 p
          = some (applyResult (wonB m a b p) |(a : Int) - b|
              ((rowFor st.1 p).getD ⟨p, 0, 0, 0⟩))) ∧
      (gSet.contains (slug p) = false →
        rowFor (csApplyMatch gSet st m).2 p
          = some (applyResult (wonB m a b p) |(a : Int) - b|
              ((rowFor st.2 p).getD ⟨p, 0, 0, 0⟩))) := by
  simp only [matchPlayers, List.nodup_cons, List.mem_cons, List.not_mem_nil, or_false,
    not_or, List.nodup_nil, and_true] at hnd
  obtain ⟨⟨h12, h13, h14⟩, ⟨h23, h24⟩, h34, -⟩ := hnd
  intro p hmem
  simp only [csApplyMatch, hp, hv, if_true]
  set d : Int := |(a : Int) - b| with hd
  set w : Bool := decide (b < a) with hw
  set s1 := csApply gSet st m.t1p1 w d with hs1
  set s2 := csApply gSet s1 m.t1p2 w d with hs2
  set s3 := csApply gSet s2 m.t2p1 (!w) d with hs3
  simp only [matchPlayers, List.mem_cons, List.not_mem_nil, or_false] at hmem
  rcases hmem with rfl | rfl | rfl | rfl
  · have hwon : wonB m a b m.t1p1 = w := by simp [wonB]
    rw [hwon]
    constructor <;> intro hc
    · have self := ((rowFor_csApply_self gSet st m.t1p1 w d).1 hc).2
      have o2 := (rowFor_csApply_other gSet s1 m.t1p2 w d m.t1p1 h12).1
      have o3 := (rowFor_csApply_other gSet s2 m.t2p1 (!w) d m.t1p1 h13).1
      have o4 := (rowFor_csApply_other gSet s3 m.t2p2 (!w) d m.t1p1 h14).1
      rw [o4, hs3, o3, hs2, o2, hs1, self]
    · have self := ((rowFor_csApply_self gSet st m.t1p1 w d).2 hc).2
      have o2 := (rowFor_csApply_other gSet s1 m.t1p2 w d m.t1p1 h12).2
      have o3 := (rowFor_csApply_other gSet s2 m.t2p1 (!w) d m.t1p1 h13).2
      have o4 := (rowFor_csApply_other gSet s3 m.t2p2 (!w) d m.t1p1 h14).2
      rw [o4, hs3, o3, hs2, o2, hs1, self]
  · have hwon : wonB m a b m.t1p2 = w := by simp [wonB]
    rw [hwon]
    constructor <;> intro hc
    · have self := ((rowFor_csApply_self gSet s1 m.t1p2 w d).1 hc).2
      have o1 := (rowFor_csApply_other gSet st m.t1p1 w d m.t1p2 (Ne.symm h12)).1
      have o3 := (rowFor_csApply_other gSet s2 m.t2p1 (!w) d m.t1p2 h23).1
      have o4 := (rowFor_csApply_other gSet s3 m.t2p2 (!w) d m.t1p2 h24).1
      rw [o4, hs3, o3, hs2, self, hs1, o1]
    · have self := ((rowFor_csApply_self gSet s1 m.t1p2 w d).2 hc).2
      have o1 := (rowFor_csApply_other gSet st m.t1p1 w d m.t1p2 (Ne.symm h12)).2
      have o3 := (rowFor_csApply_other gSet s2 m.t2p1 (!w) d m.t1p2 h23).2
      have o4 := (rowFor_csApply_other gSet s3 m.t2p2 (!w) d m.t1p2 h24).2
      rw [o4, hs3, o3, hs2, self, hs1, o1]
  · have hwon : wonB m a b m.t2p1 = (!w) := by 
      simp only [wonB, hw]
      rw [if_neg]
      push_neg
      exact ⟨Ne.symm h13, Ne.symm h23⟩
    rw [hwon]
    constructor <;> intro hc
    · have self := ((rowFor_csApply_self gSet s2 m.t2p1 (!w) d).1 hc).2
      have o1 := (rowFor_csApply_other gSet st m.t1p1 w d m.t2p1 (Ne.symm h13)).1
      have o2 := (rowFor_csApply_other gSet s1 m.t1p2 w d m.t2p1 (Ne.symm h23)).1
      have o4 := (rowFor_csApply_other gSet s3 m.t2p2 (!w) d m.t2p1 h34).1
      rw [o4, hs3, self, hs2, o2, hs1, o1]
    · have self := ((rowFor_csApply_self gSet s2 m.t2p1 (!w) d).2 hc).2
      have o1 := (rowFor_csApply_other gSet st m.t1p1 w d m.t2p1 (Ne.symm h13)).2
      have o2 := (rowFor_csApply_other gSet s1 m.t1p2 w d m.t2p1 (Ne.symm h23)).2
      have o4 := (rowFor_csApply_other gSet s3 m.t2p2 (!w) d m.t2p1 h34).2
      rw [o4, hs3, self, hs2, o2, hs1, o1]
  · have hwon : wonB m a b m.t2p2 = (!w) := by 
      simp only [wonB, hw]
      rw [if_neg]
      push_neg
      exact ⟨Ne.symm h14, Ne.symm h24⟩
    rw [hwon]
    constructor <;> intro hc
    · have self := ((rowFor_csApply_self gSet s3 m.t2p2 (!w) d).1 hc).2
      have o1 := (rowFor_csApply_other gSet st m.t1p1 w d m.t2p2 (Ne.symm h14)).1
      have o2 := (rowFor_csApply_other gSet s1 m.t1p2 w d m.t2p2 (Ne.symm h24)).1
      have o3 := (rowFor_csApply_other gSet s2 m.t2p1 (!w) d m.t2p2 (Ne.symm h34)).1
      rw [self, hs3, o3, hs2, o2, hs1, o1]
    · have self := ((rowFor_csApply_self gSet s3 m.t2p2 (!w) d).2 hc).2
      have o1 := (rowFor_csApply_other gSet st m.t1p1 w d m.t2p2 (Ne.symm h14)).2
      have o2 := (rowFor_csApply_other gSet s1 m.t1p2 w d m.t2p2 (Ne.symm h24)).2
      have o3 := (rowFor_csApply_other gSet s2 m.t2p1 (!w) d m.t2p2 (Ne.symm h34)).2
      rw [self, hs3, o3, hs2, o2, hs1, o1]

theorem mem_fold_matches (gSet : List String) : ∀ (ms : List MatchRow)
    (st : List Bucket × List Bucket) (r : Bucket),
    (∀ m ∈ ms, r.name ∉ matchPlayers m) →
    (r ∈ st.1 → r ∈ (ms.foldl (fun st m => csApplyMatch gSet st m) st).1) ∧
    (r ∈ st.2 → r ∈ (ms.foldl (fun st m => csApplyMatch gSet st m) st).2) := by
  intro ms
  induction ms with
  | nil => intro st r _; exact ⟨id, id⟩
  | cons m rest ih =>
    intro st r hno
    have hm := @mem_csApplyMatch_of_notin gSet st m r
      (hno m (List.mem_cons_self m rest))
    have hr := ih (csApplyMatch gSet st m) r
      (fun m2 hm2 => hno m2 (List.mem_cons_of_mem m hm2))
    exact ⟨fun h => by simpa using hr.1 (hm.1 h), fun h => by simpa using hr.2 (hm.2 h)⟩

theorem rowFor_computeStandings (ms : List MatchRow) (gT hT : String) (x : String) :
    rowFor (computeStandings ms gT hT).1 x
      = rowFor (ms.foldl (fun st m => csApplyMatch ((rosterList gT).map slug) st m)
          ((rosterList gT).foldl (fun g n => ensure g n) [],
           (rosterList hT).foldl (fun h n => ensure h n) [])).1 x ∧
    rowFor (computeStandings ms gT hT).2 x
      = rowFor (ms.foldl (fun st m => csApplyMatch ((rosterList gT).map slug) st m)
          ((rosterList gT).foldl (fun g n => ensure g n) [],
           (rosterList hT).foldl (fun h n => ensure h n) [])).2 x := by
  have hg0 : (namesOf ((rosterList gT).foldl (fun g n => ensure g n) [])).Nodup :=
    namesOf_seed_nodup (rosterList gT) [] (by simp [namesOf])
  have hh0 : (namesOf ((rosterList hT).foldl (fun h n => ensure h n) [])).Nodup :=
    namesOf_seed_nodup (rosterList hT) [] (by simp [namesOf])
  have hnd := csFold_nodup ((rosterList gT).map slug) ms
    ((rosterList gT).foldl (fun g n => ensure g n) [],
     (rosterList hT).foldl (fun h n => ensure h n) []) hg0 hh0
  constructor
  · exact rowFor_perm (sortRows_perm _).symm hnd.1 x
  · exact rowFor_perm (sortRows_perm _).symm hnd.2 x

/-- C5: every deduplicated rostered name appears in the standings output
even when it plays no match (with a 0-0-0 row); each valid-scored match
gives both members of the higher-scoring team one win and `+|a-b|` point
differential and both members of the lower-scoring team one loss and
`-|a-b|` (rows of non-participants unchanged); matches with unparseable
or invalid scores contribute nothing. -/
theorem computeStandings_spec :
    (∀ (ms : List MatchRow) (gT hT : String) (name : String),
       name ∈ rosterList gT → (∀ m ∈ ms, name ∉ matchPlayers m) →
       (⟨name, 0, 0, 0⟩ : Bucket) ∈ (computeStandings ms gT hT).1) ∧
    (∀ (ms : List MatchRow) (gT hT : String) (name : String),
       name ∈ rosterList hT → (∀ m ∈ ms, name ∉ matchPlayers m) →
       (⟨name, 0, 0, 0⟩ : Bucket) ∈ (computeStandings ms gT hT).2) ∧
    (∀ (ms : List MatchRow) (gT hT : String) (m : MatchRow) (a b : Nat),
       parseScore m.scoreText = some (a, b) →
       isValidPoolScore (a : Int) (b : Int) = true →
       (matchPlayers m).Nodup →
       ∀ p ∈ matchPlayers m,
         (((rosterList gT).map slug).contains (slug p) = true →
           rowFor (computeStandings (ms ++ [m]) gT hT).1 p
             = some (applyResult (wonB m a b p) |(a : Int) - b|
                 ((rowFor (computeStandings ms gT hT).1 p).getD ⟨p, 0, 0, 0⟩))) ∧
         (((rosterList gT).map slug).contains (slug p) = false →
           rowFor (computeStandings (ms ++ [m]) gT hT).2 p
             = some (applyResult (wonB m a b p) |(a : Int) - b|
                 ((rowFor (computeStandings ms gT hT).2 p).getD ⟨p, 0, 0, 0⟩)))) ∧
    (∀ (ms : List MatchRow) (gT hT : String) (m : MatchRow) (x : String),
       x ∉ matchPlayers m →
       rowFor (computeStandings (ms ++ [m]) gT hT).1 x
           = rowFor (computeStandings ms gT hT).1 x ∧
       rowFor (computeStandings (ms ++ [m]) gT hT).2 x
           = rowFor (computeStandings ms gT hT).2 x) ∧
    (∀ (ms : List MatchRow) (gT hT : String) (m : MatchRow),
       (parseScore m.scoreText = none ∨
         ∀ a b : Nat, parseScore m.scoreText = some (a, b) →
            isValidPoolScore (a : Int) (b : Int) = false) →
       computeStandings (ms ++ [m]) gT hT = computeStandings ms gT hT) := by
  refine ⟨?_, ?_, ?_, ?_, ?_⟩
  · intro ms gT hT name hmem hno
    have hz : (⟨name, 0, 0, 0⟩ : Bucket)
        ∈ (rosterList gT).foldl (fun g n => ensure g n) [] :=
      zero_mem_seed (rosterList gT) [] (rosterList_nodup gT) (by simp) hmem
    have hf := (mem_fold_matches ((rosterList gT).map slug) ms
      ((rosterList gT).foldl (fun g n => ensure g n) [],
       (rosterList hT).foldl (fun h n => ensure h n) [])
      ⟨name, 0, 0, 0⟩ (fun m hm => hno m hm)).1 hz
    simpa [computeStandings, mem_sortRows] using hf
  · intro ms gT hT name hmem hno
    have hz : (⟨name, 0, 0, 0⟩ : Bucket)
        ∈ (rosterList hT).foldl (fun h n => ensure h n) [] :=
      zero_mem_seed (rosterList hT) [] (rosterList_nodup hT) (by simp) hmem
    have hf := (mem_fold_matches ((rosterList gT).map slug) ms
      ((rosterList gT).foldl (fun g n => ensure g n) [],
       (rosterList hT).foldl (fun h n => ensure h n) [])
      ⟨name, 0, 0, 0⟩ (fun m hm => hno m hm)).2 hz
    simpa [computeStandings, mem_sortRows] using hf
  · intro ms gT hT m a b hp hv hnd p hpm
    have t1 := rowFor_computeStandings (ms ++ [m]) gT hT p
    have t2 := rowFor_computeStandings ms gT hT p
    have hself := rowFor_csApplyMatch_self ((rosterList gT).map slug)
      (ms.foldl (fun st m => csApplyMatch ((rosterList gT).map slug) st m)
        ((rosterList gT).foldl (fun g n => ensure g n) [],
         (rosterList hT).foldl (fun h n => ensure h n) []))
      m a b hp hv hnd p hpm
    constructor
    · intro hc
      rw [t1.1, t2.1, List.foldl_append, List.foldl_cons, List.foldl_nil]
      exact hself.1 hc
    · intro hc
      rw [t1.2, t2.2, List.foldl_append, List.foldl_cons, List.foldl_nil]
      exact hself.2 hc
  · intro ms gT hT m x hx
    have t1 := rowFor_computeStandings (ms ++ [m]) gT hT x
    have t2 := rowFor_computeStandings ms gT hT x
    have hother := rowFor_csApplyMatch_other ((rosterList gT).map slug)
      (ms.foldl (fun st m => csApplyMatch ((rosterList gT).map slug) st m)
        ((rosterList gT).foldl (fun g n => ensure g n) [],
         (rosterList hT).foldl (fun h n => ensure h n) []))
      m x hx
    constructor
    · rw [t1.1, t2.1, List.foldl_append, List.foldl_cons, List.foldl_nil]
      exact hother.1
    · rw [t1.2, t2.2, List.foldl_append, List.foldl_cons, List.foldl_nil]
      exact hother.2
  · intro ms gT hT m hbad
    have hskip : ∀ (st : List Bucket × List Bucket),
        csApplyMatch ((rosterList gT).map slug) st m = st := by
      intro st
      rcases hbad with hnone | hinv
      · simp [csApplyMatch, hnone]
      · rcases hpar : parseScore m.scoreText with _ | ⟨a2, b2⟩
        · simp [csApplyMatch, hpar]
        · simp [csApplyMatch, hpar, hinv a2 b2 hpar]
    simp only [computeStandings, List.foldl_append, List.foldl_cons, List.foldl_nil, hskip]

/-- Witness for `computeStandings_spec`: one valid 21-10 match between
A/C and B/D with rosters A,B (guys) and C,D (girls), checked at
participant A. -/
theorem computeStandings_spec_witness :
    (parseScore (MatchRow.scoreText
        { id := "m", round := 1, court := 1, t1p1 := "A", t1p2 := "C",
          t2p1 := "B", t2p2 := "D", scoreText := some "21-10" }) = some (21, 10)) ∧
    isValidPoolScore ((21 : Nat) : Int) ((10 : Nat) : Int) = true ∧
    (matchPlayers
        { id := "m", round := 1, court := 1, t1p1 := "A", t1p2 := "C",
          t2p1 := "B", t2p2 := "D", scoreText := some "21-10" }).Nodup ∧
    ((((rosterList "A\nB").map slug).contains (slug "A") = true →
        rowFor (computeStandings ([] ++
            [{ id := "m", round := 1, court := 1, t1p1 := "A", t1p2 := "C",
               t2p1 := "B", t2p2 := "D", scoreText := some "21-10" }]) "A\nB" "C\nD").1 "A"
          = some (applyResult
              (wonB { id := "m", round := 1, court := 1, t1p1 := "A", t1p2 := "C",
                      t2p1 := "B", t2p2 := "D", scoreText := some "21-10" } 21 10 "A")
              |((21 : Nat) : Int) - ((10 : Nat) : Int)|
              ((rowFor (computeStandings [] "A\nB" "C\nD").1 "A").getD ⟨"A", 0, 0, 0⟩))) ∧
     (((rosterList "A\nB").map slug).contains (slug "A") = false →
        rowFor (computeStandings ([] ++
            [{ id := "m", round := 1, court := 1, t1p1 := "A", t1p2 := "C",
               t2p1 := "B", t2p2 := "D", scoreText := some "21-10" }]) "A\nB" "C\nD").2 "A"
          = some (applyResult
              (wonB { id := "m", round := 1, court := 1, t1p1 := "A", t1p2 := "C",
                      t2p1 := "B", t2p2 := "D", scoreText := some "21-10" } 21 10 "A")
              |((21 : Nat) : Int) - ((10 : Nat) : Int)|
              ((rowFor (computeStandings [] "A\nB" "C\nD").2 "A").getD ⟨"A", 0, 0, 0⟩)))) :=
  ⟨by decide, by decide, by decide,
   computeStandings_spec.2.2.1 [] "A\nB" "C\nD"
     { id := "m", round := 1, court := 1, t1p1 := "A", t1p2 := "C",
       t2p1 := "B", t2p2 := "D", scoreText := some "21-10" } 21 10
     (by decide) (by decide) (by decide) "A" (by decide)⟩

theorem bumpRow_names_origin {r : Bucket} {rows : List Bucket} {n : String}
    {f : Bucket → Bucket} (hf : ∀ r, (f r).name = r.name)
    (h : r ∈ bumpRow rows n f) :
    (∃ r0 ∈ rows, r.name = r0.name) ∨ r.name = n := by
  simp only [bumpRow] at h
  obtain ⟨r0, hr0, hmap⟩ := List.mem_map.mp h
  have hname : r.name = r0.name := by
    by_cases hc : r0.name = n
    · rw [← hmap]; simp [hc, hf r0]
    · rw [← hmap]; simp [hc]
  simp only [ensure] at hr0
  split at hr0
  · exact Or.inl ⟨r0, hr0, hname⟩
  · rcases List.mem_append.mp hr0 with h2 | h2
    · exact Or.inl ⟨r0, h2, hname⟩
    · simp only [List.mem_singleton] at h2
      subst h2
      exact Or.inr hname

theorem exists_name_bumpRow_self {rows : List Bucket} {n : String}
    {f : Bucket → Bucket} (hf : ∀ r, (f r).name = r.name) :
    ∃ r ∈ bumpRow rows n f, r.name = n := by
  have h := @rowFor_bumpRow_self n f hf rows
  refine ⟨_, List.mem_of_find?_eq_some h, ?_⟩
  simpa using List.find?_some h

theorem exists_name_bumpRow_mono {rows : List Bucket} {n x : String}
    {f : Bucket → Bucket} (hf : ∀ r, (f r).name = r.name)
    (h : ∃ r ∈ rows, r.name = x) : ∃ r ∈ bumpRow rows n f, r.name = x := by
  obtain ⟨r, hr, hname⟩ := h
  simp only [bumpRow]
  by_cases hc : r.name = n
  · refine ⟨f r, List.mem_map.mpr ⟨r, mem_ensure hr, by simp [hc]⟩, by rw [hf r, hname]⟩
  · exact ⟨r, List.mem_map.mpr ⟨r, mem_ensure hr, by simp [hc]⟩, hname⟩

theorem seed_names_origin {r : Bucket} : ∀ (l : List String) (g0 : List Bucket),
    r ∈ l.foldl (fun g n => ensure g n) g0 → r ∈ g0 ∨ r.name ∈ l := by
  intro l
  induction l with
  | nil => intro g0 h; exact Or.inl (by simpa using h)
  | cons n rest ih =>
    intro g0 h
    rcases ih (ensure g0 n) (by simpa using h) with h2 | h2
    · simp only [ensure] at h2
      split at h2
      · exact Or.inl h2
      · rcases List.mem_append.mp h2 with h3 | h3
        · exact Or.inl h3
        · simp only [List.mem_singleton] at h3
          subst h3
          exact Or.inr (List.mem_cons_self n rest)
    · exact Or.inr (List.mem_cons_of_mem n h2)

theorem csApply_fst_origin {gSet : List String} {st : List Bucket × List Bucket}
    {name : String} {won : Bool} {diff : Int} {r : Bucket}
    (h : r ∈ (csApply gSet st name won diff).1) :
    (∃ r0 ∈ st.1, r.name = r0.name) ∨
      (r.name = name ∧ gSet.contains (slug name) = true) := by
  simp only [csApply] at h
  split at h
  · rcases bumpRow_names_origin (applyResult_name won diff) h with h2 | h2
    · exact Or.inl h2
    · rename_i hc
      exact Or.inr ⟨h2, hc⟩
  · exact Or.inl ⟨r, h, rfl⟩

theorem csApplyMatch_fst_origin {gSet : List String} {st : List Bucket × List Bucket}
    {m : MatchRow} {r : Bucket} (h : r ∈ (csApplyMatch gSet st m).1) :
    (∃ r0 ∈ st.1, r.name = r0.name) ∨ gSet.contains (slug r.name) = true := by
  simp only [csApplyMatch] at h
  rcases hpar : parseScore m.scoreText with _ | ⟨a, b⟩ <;> rw [hpar] at h
  · exact Or.inl ⟨r, h, rfl⟩
  · simp only [] at h
    split at h
    · rcases csApply_fst_origin h with h4 | h4
      case inr => exact Or.inr (by rw [h4.1]; exact h4.2)
      obtain ⟨r3, hr3, he3⟩ := h4
      rcases csApply_fst_origin hr3 with h3 | h3
      case inr => exact Or.inr (by rw [he3, h3.1]; exact h3.2)
      obtain ⟨r2, hr2, he2⟩ := h3
      rcases csApply_fst_origin hr2 with h2 | h2
      case inr => exact Or.inr (by rw [he3, he2, h2.1]; exact h2.2)
      obtain ⟨r1, hr1, he1⟩ := h2
      rcases csApply_fst_origin hr1 with h1 | h1
      case inr => exact Or.inr (by rw [he3, he2, he1, h1.1]; exact h1.2)
      obtain ⟨r0, hr0, he0⟩ := h1
      exact Or.inl ⟨r0, hr0, by rw [he3, he2, he1, he0]⟩
    · exact Or.inl ⟨r, h, rfl⟩

theorem fold_fst_origin {gSet : List String} : ∀ (ms : List MatchRow)
    (st : List Bucket × List Bucket) (r : Bucket),
    r ∈ (ms.foldl (fun st m => csApplyMatch gSet st m) st).1 →
    (∃ r0 ∈ st.1, r.name = r0.name) ∨ gSet.contains (slug r.name) = true := by
  intro ms
  induction ms with
  | nil => intro st r h; exact Or.inl ⟨r, by simpa using h, rfl⟩
  | cons m rest ih =>
    intro st r h
    rcases ih (csApplyMatch gSet st m) r (by simpa using h) with h2 | h2
    · obtain ⟨r0, hr0, he⟩ := h2
      rcases csApplyMatch_fst_origin hr0 with h3 | h3
      · obtain ⟨r1, hr1, he1⟩ := h3
        exact Or.inl ⟨r1, hr1, by rw [he, he1]⟩
      · exact Or.inr (by rw [he]; exact h3)
    · exact Or.inr h2

theorem exists_name_csApply {gSet : List String} {st : List Bucket × List Bucket}
    {name : String} {won : Bool} {diff : Int} {x : String} :
    ((∃ r ∈ st.1, r.name = x) → ∃ r ∈ (csApply gSet st name won diff).1, r.name = x) ∧
    ((∃ r ∈ st.2, r.name = x) → ∃ r ∈ (csApply gSet st name won diff).2, r.name = x) := by
  simp only [csApply]
  split
  · exact ⟨fun h => exists_name_bumpRow_mono (applyResult_name won diff) h, fun h => h⟩
  · exact ⟨fun h => h, fun h => exists_name_bumpRow_mono (applyResult_name won diff) h⟩

theorem exists_name_csApply_snd_self {gSet : List String}
    {st : List Bucket × List Bucket} {name : String} {won : Bool} {diff : Int}
    (hmiss : gSet.contains (slug name) = false) :
    ∃ r ∈ (csApply gSet st name won diff).2, r.name = name := by
  simp only [csApply, hmiss, Bool.false_eq_true, if_false]
  exact exists_name_bumpRow_self (applyResult_name won diff)

theorem exists_name_csApplyMatch_mono {gSet : List String}
    {st : List Bucket × List Bucket} {m : MatchRow} {x : String} :
    ((∃ r ∈ st.1, r.name = x) → ∃ r ∈ (csApplyMatch gSet st m).1, r.name = x) ∧
    ((∃ r ∈ st.2, r.name = x) → ∃ r ∈ (csApplyMatch gSet st m).2, r.name = x) := by
  simp only [csApplyMatch]
  rcases hpar : parseScore m.scoreText with _ | ⟨a, b⟩
  · exact ⟨id, id⟩
  · simp only []
    split
    · constructor
      · intro h
        exact exists_name_csApply.1 (exists_name_csApply.1
          (exists_name_csApply.1 (exists_name_csApply.1 h)))
      · intro h
        exact exists_name_csApply.2 (exists_name_csApply.2
          (exists_name_csApply.2 (exists_name_csApply.2 h)))
    · exact ⟨id, id⟩

theorem exists_name_csApplyMatch_snd {gSet : List String}
    {st : List Bucket × List Bucket} {m : MatchRow} {x : String} {a b : Nat}
    (hmiss : gSet.contains (slug x) = false)
    (hpar : parseScore m.scoreText = some (a, b))
    (hv : isValidPoolScore (a : Int) (b : Int) = true)
    (hx : x ∈ matchPlayers m) :
    ∃ r ∈ (csApplyMatch gSet st m).2, r.name = x := by
  simp only [csApplyMatch, hpar, hv, if_true]
  simp only [matchPlayers, List.mem_cons, List.not_mem_nil, or_false] at hx
  rcases hx with rfl | rfl | rfl | rfl
  · exact exists_name_csApply.2 (exists_name_csApply.2
      (exists_name_csApply.2 (exists_name_csApply_snd_self hmiss)))
  · exact exists_name_csApply.2 (exists_name_csApply.2 (exists_name_csApply_snd_self hmiss))
  · exact exists_name_csApply.2 (exists_name_csApply_snd_self hmiss)
  · exact exists_name_csApply_snd_self hmiss

theorem exists_name_fold_mono {gSet : List String} : ∀ (ms : List MatchRow)
    (st : List Bucket × List Bucket) (x : String),
    ((∃ r ∈ st.1, r.name = x) →
      ∃ r ∈ (ms.foldl (fun st m => csApplyMatch gSet st m) st).1, r.name = x) ∧
    ((∃ r ∈ st.2, r.name = x) →
      ∃ r ∈ (ms.foldl (fun st m => csApplyMatch gSet st m) st).2, r.name = x) := by
  intro ms
  induction ms with
  | nil => intro st x; exact ⟨id, id⟩
  | cons m rest ih =>
    intro st x
    simp only [List.foldl_cons]
    constructor
    · intro h
      exact (ih (csApplyMatch gSet st m) x).1 (exists_name_csApplyMatch_mono.1 h)
    · intro h
      exact (ih (csApplyMatch gSet st m) x).2 (exists_name_csApplyMatch_mono.2 h)

theorem exists_name_fold_snd {gSet : List String} : ∀ (ms : List MatchRow)
    (st : List Bucket × List Bucket) (m : MatchRow) (x : String) (a b : Nat),
    m ∈ ms → gSet.contains (slug x) = false →
    parseScore m.scoreText = some (a, b) →
    isValidPoolScore (a : Int) (b : Int) = true →
    x ∈ matchPlayers m →
    ∃ r ∈ (ms.foldl (fun st m => csApplyMatch gSet st m) st).2, r.name = x := by
  intro ms
  induction ms with
  | nil => intro st m x a b hm; simp at hm
  | cons m0 rest ih =>
    intro st m x a b hm hmiss hpar hv hx
    rcases List.mem_cons.mp hm with rfl | hm2
    · simp only [List.foldl_cons]
      exact (exists_name_fold_mono rest (csApplyMatch gSet st m) x).2
        (exists_name_csApplyMatch_snd hmiss hpar hv hx)
    · simp only [List.foldl_cons]
      exact ih (csApplyMatch gSet st m0) m x a b hm2 hmiss hpar hv hx

theorem lbApply_snd_origin {gSet hSet : List String} {st : List Bucket × List Bucket}
    {name : String} {won : Bool} {diff : Int} {r : Bucket}
    (h : r ∈ (lbApply gSet hSet st name won diff).2) :
    (∃ r0 ∈ st.2, r.name = r0.name) ∨
      (r.name = name ∧ hSet.contains (slug name) = true) := by
  simp only [lbApply] at h
  split at h
  · exact Or.inl ⟨r, h, rfl⟩
  · split at h
    · rcases bumpRow_names_origin (applyResult_name won diff) h with h2 | h2
      · exact Or.inl h2
      · rename_i hc
        exact Or.inr ⟨h2, hc⟩
    · exact Or.inl ⟨r, h, rfl⟩

theorem lbApplyMatch_snd_origin {gSet hSet : List String}
    {st : List Bucket × List Bucket} {m : MatchRow} {r : Bucket}
    (h : r ∈ (lbApplyMatch gSet hSet st m).2) :
    (∃ r0 ∈ st.2, r.name = r0.name) ∨ hSet.contains (slug r.name) = true := by
  simp only [lbApplyMatch] at h
  rcases hpar : parseScore m.scoreText with _ | ⟨a, b⟩ <;> rw [hpar] at h
  · exact Or.inl ⟨r, h, rfl⟩
  · simp only [] at h
    split at h
    · rcases lbApply_snd_origin h with h4 | h4
      case inr => exact Or.inr (by rw [h4.1]; exact h4.2)
      obtain ⟨r3, hr3, he3⟩ := h4
      rcases lbApply_snd_origin hr3 with h3 | h3
      case inr => exact Or.inr (by rw [he3, h3.1]; exact h3.2)
      obtain ⟨r2, hr2, he2⟩ := h3
      rcases lbApply_snd_origin hr2 with h2 | h2
      case inr => exact Or.inr (by rw [he3, he2, h2.1]; exact h2.2)
      obtain ⟨r1, hr1, he1⟩ := h2
      rcases lbApply_snd_origin hr1 with h1 | h1
      case inr => exact Or.inr (by rw [he3, he2, he1, h1.1]; exact h1.2)
      obtain ⟨r0, hr0, he0⟩ := h1
      exact Or.inl ⟨r0, hr0, by rw [he3, he2, he1, he0]⟩
    · exact Or.inl ⟨r, h, rfl⟩

theorem lb_fold_snd_origin {gSet hSet : List String} : ∀ (ms : List MatchRow)
    (st : List Bucket × List Bucket) (r : Bucket),
    r ∈ (ms.foldl (fun st m => lbApplyMatch gSet hSet st m) st).2 →
    (∃ r0 ∈ st.2, r.name = r0.name) ∨ hSet.contains (slug r.name) = true := by
  intro ms
  induction ms with
  | nil => intro st r h; exact Or.inl ⟨r, by simpa using h, rfl⟩
  | cons m rest ih =>
    intro st r h
    rcases ih (lbApplyMatch gSet hSet st m) r (by simpa using h) with h2 | h2
    · obtain ⟨r0, hr0, he⟩ := h2
      rcases lbApplyMatch_snd_origin hr0 with h3 | h3
      · obtain ⟨r1, hr1, he1⟩ := h3
        exact Or.inl ⟨r1, hr1, by rw [he, he1]⟩
      · exact Or.inr (by rw [he]; exact h3)
    · exact Or.inr h2

theorem exists_name_lbApply {gSet hSet : List String} {st : List Bucket × List Bucket}
    {name : String} {won : Bool} {diff : Int} {x : String} :
    ((∃ r ∈ st.1, r.name = x) → ∃ r ∈ (lbApply gSet hSet st name won diff).1, r.name = x) ∧
    ((∃ r ∈ st.2, r.name = x) → ∃ r ∈ (lbApply gSet hSet st name won diff).2, r.name = x) := by
  simp only [lbApply]
  split
  · exact ⟨fun h => exists_name_bumpRow_mono (applyResult_name won diff) h, fun h => h⟩
  · split
    · exact ⟨fun h => h, fun h => exists_name_bumpRow_mono (applyResult_name won diff) h⟩
    · exact ⟨fun h => exists_name_bumpRow_mono (applyResult_name won diff) h, fun h => h⟩

theorem exists_name_lbApply_fst_self {gSet hSet : List String}
    {st : List Bucket × List Bucket} {name : String} {won : Bool} {diff : Int}
    (hg : gSet.contains (slug name) = false) (hh : hSet.contains (slug name) = false) :
    ∃ r ∈ (lbApply gSet hSet st name won diff).1, r.name = name := by
  simp only [lbApply, hg, hh, Bool.false_eq_true, if_false]
  exact exists_name_bumpRow_self (applyResult_name won diff)

theorem exists_name_lbApplyMatch_mono {gSet hSet : List String}
    {st : List Bucket × List Bucket} {m : MatchRow} {x : String} :
    ((∃ r ∈ st.1, r.name = x) → ∃ r ∈ (lbApplyMatch gSet hSet st m).1, r.name = x) ∧
    ((∃ r ∈ st.2, r.name = x) → ∃ r ∈ (lbApplyMatch gSet hSet st m).2, r.name = x) := by
  simp only [lbApplyMatch]
  rcases hpar : parseScore m.scoreText with _ | ⟨a, b⟩
  · exact ⟨id, id⟩
  · simp only []
    split
    · constructor
      · intro h
        exact exists_name_lbApply.1 (exists_name_lbApply.1
          (exists_name_lbApply.1 (exists_name_lbApply.1 h)))
      · intro h
        exact exists_name_lbApply.2 (exists_name_lbApply.2
          (exists_name_lbApply.2 (exists_name_lbApply.2 h)))
    · exact ⟨id, id⟩

theorem exists_name_lbApplyMatch_fst {gSet hSet : List String}
    {st : List Bucket × List Bucket} {m : MatchRow} {x : String} {a b : Nat}
    (hg : gSet.contains (slug x) = false) (hh : hSet.contains (slug x) = false)
    (hpar : parseScore m.scoreText = some (a, b))
    (hv : isValidPoolScore (a : Int) (b : Int) = true)
    (hx : x ∈ matchPlayers m) :
    ∃ r ∈ (lbApplyMatch gSet hSet st m).1, r.name = x := by
  simp only [lbApplyMatch, hpar, hv, if_true]
  simp only [matchPlayers, List.mem_cons, List.not_mem_nil, or_false] at hx
  rcases hx with rfl | rfl | rfl | rfl
  · exact exists_name_lbApply.1 (exists_name_lbApply.1
      (exists_name_lbApply.1 (exists_name_lbApply_fst_self hg hh)))
  · exact exists_name_lbApply.1 (exists_name_lbApply.1 (exists_name_lbApply_fst_self hg hh))
  · exact exists_name_lbApply.1 (exists_name_lbApply_fst_self hg hh)
  · exact exists_name_lbApply_fst_self hg hh

theorem exists_name_lb_fold_mono {gSet hSet : List String} : ∀ (ms : List MatchRow)
    (st : List Bucket × List Bucket) (x : String),
    ((∃ r ∈ st.1, r.name = x) →
      ∃ r ∈ (ms.foldl (fun st m => lbApplyMatch gSet hSet st m) st).1, r.name = x) ∧
    ((∃ r ∈ st.2, r.name = x) →
      ∃ r ∈ (ms.foldl (fun st m => lbApplyMatch gSet hSet st m) st).2, r.name = x) := by
  intro ms
  induction ms with
  | nil => intro st x; exact ⟨id, id⟩
  | cons m rest ih =>
    intro st x
    simp only [List.foldl_cons]
    constructor
    · intro h
      exact (ih (lbApplyMatch gSet hSet st m) x).1 (exists_name_lbApplyMatch_mono.1 h)
    · intro h
      exact (ih (lbApplyMatch gSet hSet st m) x).2 (exists_name_lbApplyMatch_mono.2 h)

theorem exists_name_lb_fold_fst {gSet hSet : List String} : ∀ (ms : List MatchRow)
    (st : List Bucket × List Bucket) (m : MatchRow) (x : String) (a b : Nat),
    m ∈ ms → gSet.contains (slug x) = false → hSet.contains (slug x) = false →
    parseScore m.scoreText = some (a, b) →
    isValidPoolScore (a : Int) (b : Int) = true →
    x ∈ matchPlayers m →
    ∃ r ∈ (ms.foldl (fun st m => lbApplyMatch gSet hSet st m) st).1, r.name = x := by
  intro ms
  induction ms with
  | nil => intro st m x a b hm; simp at hm
  | cons m0 rest ih =>
    intro st m x a b hm hg hh hpar hv hx
    rcases List.mem_cons.mp hm with rfl | hm2
    · simp only [List.foldl_cons]
      exact (exists_name_lb_fold_mono rest (lbApplyMatch gSet hSet st m) x).1
        (exists_name_lbApplyMatch_fst hg hh hpar hv hx)
    · simp only [List.foldl_cons]
      exact ih (lbApplyMatch gSet hSet st m0) m x a b hm2 hg hh hpar hv hx

/- ========================= C6 ========================= -/

/-- C6 counterexample: "X" is on neither roster yet plays (and wins) a
valid match; `computeStandings` tallies X into the SECOND ("girls")
standings list, not the guys bucket the claim names: the guys list has
no row for X while the girls list holds X's 1-0-+11 record. -/
theorem computeStandings_unknown_to_girls_cex :
    ((rosterList "A\nB").map slug).contains (slug "X") = false ∧
    ((rosterList "C\nD").map slug).contains (slug "X") = false ∧
    (computeStandings
        [{ id := "m", round := 1, court := 1, t1p1 := "A", t1p2 := "X",
           t2p1 := "C", t2p2 := "D", scoreText := some "21-10" }]
        "A\nB" "C\nD").1.any (fun r => r.name = "X") = false ∧
    (⟨"X", 1, 0, 11⟩ : Bucket) ∈ (computeStandings
        [{ id := "m", round := 1, court := 1, t1p1 := "A", t1p2 := "X",
           t2p1 := "C", t2p2 := "D", scoreText := some "21-10" }]
        "A\nB" "C\nD").2 := by decide

/-- C6 (amended): a participant whose slug is absent from the guys roster
set is never tallied into the guys list by `computeStandings` — it lands
in the girls (second) list, roster-less names included; the `Leaderboard`
component's aggregation is the one with the guys-bucket fallback: there a
name absent from both rosters never reaches the girls list and is tallied
into the first (guys) list. -/
theorem standings_unknown_fallback :
    (∀ (ms : List MatchRow) (gT hT : String) (x : String),
       ((rosterList gT).map slug).contains (slug x) = false →
       ∀ r ∈ (computeStandings ms gT hT).1, r.name ≠ x) ∧
    (∀ (ms : List MatchRow) (gT hT : String) (m : MatchRow) (x : String) (a b : Nat),
       ((rosterList gT).map slug).contains (slug x) = false →
       m ∈ ms → parseScore m.scoreText = some (a, b) →
       isValidPoolScore (a : Int) (b : Int) = true → x ∈ matchPlayers m →
       ∃ r ∈ (computeStandings ms gT hT).2, r.name = x) ∧
    (∀ (ms : List MatchRow) (gT hT : String) (x : String),
       ((rosterList gT).map slug).contains (slug x) = false →
       ((rosterList hT).map slug).contains (slug x) = false →
       ∀ r ∈ (leaderboardRows ms gT hT).2, r.name ≠ x) ∧
    (∀ (ms : List MatchRow) (gT hT : String) (m : MatchRow) (x : String) (a b : Nat),
       ((rosterList gT).map slug).contains (slug x) = false →
       ((rosterList hT).map slug).contains (slug x) = false →
       m ∈ ms → parseScore m.scoreText = some (a, b) →
       isValidPoolScore (a : Int) (b : Int) = true → x ∈ matchPlayers m →
       ∃ r ∈ (leaderboardRows ms gT hT).1, r.name = x) := by
  refine ⟨?_, ?_, ?_, ?_⟩
  · intro ms gT hT x hmiss r hr he
    simp only [computeStandings, mem_sortRows] at hr
    rcases fold_fst_origin ms _ r hr with h2 | h2
    · obtain ⟨r0, hr0, hname⟩ := h2
      rcases seed_names_origin (rosterList gT) [] hr0 with h3 | h3
      · simp at h3
      · have : slug r0.name ∈ (rosterList gT).map slug := List.mem_map_of_mem slug h3
        rw [← hname, he] at this
        have hnot : slug x ∉ (rosterList gT).map slug := by simpa using hmiss
        exact hnot this
    · rw [he] at h2
      rw [h2] at hmiss
      cases hmiss
  · intro ms gT hT m x a b hmiss hm hpar hv hx
    simp only [computeStandings, mem_sortRows]
    exact exists_name_fold_snd ms _ m x a b hm hmiss hpar hv hx
  · intro ms gT hT x hg hh r hr he
    simp only [leaderboardRows, mem_sortRows] at hr
    rcases lb_fold_snd_origin ms _ r hr with h2 | h2
    · obtain ⟨r0, hr0, hname⟩ := h2
      rcases seed_names_origin (rosterList hT) [] hr0 with h3 | h3
      · simp at h3
      · have : slug r0.name ∈ (rosterList hT).map slug := List.mem_map_of_mem slug h3
        rw [← hname, he] at this
        have hnot : slug x ∉ (rosterList hT).map slug := by simpa using hh
        exact hnot this
    · rw [he] at h2
      rw [h2] at hh
      cases hh
  · intro ms gT hT m x a b hg hh hm hpar hv hx
    simp only [leaderboardRows, mem_sortRows]
    exact exists_name_lb_fold_fst ms _ m x a b hm hg hh hpar hv hx

/-- Witness for `standings_unknown_fallback`: the roster-less name "X"
of the counterexample match ends up in `computeStandings`' second list. -/
theorem standings_unknown_fallback_witness :
    ((rosterList "A\nB").map slug).contains (slug "X") = false ∧
    ∃ r ∈ (computeStandings
        [{ id := "m", round := 1, court := 1, t1p1 := "A", t1p2 := "X",
           t2p1 := "C", t2p2 := "D", scoreText := some "21-10" }]
        "A\nB" "C\nD").2, r.name = "X" :=
  ⟨by decide,
   standings_unknown_fallback.2.1
     [{ id := "m", round := 1, court := 1, t1p1 := "A", t1p2 := "X",
        t2p1 := "C", t2p2 := "D", scoreText := some "21-10" }]
     "A\nB" "C\nD"
     { id := "m", round := 1, court := 1, t1p1 := "A", t1p2 := "X",
       t2p1 := "C", t2p2 := "D", scoreText := some "21-10" }
     "X" 21 10 (by decide) (by decide) (by decide) (by decide) (by decide)⟩

/- ========================= Playoff types ========================= -/

inductive PlayDiv where
  | UPPER
  | LOWER
  | RR
deriving Repr, DecidableEq

inductive Side where
  | team1
  | team2
deriving Repr, DecidableEq

/-- `Team` from the source (`members: [string, string]`). -/
structure Team where
  id : String
  name : String
  members : String × String
  seed : Nat
  division : PlayDiv
deriving Repr, DecidableEq

/-- `BracketMatch` from the source; optional fields become `Option`. -/
structure BracketMatch where
  id : String
  division : PlayDiv
  round : Nat
  slot : Nat
  team1 : Option Team := none
  team2 : Option Team := none
  score : Option String := none
  nextId : Option String := none
  nextSide : Option Side := none
  team1SourceId : Option String := none
  team2SourceId : Option String := none
  court : Option Nat := none
  loserNextId : Option String := none
  loserNextSide : Option Side := none
  redemption : Option Bool := none
deriving Repr, DecidableEq

def UPPER_COURTS : List Nat := [1, 2, 3, 4, 5]
def LOWER_COURTS : List Nat := [6, 7, 8, 9, 10]

/-- `courtFor`: `pool[(slot - 1) % pool.length]` (RR uses the LOWER pool). -/
def courtFor (division : PlayDiv) (round slot : Nat) : Nat :=
  let pool := if division = PlayDiv.UPPER then UPPER_COURTS else LOWER_COURTS
  pool.getD ((slot - 1) % pool.length) 0

/-- The `let p = 1; while (p < n) p <<= 1` loop of `nextPow2`, with an
iteration bound (`n` doublings always suffice). -/
def nextPow2Go : Nat → Nat → Nat → Nat
  | 0, p, _ => p
  | fuel + 1, p, n => if p < n then nextPow2Go fuel (2 * p) n else p

def nextPow2 (n : Nat) : Nat := nextPow2Go n 1 n

/- ========================= ESPN seeding order ========================= -/

/-- The body of the `for (i = 0; i < prev.length; i += 2)` loop of
`espnOrder`: each step reads `a = prev[i]` and `b = prev[i+1] ?? n/2`
and emits `a, n+1-a, b, n+1-b`.  The `?? n/2` fallback only fires on an
odd-length `prev`, which never happens for the power-of-two sizes the
program builds. -/
def espnPairsLoop (n : Nat) : List Nat → List Nat
  | [] => []
  | [a] => [a, n + 1 - a, n / 2, n + 1 - n / 2]
  | a :: b :: rest => a :: (n + 1 - a) :: b :: (n + 1 - b) :: espnPairsLoop n rest

/-- `espnOrder(n)`: base cases `[1]` and `[1,2]`, else the pair loop over
`espnOrder(n/2)`.  First argument is an iteration bound (`n` halvings
always suffice); `n = 0` never occurs (`bracketSize ≥ 1`). -/
def espnOrderGo : Nat → Nat → List Nat
  | _, 0 => []
  | _, 1 => [1]
  | _, 2 => [1, 2]
  | 0, _ => []
  | fuel + 1, n => espnPairsLoop n (espnOrderGo fuel (n / 2))

def espnOrder (n : Nat) : List Nat := espnOrderGo n n

/- ========================= Match ids ========================= -/

def divStr : PlayDiv → String
  | PlayDiv.UPPER => "UPPER"
  | PlayDiv.LOWER => "LOWER"
  | PlayDiv.RR => "RR"

/-- `` `${division}-R${round}-${slot}` ``. -/
def mkId (division : PlayDiv) (round slot : Nat) : String :=
  divStr division ++ "-R" ++ Nat.repr round ++ "-" ++ Nat.repr slot

/- ========================= Bracket construction ========================= -/

/-- The `order.forEach((seed, idx) => idxBySeed.set(seed, idx))` loop:
a later occurrence of the same seed overwrites an earlier one. -/
def idxBySeedGo (s : Nat) : List Nat → Nat → Option Nat → Option Nat
  | [], _, acc => acc
  | x :: rest, i, acc => idxBySeedGo s rest (i + 1) (if x = s then some i else acc)

def idxBySeed (order : List Nat) (s : Nat) : Option Nat := idxBySeedGo s order 0 none

/-- Stable insertion by ascending seed: `teams.slice().sort((a, b) => a.seed - b.seed)`
(JS sort is stable, and a stable sort by a total preorder is unique). -/
def insertTeam (t : Team) : List Team → List Team
  | [] => [t]
  | u :: us => if t.seed ≤ u.seed then t :: u :: us else u :: insertTeam t us

def sortBySeed (ts : List Team) : List Team := ts.foldr insertTeam []

/-- Place each team into `slots[idxBySeed(seed)]`. -/
def fillSlots (slots : List (Option Team)) (order : List Nat) (ts : List Team) :
    List (Option Team) :=
  ts.foldl
    (fun sl t =>
      match idxBySeed order t.seed with
      | some i => sl.set i (some t)
      | none => sl) slots

/-- The round-1 matches: one per slot pair (`slots[i]`, `slots[i+1]`). -/
def mkRound1 (division : PlayDiv) (slots : List (Option Team)) : List BracketMatch :=
  (List.range ((slots.length + 1) / 2)).map fun k =>
    { id := mkId division 1 (k + 1), division := division, round := 1, slot := k + 1,
      team1 := slots.getD (2 * k) none, team2 := slots.getD (2 * k + 1) none,
      court := some (courtFor division 1 (k + 1)) }

/-- One iteration of the parent-building `while` loop: pair adjacent
matches of `current`, give each child its forward pointer, and collect
the parents.  Returns (children with pointers set, parents). -/
def mkParents (division : PlayDiv) (round : Nat) :
    Nat → List BracketMatch → List BracketMatch × List BracketMatch
  | _, [] => ([], [])
  | k, [a] =>
    let pid := mkId division round (k + 1)
    ([{ a with nextId := some pid, nextSide := some Side.team1 }],
     [{ id := pid, division := division, round := round, slot := k + 1,
        court := some (courtFor division round (k + 1)),
        team1SourceId := some a.id }])
  | k, a :: b :: rest =>
    let pid := mkId division round (k + 1)
    let res := mkParents division round (k + 1) rest
    ({ a with nextId := some pid, nextSide := some Side.team1 } ::
       { b with nextId := some pid, nextSide := some Side.team2 } :: res.1,
     { id := pid, division := division, round := round, slot := k + 1,
       court := some (courtFor division round (k + 1)),
       team1SourceId := some a.id, team2SourceId := some b.id } :: res.2)

/-- The `while (current.length > 1)` loop, concatenating every round's
matches (fuel bound: the level count never exceeds the initial length). -/
def linkRounds (division : PlayDiv) : Nat → Nat → List BracketMatch → List BracketMatch
  | 0, _, current => current
  | fuel + 1, round, current =>
    if current.length ≤ 1 then current
    else
      let res := mkParents division (round + 1) 0 current
      res.1 ++ linkRounds division fuel (round + 1) res.2

/-- Write `t` into the given side of the match with id `pid` (no-op when
absent; ids are unique in every built bracket). -/
def setSlotById (ms : List BracketMatch) (pid : String) (side : Side) (t : Team) :
    List BracketMatch :=
  ms.map fun x =>
    if x.id = pid then
      match side with
      | Side.team1 => { x with team1 := some t }
      | Side.team2 => { x with team2 := some t }
    else x

/-- `advanceWinner(m, team)`: follow the forward pointer when everything
is present. -/
def advanceWinner (ms : List BracketMatch) (m : BracketMatch) (t : Option Team) :
    List BracketMatch :=
  match t, m.nextId, m.nextSide with
  | some t, some pid, some side => setSlotById ms pid side t
  | _, _, _ => ms

/-- The two bye-advance checks of one round-1 match. -/
def advanceByeStep (byeSeed : Nat → Bool) (acc : List BracketMatch)
    (m : BracketMatch) : List BracketMatch :=
  let acc :=
    match m.team1, m.team2 with
    | some t1, none => if byeSeed t1.seed then advanceWinner acc m (some t1) else acc
    | _, _ => acc
  match m.team2, m.team1 with
  | some t2, none => if byeSeed t2.seed then advanceWinner acc m (some t2) else acc
  | _, _ => acc

/-- `// Auto-advance pure BYE for top seeds in R1`: fold over the round-1
snapshot (those matches are never written to, only parents are). -/
def advanceByes (byeSeed : Nat → Bool) (ms : List BracketMatch) : List BracketMatch :=
  (ms.filter (fun x => x.round = 1)).foldl (advanceByeStep byeSeed) ms

/-- `// Mark pure BYE leaves as hidden (score "BYE")`: every round-1 match
with exactly one team present is stripped, bye-eligible or not. -/
def markByes (ms : List BracketMatch) : List BracketMatch :=
  ms.map fun m =>
    if m.round = 1 ∧ ((m.team1.isSome ∧ m.team2 = none) ∨ (m.team1 = none ∧ m.team2.isSome))
    then { m with score := some "BYE", team1 := none, team2 := none }
    else m

/-- `wantByes = Math.min(Math.max(gapByes, Math.floor(topSeedByeCount)), 5, size)`
with `gapByes = Math.max(0, size - N)`; the bye count is taken as an
integer (`Math.floor` is the identity on it). -/
def wantByesOf (size N : Nat) (topSeedByeCount : Int) : Int :=
  min (min (max (max 0 ((size : Int) - (N : Int))) topSeedByeCount) 5) (size : Int)

/-- Membership in `byeSeeds = {1, ..., wantByes}`. -/
def isByeSeed (wantByes : Int) (s : Nat) : Bool :=
  decide (1 ≤ (s : Int) ∧ (s : Int) ≤ wantByes)

/-- `buildBracket(division, teams, topSeedByeCount)`. -/
def buildBracket (division : PlayDiv) (teams : List Team) (topSeedByeCount : Int) :
    List BracketMatch :=
  let N := teams.length
  if N = 0 then []
  else
    let size := nextPow2 N
    let order := espnOrder size
    let slots := fillSlots (List.replicate size none) order (sortBySeed teams)
    let wantByes := wantByesOf size N topSeedByeCount
    let linked := linkRounds division size 1 (mkRound1 division slots)
    markByes (advanceByes (isByeSeed wantByes) linked)

/- ========================= Score entry (onScore) ========================= -/

/-- JS `parseInt(s, 10)`: optional sign then a maximal digit prefix;
`NaN` (here `none`) when no digit follows. -/
def jsParseIntCore (cs : List Char) : Option Nat :=
  let ds := cs.takeWhile Char.isDigit
  if ds = [] then none else some (digitsVal ds)

def jsParseInt (s : String) : Option Int :=
  match s.data.dropWhile Char.isWhitespace with
  | '-' :: rest => (jsParseIntCore rest).map (fun n => -(n : Int))
  | '+' :: rest => (jsParseIntCore rest).map (fun n => (n : Int))
  | t => (jsParseIntCore t).map (fun n => (n : Int))

/-- `parseScoreLoose`: trim, split at the en-dash if present else the
hyphen, require exactly two parts, `parseInt` each. -/
def parseScoreLoose (s : Option String) : Option (Int × Int) :=
  match s with
  | none => none
  | some s =>
    if s = "" then none
    else
      let txt := jsTrim s
      let sep : Char := if txt.data.contains '–' then '–' else '-'
      match (splitOnChar sep txt.data).map (fun cs => jsTrim ⟨cs⟩) with
      | [p1, p2] =>
        match jsParseInt p1, jsParseInt p2 with
        | some a, some b => some (a, b)
        | _, _ => none
      | _ => none

/-- Write a score into the match with the given id. -/
def setScoreById (ms : List BracketMatch) (mid score : String) : List BracketMatch :=
  ms.map fun x => if x.id = mid then { x with score := some score } else x

/-- `onScore(id, score)`: record the text, then (for a decisive parseable
score) push the winner through `nextId`/`nextSide` and the loser through
`loserNextId`/`loserNextSide`.  The source's `byId` Map resolves an id to
its last occurrence; bracket ids are unique, where the two coincide. -/
def onScore (bs : List BracketMatch) (mid score : String) : List BracketMatch :=
  match bs.find? (fun x => x.id = mid) with
  | none => bs
  | some m =>
    let bs1 := setScoreById bs mid score
    match parseScoreLoose (some score) with
    | none => bs1
    | some (a, b) =>
      let winner := if b < a then m.team1 else if a < b then m.team2 else none
      let loser := if b < a then m.team2 else if a < b then m.team1 else none
      let bs2 :=
        match winner, m.nextId, m.nextSide with
        | some w, some pid, some side => setSlotById bs1 pid side w
        | _, _, _ => bs1
      match loser, m.loserNextId, m.loserNextSide with
      | some l, some qid, some qside => setSlotById bs2 qid qside l
      | _, _, _ => bs2

/- ========================= C2: onScore lemmas ========================= -/

/-- Project the team slot a `Side` value names. -/
def sideGet (m : BracketMatch) : Side → Option Team
  | Side.team1 => m.team1
  | Side.team2 => m.team2

theorem setSlotById_id (ms : List BracketMatch) (pid : String) (side : Side) (t : Team) :
    ∀ x ∈ setSlotById ms pid side t, ∃ y ∈ ms, x.id = y.id ∧
      (y.id ≠ pid → x = y) ∧
      (y.id = pid →
        x = (match side with
             | Side.team1 => { y with team1 := some t }
             | Side.team2 => { y with team2 := some t })) := by
  intro x hx
  obtain ⟨y, hy, he⟩ := List.mem_map.mp hx
  refine ⟨y, hy, ?_, ?_, ?_⟩
  · by_cases hc : y.id = pid
    · rw [← he]; simp only [hc, if_true]; cases side <;> rfl
    · rw [← he]; simp [hc]
  · intro hc; rw [← he]; simp [hc]
  · intro hc; rw [← he]; simp [hc]

theorem onScore_members (bs : List BracketMatch) (m : BracketMatch)
    (text : String) : ∀ x ∈ onScore bs m.id text, ∃ y ∈ bs, x.id = y.id := by
  intro x hx
  simp only [onScore] at hx
  rcases hfind : bs.find? (fun z => z.id = m.id) with _ | m0 <;> rw [hfind] at hx
  · exact ⟨x, hx, rfl⟩
  · have step : ∀ (ms : List BracketMatch) (pid : String) (side : Side) (t : Team),
        (∀ z ∈ ms, ∃ y ∈ bs, z.id = y.id) →
        ∀ z ∈ setSlotById ms pid side t, ∃ y ∈ bs, z.id = y.id := by
      intro ms pid side t hall z hz
      obtain ⟨y0, hy0, he, _, _⟩ := setSlotById_id ms pid side t z hz
      obtain ⟨y, hy, he2⟩ := hall y0 hy0
      exact ⟨y, hy, by rw [he, he2]⟩
    have base : ∀ z ∈ setScoreById bs m.id text, ∃ y ∈ bs, z.id = y.id := by
      intro z hz
      obtain ⟨y, hy, he⟩ := List.mem_map.mp hz
      refine ⟨y, hy, ?_⟩
      by_cases hc : y.id = m.id <;> rw [← he] <;> simp [hc]
    rcases hpar : parseScoreLoose (some text) with _ | ⟨a, b⟩ <;> rw [hpar] at hx
    · exact base x hx
    · simp only [] at hx
      rcases hw : (if b < a then m0.team1 else if a < b then m0.team2 else none) with _ | w <;>
        rcases hl : (if b < a then m0.team2 else if a < b then m0.team1 else none) with _ | l <;>
        rw [hw, hl] at hx
      all_goals
        rcases hni : m0.nextId with _ | pid <;> rw [hni] at hx
      all_goals
        try rcases hns : m0.nextSide with _ | side <;> rw [hns] at hx
      all_goals
        try rcases hqi : m0.loserNextId with _ | qid <;> rw [hqi] at hx
      all_goals
        try rcases hqs : m0.loserNextSide with _ | qside <;> rw [hqs] at hx
      all_goals first
        | exact base x hx
        | exact step _ _ _ _ base x hx
        | exact step _ _ _ _ (step _ _ _ _ base) x hx

theorem find?_id_of_nodup {bs : List BracketMatch} {m : BracketMatch}
    (hnd : (bs.map BracketMatch.id).Nodup) (hm : m ∈ bs) :
    bs.find? (fun x => x.id = m.id) = some m := by
  induction bs with
  | nil => simp at hm
  | cons y ys ih =>
    simp only [List.find?_cons]
    rcases List.mem_cons.mp hm with rfl | hm2
    · simp
    · have hy : y.id ≠ m.id := by
        intro he
        simp only [List.map_cons, List.nodup_cons] at hnd
        exact hnd.1 (he ▸ List.mem_map_of_mem BracketMatch.id hm2)
      simp only [hy, decide_eq_true_eq]
      have hnd2 : (ys.map BracketMatch.id).Nodup := by
        simp only [List.map_cons, List.nodup_cons] at hnd
        exact hnd.2
      simpa [hy] using ih hnd2 hm2

theorem mem_setScoreById {x : BracketMatch} {ms : List BracketMatch} {mid text : String}
    (hx : x ∈ setScoreById ms mid text) :
    ∃ y ∈ ms, x = if y.id = mid then { y with score := some text } else y := by
  obtain ⟨y, hy, he⟩ := List.mem_map.mp hx
  exact ⟨y, hy, he.symm⟩

theorem mem_setSlotById {x : BracketMatch} {ms : List BracketMatch} {pid : String}
    {side : Side} {t : Team} (hx : x ∈ setSlotById ms pid side t) :
    ∃ y ∈ ms, x = if y.id = pid then
        (match side with
         | Side.team1 => { y with team1 := some t }
         | Side.team2 => { y with team2 := some t })
      else y := by
  obtain ⟨y, hy, he⟩ := List.mem_map.mp hx
  subst he
  refine ⟨y, hy, ?_⟩
  by_cases hc : y.id = pid
  · cases side <;> simp [hc]
  · simp [hc]

theorem setScoreById_mem_self {y : BracketMatch} {ms : List BracketMatch}
    {mid text : String} (hy : y ∈ ms) (hne : y.id ≠ mid) :
    y ∈ setScoreById ms mid text := by
  exact List.mem_map.mpr ⟨y, hy, by simp [hne]⟩

theorem setSlotById_mem_self {y : BracketMatch} {ms : List BracketMatch}
    {pid : String} {side : Side} {t : Team} (hy : y ∈ ms) (hne : y.id ≠ pid) :
    y ∈ setSlotById ms pid side t := by
  exact List.mem_map.mpr ⟨y, hy, by simp [hne]⟩

/-- The update `setSlotById` performs on the targeted match. -/
def sideSet (t : Team) (m : BracketMatch) : Side → BracketMatch
  | Side.team1 => { m with team1 := some t }
  | Side.team2 => { m with team2 := some t }

theorem sideGet_sideSet_self (t : Team) (m : BracketMatch) (s : Side) :
    sideGet (sideSet t m s) s = some t := by
  cases s <;> rfl

theorem sideGet_sideSet_other (t : Team) (m : BracketMatch) (s u : Side)
    (h : u ≠ s) : sideGet (sideSet t m s) u = sideGet m u := by
  cases s <;> cases u <;> first | rfl | exact absurd rfl h

theorem setSlotById_mem2 (ms : List BracketMatch) (pid : String) (s : Side)
    (t : Team) : ∀ x ∈ setSlotById ms pid s t, ∃ y ∈ ms, x.id = y.id ∧
      (y.id ≠ pid → x = y) ∧ (y.id = pid → x = sideSet t y s) := by
  intro x hx
  obtain ⟨y, hy, h1, h2, h3⟩ := setSlotById_id ms pid s t x hx
  refine ⟨y, hy, h1, h2, fun hc => ?_⟩
  rw [h3 hc]; cases s <;> rfl

/-- C2: entering a decisive parseable score "a-b" on a match `m` that has both
teams and a forward pointer records the text on `m`, writes the higher-scoring
side's team into the parent slot named by `(nextId, nextSide)`, writes — when a
loser destination `(loserNextId, loserNextSide)` exists — the losing team into
that match's named slot, and touches no other match. -/
theorem onScore_propagation (bs : List BracketMatch) (m : BracketMatch)
    (text : String) (a b : Int) (pid : String) (side : Side) (t1 t2 : Team)
    (hnd : (bs.map BracketMatch.id).Nodup) (hm : m ∈ bs)
    (ht1 : m.team1 = some t1) (ht2 : m.team2 = some t2)
    (hni : m.nextId = some pid) (hns : m.nextSide = some side)
    (hparse : parseScoreLoose (some text) = some (a, b)) (hab : a ≠ b)
    (hpid : pid ≠ m.id)
    (hq : ∀ qid qside, m.loserNextId = some qid → m.loserNextSide = some qside →
      qid ≠ m.id ∧ (qid = pid → qside ≠ side)) :
    (∀ x ∈ onScore bs m.id text, x.id = m.id →
      x = { m with score := some text }) ∧
    (∀ x ∈ onScore bs m.id text, x.id = pid →
      sideGet x side = some (if b < a then t1 else t2)) ∧
    (∀ qid qside, m.loserNextId = some qid → m.loserNextSide = some qside →
      ∀ x ∈ onScore bs m.id text, x.id = qid →
        sideGet x qside = some (if b < a then t2 else t1)) ∧
    (∀ x ∈ onScore bs m.id text, x.id ≠ m.id → x.id ≠ pid →
      (∀ qid, m.loserNextId = some qid → x.id ≠ qid) → x ∈ bs) := by
  have hfind : bs.find? (fun x => x.id = m.id) = some m := find?_id_of_nodup hnd hm
  set W := if b < a then t1 else t2 with hW
  set L := if b < a then t2 else t1 with hL
  have hw : (if b < a then m.team1 else if a < b then m.team2 else none)
      = some W := by
    rcases lt_or_gt_of_ne hab with h | h
    · have hnb : ¬ b < a := lt_asymm h
      rw [hW]; simp only [if_neg hnb, if_pos h, ht2]
    · rw [hW]; simp only [if_pos h, ht1]
  have hl : (if b < a then m.team2 else if a < b then m.team1 else none)
      = some L := by
    rcases lt_or_gt_of_ne hab with h | h
    · have hnb : ¬ b < a := lt_asymm h
      rw [hL]; simp only [if_neg hnb, if_pos h, ht1]
    · rw [hL]; simp only [if_pos h, ht2]
  have h2 : ∀ z ∈ setSlotById (setScoreById bs m.id text) pid side W,
      (z.id = m.id → z = { m with score := some text }) ∧
      (z.id = pid → sideGet z side = some W) ∧
      (z.id ≠ m.id → z.id ≠ pid → z ∈ bs) := by
    intro z hz
    obtain ⟨y1, hy1, hid1, hne1, heq1⟩ :=
      setSlotById_mem2 (setScoreById bs m.id text) pid side W z hz
    obtain ⟨y0, hy0, hy1e⟩ := mem_setScoreById hy1
    have hid10 : y1.id = y0.id := by
      rw [hy1e]; by_cases hc : y0.id = m.id <;> simp [hc]
    refine ⟨?_, ?_, ?_⟩
    · intro hzm
      have hy1m : y1.id = m.id := by rw [← hid1]; exact hzm
      have hy1ne : y1.id ≠ pid := by
        rw [hy1m]; exact fun h => hpid h.symm
      have hz1 : z = y1 := hne1 hy1ne
      have hy0m : y0.id = m.id := by rw [← hid10]; exact hy1m
      have hy0e : y0 = m := List.inj_on_of_nodup_map hnd hy0 hm hy0m
      rw [hz1, hy1e, hy0e]; simp
    · intro hzp
      have hy1p : y1.id = pid := by rw [← hid1]; exact hzp
      rw [heq1 hy1p]; exact sideGet_sideSet_self W y1 side
    · intro hzm hzp
      have hz1 : z = y1 := hne1 (by rw [← hid1]; exact hzp)
      have hne0 : y0.id ≠ m.id := by rw [← hid10, ← hid1]; exact hzm
      have hy10 : y1 = y0 := by rw [hy1e]; simp [hne0]
      rw [hz1, hy10]; exact hy0
  have h3 : ∀ (qid0 : String) (qside0 : Side),
      m.loserNextId = some qid0 → m.loserNextSide = some qside0 →
      ∀ z ∈ setSlotById (setSlotById (setScoreById bs m.id text) pid side W)
          qid0 qside0 L,
      (z.id = m.id → z = { m with score := some text }) ∧
      (z.id = pid → sideGet z side = some W) ∧
      (z.id = qid0 → sideGet z qside0 = some L) ∧
      (z.id ≠ m.id → z.id ≠ pid → z.id ≠ qid0 → z ∈ bs) := by
    intro qid0 qside0 hqi0 hqs0 z hz
    obtain ⟨hqm, hqps⟩ := hq qid0 qside0 hqi0 hqs0
    obtain ⟨y2, hy2, hid2, hne2, heq2⟩ :=
      setSlotById_mem2 _ qid0 qside0 L z hz
    obtain ⟨c1, c2, c3⟩ := h2 y2 hy2
    refine ⟨?_, ?_, ?_, ?_⟩
    · intro hzm
      have hy2m : y2.id = m.id := by rw [← hid2]; exact hzm
      have hz2 : z = y2 := hne2 (by rw [hy2m]; exact fun h => hqm h.symm)
      rw [hz2]; exact c1 hy2m
    · intro hzp
      have hy2p : y2.id = pid := by rw [← hid2]; exact hzp
      by_cases hc : qid0 = pid
      · have hcs : qside0 ≠ side := hqps hc
        rw [heq2 (by rw [hy2p, hc]),
          sideGet_sideSet_other L y2 qside0 side (fun h => hcs h.symm)]
        exact c2 hy2p
      · have hz2 : z = y2 := hne2 (by rw [hy2p]; exact fun h => hc h.symm)
        rw [hz2]; exact c2 hy2p
    · intro hzq
      have hy2q : y2.id = qid0 := by rw [← hid2]; exact hzq
      rw [heq2 hy2q]; exact sideGet_sideSet_self L y2 qside0
    · intro hzm hzp hzq
      have hz2 : z = y2 := hne2 (by rw [← hid2]; exact hzq)
      rw [hz2]
      exact c3 (by rw [← hid2]; exact hzm) (by rw [← hid2]; exact hzp)
  have master : ∀ x ∈ onScore bs m.id text,
      (x.id = m.id → x = { m with score := some text }) ∧
      (x.id = pid → sideGet x side = some W) ∧
      (∀ qid qside, m.loserNextId = some qid → m.loserNextSide = some qside →
          x.id = qid → sideGet x qside = some L) ∧
      (x.id ≠ m.id → x.id ≠ pid →
          (∀ qid, m.loserNextId = some qid → x.id ≠ qid) → x ∈ bs) := by
    intro x hx
    simp only [onScore] at hx
    rw [hfind] at hx
    simp only [] at hx
    rw [hparse] at hx
    simp only [] at hx
    rw [hw, hl, hni, hns] at hx
    simp only [] at hx
    rcases Option.eq_none_or_eq_some m.loserNextId with hqi | ⟨qid0, hqi⟩
    · rw [hqi] at hx
      obtain ⟨c1, c2, c3⟩ := h2 x hx
      refine ⟨c1, c2, ?_, fun u1 u2 _ => c3 u1 u2⟩
      intro qid qside hqi2 _ _
      rw [hqi] at hqi2; exact Option.noConfusion hqi2
    · rw [hqi] at hx
      rcases Option.eq_none_or_eq_some m.loserNextSide with hqs | ⟨qside0, hqs⟩
      · rw [hqs] at hx
        obtain ⟨c1, c2, c3⟩ := h2 x hx
        refine ⟨c1, c2, ?_, fun u1 u2 _ => c3 u1 u2⟩
        intro qid qside _ hqs2 _
        rw [hqs] at hqs2; exact Option.noConfusion hqs2
      · rw [hqs] at hx
        obtain ⟨d1, d2, d3, d4⟩ := h3 qid0 qside0 hqi hqs x hx
        refine ⟨d1, d2, ?_, ?_⟩
        · intro qid qside hqi2 hqs2 hxq
          rw [hqi] at hqi2
          rw [hqs] at hqs2
          cases Option.some.inj hqi2
          cases Option.some.inj hqs2
          exact d3 hxq
        · intro u1 u2 u3
          exact d4 u1 u2 (u3 qid0 hqi)
  refine ⟨?_, ?_, ?_, ?_⟩
  · intro x hx hxm; exact (master x hx).1 hxm
  · intro x hx hxp; exact (master x hx).2.1 hxp
  · intro qid qside hqi0 hqs0 x hx hxq
    exact (master x hx).2.2.1 qid qside hqi0 hqs0 hxq
  · intro x hx u1 u2 u3; exact (master x hx).2.2.2 u1 u2 u3

def c2team1 : Team :=
  { id := "t1", name := "Seed1", members := ("A", "B"), seed := 1,
    division := PlayDiv.UPPER }

def c2team8 : Team :=
  { id := "t8", name := "Seed8", members := ("C", "D"), seed := 8,
    division := PlayDiv.UPPER }

def c2match : BracketMatch :=
  { id := "M1", division := PlayDiv.UPPER, round := 1, slot := 1,
    team1 := some c2team1, team2 := some c2team8,
    nextId := some "P1", nextSide := some Side.team1,
    loserNextId := some "Q1", loserNextSide := some Side.team2 }

def c2parent : BracketMatch :=
  { id := "P1", division := PlayDiv.UPPER, round := 2, slot := 1 }

def c2loserDest : BracketMatch :=
  { id := "Q1", division := PlayDiv.UPPER, round := 2, slot := 2 }

def c2bs : List BracketMatch := [c2match, c2parent, c2loserDest]

/-- C2 witness: the spec's scenario — `team1 = Seed1`, `team2 = Seed8`,
score `"25-21"` — on a concrete three-match bracket. -/
theorem onScore_propagation_witness :
    c2match ∈ c2bs ∧
    ((∀ x ∈ onScore c2bs c2match.id "25-21", x.id = c2match.id →
        x = { c2match with score := some "25-21" }) ∧
     (∀ x ∈ onScore c2bs c2match.id "25-21", x.id = "P1" →
        sideGet x Side.team1 =
          some (if (21 : Int) < 25 then c2team1 else c2team8)) ∧
     (∀ qid qside, c2match.loserNextId = some qid →
        c2match.loserNextSide = some qside →
        ∀ x ∈ onScore c2bs c2match.id "25-21", x.id = qid →
          sideGet x qside =
            some (if (21 : Int) < 25 then c2team8 else c2team1)) ∧
     (∀ x ∈ onScore c2bs c2match.id "25-21", x.id ≠ c2match.id →
        x.id ≠ "P1" →
        (∀ qid, c2match.loserNextId = some qid → x.id ≠ qid) → x ∈ c2bs)) :=
  ⟨by decide,
   onScore_propagation c2bs c2match "25-21" 25 21 "P1" Side.team1 c2team1
     c2team8 (by decide) (by decide) rfl rfl rfl rfl (by decide) (by decide)
     (by decide)
     (fun qid qside hqi hqs => by
       cases Option.some.inj hqi
       cases Option.some.inj hqs
       exact ⟨by decide, fun h => absurd h (by decide)⟩)⟩

/- ========================= C4: seeding order ========================= -/

/-- The spec's recursive seeding fold, indexed by the exponent: the order
for a bracket of size `2 ^ (k + 1)` emits `(s, size + 1 - s)` for each `s`
of the order for size `2 ^ k`.  (Stated from the spec's words, to be
compared with the source's `espnOrder`.) -/
def seedFold : Nat → List Nat
  | 0 => [1]
  | k + 1 => (seedFold k).bind (fun s => [s, 2 ^ (k + 1) + 1 - s])

theorem espnPairsLoop_eq_bind (n : Nat) :
    ∀ l : List Nat, l.length % 2 = 0 →
      espnPairsLoop n l = l.bind (fun s => [s, n + 1 - s]) := by
  have key : ∀ (m : Nat) (l : List Nat), l.length ≤ m → l.length % 2 = 0 →
      espnPairsLoop n l = l.bind (fun s => [s, n + 1 - s]) := by
    intro m
    induction m with
    | zero =>
      intro l hl _
      match l with
      | [] => rfl
      | a :: t => simp only [List.length_cons] at hl; omega
    | succ m ih =>
      intro l hl he
      match l with
      | [] => rfl
      | [a] => simp at he
      | a :: b :: rest =>
        have h1 : rest.length ≤ m := by
          simp only [List.length_cons] at hl; omega
        have h2 : rest.length % 2 = 0 := by
          simp only [List.length_cons] at he ⊢; omega
        simp only [espnPairsLoop]
        rw [ih rest h1 h2]
        simp [List.cons_bind]
  exact fun l => key l.length l (le_refl _)

theorem espnOrderGo_zero (f : Nat) : espnOrderGo f 0 = [] := by
  cases f <;> rfl

theorem espnOrderGo_one (f : Nat) : espnOrderGo f 1 = [1] := by
  cases f <;> rfl

theorem espnOrderGo_two (f : Nat) : espnOrderGo f 2 = [1, 2] := by
  cases f <;> rfl

theorem espnOrderGo_succ (f n : Nat) (h : 3 ≤ n) :
    espnOrderGo (f + 1) n = espnPairsLoop n (espnOrderGo f (n / 2)) := by
  obtain ⟨m, rfl⟩ : ∃ m, n = m + 3 := ⟨n - 3, by omega⟩
  rfl

theorem espnOrderGo_congr : ∀ (n f1 f2 : Nat), n ≤ f1 → n ≤ f2 →
    espnOrderGo f1 n = espnOrderGo f2 n := by
  intro n
  induction n using Nat.strong_induction_on with
  | _ n ih =>
    intro f1 f2 h1 h2
    by_cases h3 : n ≤ 2
    · interval_cases n
      · rw [espnOrderGo_zero, espnOrderGo_zero]
      · rw [espnOrderGo_one, espnOrderGo_one]
      · rw [espnOrderGo_two, espnOrderGo_two]
    · obtain ⟨g1, rfl⟩ : ∃ g, f1 = g + 1 := ⟨f1 - 1, by omega⟩
      obtain ⟨g2, rfl⟩ : ∃ g, f2 = g + 1 := ⟨f2 - 1, by omega⟩
      rw [espnOrderGo_succ g1 n (by omega), espnOrderGo_succ g2 n (by omega)]
      have hd : n / 2 < n := Nat.div_lt_self (by omega) (by omega)
      rw [ih (n / 2) hd g1 g2 (by omega) (by omega)]

theorem espnOrder_pow_succ (k : Nat) (hk : 1 ≤ k) :
    espnOrder (2 ^ (k + 1)) =
      espnPairsLoop (2 ^ (k + 1)) (espnOrder (2 ^ k)) := by
  have h1 : (2:Nat) ≤ 2 ^ k := by
    calc (2:Nat) = 2 ^ 1 := rfl
    _ ≤ 2 ^ k := Nat.pow_le_pow_right (by omega) hk
  have hgs : 2 ^ (k + 1) = 2 ^ k * 2 := by rw [pow_succ]
  unfold espnOrder
  obtain ⟨g, hg⟩ : ∃ g, 2 ^ (k + 1) = g + 1 := ⟨2 ^ (k + 1) - 1, by omega⟩
  rw [hg, espnOrderGo_succ g (g + 1) (by omega)]
  have hdiv : (g + 1) / 2 = 2 ^ k := by
    rw [← hg, hgs]; exact Nat.mul_div_cancel _ (by omega)
  rw [hdiv]
  have hgk : 2 ^ k ≤ g := by omega
  rw [espnOrderGo_congr (2 ^ k) g (2 ^ k) hgk (le_refl _)]

theorem length_bind_pair (f g : Nat → Nat) :
    ∀ l : List Nat, (l.bind (fun s => [f s, g s])).length = 2 * l.length := by
  intro l
  induction l with
  | nil => rfl
  | cons a t ih =>
    simp only [List.cons_bind, List.length_append, List.length_cons,
      List.length_nil, ih]
    omega

theorem seedFold_spec : ∀ k : Nat,
    espnOrder (2 ^ k) = seedFold k ∧
    (seedFold k).length = 2 ^ k ∧
    (∀ x, x ∈ seedFold k ↔ 1 ≤ x ∧ x ≤ 2 ^ k) ∧
    (seedFold k).Nodup := by
  intro k
  induction k with
  | zero =>
    refine ⟨rfl, rfl, ?_, by simp [seedFold]⟩
    intro x
    simp only [seedFold, List.mem_singleton, pow_zero]
    omega
  | succ k ih =>
    obtain ⟨heq, hlen, hmem, hnd⟩ := ih
    by_cases hk : k = 0
    · subst hk
      refine ⟨by decide, by decide, ?_, by decide⟩
      intro x
      have hs : seedFold 1 = [1, 2] := by decide
      rw [hs]
      simp only [List.mem_cons, List.mem_singleton, List.not_mem_nil, or_false,
        pow_one]
      omega
    · have hM : (2:Nat) ^ (k + 1) = 2 * 2 ^ k := by rw [pow_succ]; ring
      have h1 : (1:Nat) ≤ 2 ^ k := Nat.one_le_two_pow
      have heqS : espnOrder (2 ^ (k + 1)) = seedFold (k + 1) := by
        rw [espnOrder_pow_succ k (by omega), heq,
          espnPairsLoop_eq_bind (2 ^ (k + 1)) (seedFold k) (by
            rw [hlen]
            obtain ⟨j, rfl⟩ : ∃ j, k = j + 1 := ⟨k - 1, by omega⟩
            rw [pow_succ]
            omega)]
        simp only [seedFold]
      have hlenS : (seedFold (k + 1)).length = 2 ^ (k + 1) := by
        simp only [seedFold]
        rw [length_bind_pair (fun s => s) (fun s => 2 ^ (k + 1) + 1 - s)
          (seedFold k), hlen, hM]
      have hmemS : ∀ x, x ∈ seedFold (k + 1) ↔ 1 ≤ x ∧ x ≤ 2 ^ (k + 1) := by
        intro x
        simp only [seedFold, List.mem_bind, List.mem_cons, List.mem_singleton,
          List.not_mem_nil, or_false, hM]
        constructor
        · rintro ⟨s, hs, hx⟩
          obtain ⟨hs1, hs2⟩ := (hmem s).mp hs
          rcases hx with rfl | rfl <;> omega
        · rintro ⟨hx1, hx2⟩
          by_cases hx3 : x ≤ 2 ^ k
          · exact ⟨x, (hmem x).mpr ⟨hx1, hx3⟩, Or.inl rfl⟩
          · exact ⟨2 * 2 ^ k + 1 - x, (hmem _).mpr ⟨by omega, by omega⟩,
              Or.inr (by omega)⟩
      have hndS : (seedFold (k + 1)).Nodup := by
        simp only [seedFold]
        rw [List.nodup_bind]
        constructor
        · intro s hs
          obtain ⟨hs1, hs2⟩ := (hmem s).mp hs
          simp only [List.nodup_cons, List.mem_singleton, List.not_mem_nil,
            not_false_eq_true, and_true, List.nodup_nil, hM]
          omega
        · refine List.Pairwise.imp_of_mem ?_ hnd
          intro u v hu hv huv
          obtain ⟨hu1, hu2⟩ := (hmem u).mp hu
          obtain ⟨hv1, hv2⟩ := (hmem v).mp hv
          intro x hx1 hx2
          simp only [List.mem_cons, List.mem_singleton, List.not_mem_nil,
            or_false, hM] at hx1 hx2
          rcases hx1 with rfl | rfl <;> rcases hx2 with h | h <;> omega
      exact ⟨heqS, hlenS, hmemS, hndS⟩

theorem idxBySeedGo_not_mem (s : Nat) :
    ∀ (l : List Nat) (i : Nat) (acc : Option Nat), s ∉ l →
      idxBySeedGo s l i acc = acc := by
  intro l
  induction l with
  | nil => intro i acc _; rfl
  | cons x rest ih =>
    intro i acc hs
    simp only [idxBySeedGo]
    have hx : ¬ x = s := fun h => hs (h ▸ List.mem_cons_self x rest)
    rw [if_neg hx]
    exact ih (i + 1) acc (fun h => hs (List.mem_cons_of_mem x h))

theorem idxBySeedGo_getElem (s : Nat) :
    ∀ (l : List Nat) (j i : Nat) (acc : Option Nat), l.Nodup →
      l[j]? = some s → idxBySeedGo s l i acc = some (i + j) := by
  intro l
  induction l with
  | nil => intro j i acc _ hj; simp at hj
  | cons x rest ih =>
    intro j i acc hnd hj
    simp only [idxBySeedGo]
    by_cases hx : x = s
    · subst hx
      have hnotin : x ∉ rest := (List.nodup_cons.mp hnd).1
      have hj0 : j = 0 := by
        cases j with
        | zero => rfl
        | succ j2 =>
          exfalso
          simp only [List.getElem?_cons_succ] at hj
          exact hnotin (List.getElem?_mem hj)
      subst hj0
      rw [if_pos rfl, idxBySeedGo_not_mem x rest (i + 1) (some i) hnotin]
      simp
    · rw [if_neg hx]
      cases j with
      | zero =>
        simp only [List.getElem?_cons_zero] at hj
        exact absurd (Option.some.inj hj) hx
      | succ j2 =>
        simp only [List.getElem?_cons_succ] at hj
        rw [ih j2 (i + 1) acc (List.nodup_cons.mp hnd).2 hj]
        congr 1
        omega

/-- On a duplicate-free order list, `idxBySeed` inverts indexing. -/
theorem idxBySeed_eq (order : List Nat) (hnd : order.Nodup) (s j : Nat)
    (hj : order[j]? = some s) : idxBySeed order s = some j := by
  unfold idxBySeed
  rw [idxBySeedGo_getElem s order j 0 none hnd hj]
  simp

theorem idxBySeed_not_mem (order : List Nat) (s : Nat) (hs : s ∉ order) :
    idxBySeed order s = none :=
  idxBySeedGo_not_mem s order 0 none hs

/-- With a duplicate-free order list, the only index `idxBySeed` can return
for `s` is one holding `s`. -/
theorem idxBySeed_some (order : List Nat) (hnd : order.Nodup) (s j : Nat)
    (h : idxBySeed order s = some j) : order[j]? = some s := by
  by_cases hs : s ∈ order
  · obtain ⟨j0, hj0⟩ := List.getElem?_of_mem hs
    have h2 := idxBySeed_eq order hnd s j0 hj0
    rw [h2] at h
    cases Option.some.inj h
    exact hj0
  · rw [idxBySeed_not_mem order s hs] at h
    exact Option.noConfusion h

theorem insertTeam_perm (t : Team) :
    ∀ l : List Team, (insertTeam t l).Perm (t :: l) := by
  intro l
  induction l with
  | nil => exact List.Perm.refl _
  | cons u us ih =>
    simp only [insertTeam]
    by_cases hc : t.seed ≤ u.seed
    · rw [if_pos hc]
    · rw [if_neg hc]
      exact (ih.cons u).trans (List.Perm.swap t u us)

theorem sortBySeed_perm (ts : List Team) : (sortBySeed ts).Perm ts := by
  induction ts with
  | nil => exact List.Perm.refl _
  | cons t rest ih => exact (insertTeam_perm t (sortBySeed rest)).trans (ih.cons t)

theorem fillSlots_untouched (order : List Nat) (hnd : order.Nodup) (i s : Nat)
    (hi : order[i]? = some s) :
    ∀ (ts : List Team) (sl : List (Option Team)), (∀ t ∈ ts, t.seed ≠ s) →
      (fillSlots sl order ts)[i]? = sl[i]? := by
  intro ts
  induction ts with
  | nil => intro sl _; rfl
  | cons t rest ih =>
    intro sl hts
    have hmain : ∀ sl2 : List (Option Team),
        (fillSlots sl2 order rest)[i]? = sl2[i]? :=
      fun sl2 => ih sl2 (fun u hu => hts u (List.mem_cons_of_mem t hu))
    rcases hj : idxBySeed order t.seed with _ | j
    · have hstep : fillSlots sl order (t :: rest) = fillSlots sl order rest := by
        simp only [fillSlots, List.foldl_cons, hj]
      rw [hstep, hmain]
    · have hj2 := idxBySeed_some order hnd t.seed j hj
      have hne : j ≠ i := by
        intro h
        subst h
        rw [hj2] at hi
        exact hts t (List.mem_cons_self t rest) (Option.some.inj hi)
      have hstep : fillSlots sl order (t :: rest)
          = fillSlots (sl.set j (some t)) order rest := by
        simp only [fillSlots, List.foldl_cons, hj]
      rw [hstep, hmain, List.getElem?_set_ne hne]

theorem fillSlots_write (order : List Nat) (hnd : order.Nodup) (i s : Nat)
    (hi : order[i]? = some s) :
    ∀ (ts : List Team) (sl : List (Option Team)) (t0 : Team),
      (ts.map Team.seed).Nodup → t0 ∈ ts → t0.seed = s → i < sl.length →
      (fillSlots sl order ts)[i]? = some (some t0) := by
  intro ts
  induction ts with
  | nil => intro sl t0 _ h0; simp at h0
  | cons t rest ih =>
    intro sl t0 hnds h0 hseed hlen
    simp only [List.map_cons, List.nodup_cons] at hnds
    obtain ⟨hhead, htail⟩ := hnds
    rcases List.mem_cons.mp h0 with heq | hmem
    · subst heq
      have hji : idxBySeed order t0.seed = some i := by
        rw [hseed]; exact idxBySeed_eq order hnd s i hi
      have hrest : ∀ u ∈ rest, u.seed ≠ s := by
        intro u hu he
        apply hhead
        have h2 : Team.seed u = t0.seed := by rw [he, hseed]
        exact h2 ▸ List.mem_map_of_mem Team.seed hu
      have hstep : fillSlots sl order (t0 :: rest)
          = fillSlots (sl.set i (some t0)) order rest := by
        simp only [fillSlots, List.foldl_cons, hji]
      rw [hstep, fillSlots_untouched order hnd i s hi rest _ hrest]
      exact List.getElem?_set_eq_of_lt (some t0) hlen
    · have hne : t.seed ≠ s := by
        intro he
        apply hhead
        have h2 : Team.seed t0 = t.seed := hseed.trans he.symm
        exact h2 ▸ List.mem_map_of_mem Team.seed hmem
      rcases hj : idxBySeed order t.seed with _ | j
      · have hstep : fillSlots sl order (t :: rest) = fillSlots sl order rest := by
          simp only [fillSlots, List.foldl_cons, hj]
        rw [hstep]
        exact ih sl t0 htail hmem hseed hlen
      · have hstep : fillSlots sl order (t :: rest)
            = fillSlots (sl.set j (some t)) order rest := by
          simp only [fillSlots, List.foldl_cons, hj]
        rw [hstep]
        exact ih _ t0 htail hmem hseed (by rw [List.length_set]; exact hlen)

def c4teams : List Team :=
  [{ id := "s1", name := "One", members := ("A", "B"), seed := 1,
     division := PlayDiv.UPPER },
   { id := "s2", name := "Two", members := ("C", "D"), seed := 2,
     division := PlayDiv.UPPER },
   { id := "s3", name := "Three", members := ("E", "F"), seed := 3,
     division := PlayDiv.UPPER },
   { id := "s4", name := "Four", members := ("G", "H"), seed := 4,
     division := PlayDiv.UPPER }]

/-- C4: `espnOrder` satisfies the spec's recursive seeding fold
(`order(1) = [1]`, `order(2) = [1, 2]`, and the order for size `2n` emits
`(s, 2n + 1 - s)` for each `s` of the order for size `n`); in particular
`espnOrder 4 = [1, 4, 2, 3]` and `espnOrder 8 = [1, 8, 4, 5, 2, 7, 3, 6]`;
and round-1 slot `i` receives exactly the team whose seed is `order[i]`
(remaining empty when no team carries that seed). -/
theorem espnOrder_spec :
    (∀ k : Nat, espnOrder (2 ^ k) = seedFold k) ∧
    espnOrder 4 = [1, 4, 2, 3] ∧
    espnOrder 8 = [1, 8, 4, 5, 2, 7, 3, 6] ∧
    (∀ (k : Nat) (ts : List Team), (ts.map Team.seed).Nodup →
      ∀ i s : Nat, (espnOrder (2 ^ k))[i]? = some s →
        ∃ r : Option Team,
          (fillSlots (List.replicate (2 ^ k) none) (espnOrder (2 ^ k))
            (sortBySeed ts))[i]? = some r ∧
          ((r = none ∧ ∀ t ∈ ts, t.seed ≠ s) ∨
           (∃ t ∈ ts, t.seed = s ∧ r = some t))) := by
  refine ⟨fun k => (seedFold_spec k).1, by decide, by decide, ?_⟩
  intro k ts hnds i s hi
  have hnd : (espnOrder (2 ^ k)).Nodup := by
    rw [(seedFold_spec k).1]; exact (seedFold_spec k).2.2.2
  have hlen : (espnOrder (2 ^ k)).length = 2 ^ k := by
    rw [(seedFold_spec k).1]; exact (seedFold_spec k).2.1
  have hilt : i < 2 ^ k := by
    obtain ⟨h, -⟩ := List.getElem?_eq_some.mp hi
    rw [hlen] at h
    exact h
  by_cases hex : ∃ t ∈ ts, t.seed = s
  · obtain ⟨t0, ht0, hseed⟩ := hex
    have hperm := sortBySeed_perm ts
    have hnds2 : ((sortBySeed ts).map Team.seed).Nodup :=
      ((hperm.map Team.seed).nodup_iff).mpr hnds
    have hmem2 : t0 ∈ sortBySeed ts := hperm.mem_iff.mpr ht0
    refine ⟨some t0, ?_, Or.inr ⟨t0, ht0, hseed, rfl⟩⟩
    exact fillSlots_write (espnOrder (2 ^ k)) hnd i s hi (sortBySeed ts)
      (List.replicate (2 ^ k) none) t0 hnds2 hmem2 hseed
      (by rw [List.length_replicate]; exact hilt)
  · push_neg at hex
    refine ⟨none, ?_, Or.inl ⟨rfl, hex⟩⟩
    have hrest : ∀ t ∈ sortBySeed ts, t.seed ≠ s :=
      fun t ht => hex t ((sortBySeed_perm ts).mem_iff.mp ht)
    rw [fillSlots_untouched (espnOrder (2 ^ k)) hnd i s hi (sortBySeed ts)
      (List.replicate (2 ^ k) none) hrest]
    rw [List.getElem?_replicate]
    simp [hilt]

/-- C4 witness: size 4 with four concrete seeded teams — slot 1 holds the
seed-4 team, per `espnOrder 4 = [1, 4, 2, 3]`. -/
theorem espnOrder_spec_witness :
    (c4teams.map Team.seed).Nodup ∧
    (espnOrder (2 ^ 2))[1]? = some 4 ∧
    (∃ r : Option Team,
      (fillSlots (List.replicate (2 ^ 2) none) (espnOrder (2 ^ 2))
        (sortBySeed c4teams))[1]? = some r ∧
      ((r = none ∧ ∀ t ∈ c4teams, t.seed ≠ 4) ∨
       (∃ t ∈ c4teams, t.seed = 4 ∧ r = some t))) :=
  ⟨by decide, by decide,
   espnOrder_spec.2.2.2 2 c4teams (by decide) 1 4 (by decide)⟩

/- ========================= Decimal ids are injective ========================= -/

theorem digitChar_toNat (m : Nat) (h : m < 10) :
    (Nat.digitChar m).toNat = 48 + m := by
  interval_cases m <;> decide

theorem digitChar_isDigit (m : Nat) (h : m < 10) :
    (Nat.digitChar m).isDigit = true := by
  interval_cases m <;> decide

theorem toDigitsCore_shift : ∀ (fuel n : Nat) (ds : List Char),
    Nat.toDigitsCore 10 fuel n ds = Nat.toDigitsCore 10 fuel n [] ++ ds := by
  intro fuel
  induction fuel with
  | zero => intro n ds; rfl
  | succ fuel ih =>
    intro n ds
    simp only [Nat.toDigitsCore]
    by_cases h : n / 10 = 0
    · simp [h]
    · simp only [if_neg h]
      rw [ih (n / 10) (Nat.digitChar (n % 10) :: ds),
        ih (n / 10) [Nat.digitChar (n % 10)]]
      simp

theorem toDigitsCore_fuel : ∀ (n f1 f2 : Nat), n < f1 → n < f2 → ∀ ds,
    Nat.toDigitsCore 10 f1 n ds = Nat.toDigitsCore 10 f2 n ds := by
  intro n
  induction n using Nat.strong_induction_on with
  | _ n ih =>
    intro f1 f2 h1 h2 ds
    obtain ⟨g1, rfl⟩ : ∃ g, f1 = g + 1 := ⟨f1 - 1, by omega⟩
    obtain ⟨g2, rfl⟩ : ∃ g, f2 = g + 1 := ⟨f2 - 1, by omega⟩
    simp only [Nat.toDigitsCore]
    by_cases h : n / 10 = 0
    · simp [h]
    · simp only [if_neg h]
      exact ih (n / 10) (by omega) g1 g2 (by omega) (by omega) _

theorem toDigits_step (n : Nat) :
    Nat.toDigits 10 n = if n < 10 then [Nat.digitChar n]
      else Nat.toDigits 10 (n / 10) ++ [Nat.digitChar (n % 10)] := by
  unfold Nat.toDigits
  simp only [Nat.toDigitsCore]
  by_cases h : n / 10 = 0
  · have hlt : n < 10 := by omega
    simp [h, hlt, Nat.mod_eq_of_lt hlt]
  · have hge : ¬ n < 10 := by omega
    simp only [if_neg h, if_neg hge]
    rw [toDigitsCore_shift n (n / 10) [Nat.digitChar (n % 10)]]
    congr 1
    exact toDigitsCore_fuel (n / 10) n (n / 10 + 1) (by omega) (by omega) []

theorem digitsVal_append_singleton (l : List Char) (c : Char) :
    digitsVal (l ++ [c]) = 10 * digitsVal l + (c.toNat - 48) := by
  simp [digitsVal, List.foldl_append]

theorem toDigits_spec : ∀ n : Nat,
    Nat.toDigits 10 n ≠ [] ∧ (∀ c ∈ Nat.toDigits 10 n, c.isDigit = true) ∧
    digitsVal (Nat.toDigits 10 n) = n := by
  intro n
  induction n using Nat.strong_induction_on with
  | _ n ih =>
    rw [toDigits_step n]
    by_cases h : n < 10
    · simp only [if_pos h]
      refine ⟨by simp, ?_, ?_⟩
      · intro c hc
        simp only [List.mem_singleton] at hc
        subst hc
        exact digitChar_isDigit n h
      · simp [digitsVal, digitChar_toNat n h]
    · simp only [if_neg h]
      obtain ⟨hne, hdig, hval⟩ := ih (n / 10) (by omega)
      have hm : n % 10 < 10 := Nat.mod_lt _ (by omega)
      refine ⟨by simp, ?_, ?_⟩
      · intro c hc
        rcases List.mem_append.mp hc with hc | hc
        · exact hdig c hc
        · simp only [List.mem_singleton] at hc
          subst hc
          exact digitChar_isDigit _ hm
      · rw [digitsVal_append_singleton, hval, digitChar_toNat _ hm]
        omega

theorem natRepr_data (n : Nat) : (Nat.repr n).data = Nat.toDigits 10 n := rfl

theorem natRepr_data_inj {m n : Nat}
    (h : (Nat.repr m).data = (Nat.repr n).data) : m = n := by
  rw [natRepr_data, natRepr_data] at h
  have hm := (toDigits_spec m).2.2
  have hn := (toDigits_spec n).2.2
  rw [← hm, ← hn, h]

theorem digit_dash_cancel :
    ∀ (a b x y : List Char), (∀ c ∈ a, c.isDigit = true) →
      (∀ c ∈ b, c.isDigit = true) →
      a ++ '-' :: x = b ++ '-' :: y → a = b ∧ x = y := by
  intro a
  induction a with
  | nil =>
    intro b x y _ hb he
    cases b with
    | nil => simpa using he
    | cons c bs =>
      exfalso
      simp only [List.nil_append, List.cons_append, List.cons.injEq] at he
      have hdig := hb c (List.mem_cons_self c bs)
      rw [← he.1] at hdig
      exact absurd hdig (by decide)
  | cons c as ih =>
    intro b x y ha hb he
    cases b with
    | nil =>
      exfalso
      simp only [List.cons_append, List.nil_append, List.cons.injEq] at he
      have hdig := ha c (List.mem_cons_self c as)
      rw [he.1] at hdig
      exact absurd hdig (by decide)
    | cons d bs =>
      simp only [List.cons_append, List.cons.injEq] at he
      obtain ⟨rfl, he2⟩ := he
      obtain ⟨h1, h2⟩ := ih bs x y (fun u hu => ha u (List.mem_cons_of_mem _ hu))
        (fun u hu => hb u (List.mem_cons_of_mem _ hu)) he2
      exact ⟨by rw [h1], h2⟩

theorem mkId_inj (division : PlayDiv) (r1 s1 r2 s2 : Nat)
    (h : mkId division r1 s1 = mkId division r2 s2) : r1 = r2 ∧ s1 = s2 := by
  have hdash : ("-" : String).data = ['-'] := rfl
  have hd := congrArg String.data h
  unfold mkId at hd
  simp only [String.data_append, hdash, List.append_assoc,
    List.singleton_append] at hd
  have hcan := List.append_cancel_left (List.append_cancel_left hd)
  have hr1 := (toDigits_spec r1).2.1
  have hr2 := (toDigits_spec r2).2.1
  simp only [natRepr_data] at hcan
  obtain ⟨ha, hb⟩ := digit_dash_cancel (Nat.toDigits 10 r1) (Nat.toDigits 10 r2)
    (Nat.toDigits 10 s1) (Nat.toDigits 10 s2) hr1 hr2 hcan
  exact ⟨natRepr_data_inj (by rw [natRepr_data, natRepr_data]; exact ha),
    natRepr_data_inj hb⟩

theorem nextPow2Go_spec : ∀ (fuel p n : Nat), 1 ≤ p → n ≤ p * 2 ^ fuel →
    (p < n → ∃ j, nextPow2Go fuel p n = p * 2 ^ j ∧ n ≤ p * 2 ^ j ∧
      p * 2 ^ j < 2 * n) ∧
    (n ≤ p → nextPow2Go fuel p n = p) := by
  intro fuel
  induction fuel with
  | zero =>
    intro p n hp hle
    simp only [pow_zero, mul_one] at hle
    exact ⟨fun h => absurd h (by omega), fun _ => rfl⟩
  | succ fuel ih =>
    intro p n hp hle
    constructor
    · intro hlt
      simp only [nextPow2Go, if_pos hlt]
      have hle2 : n ≤ 2 * p * 2 ^ fuel := by
        rw [pow_succ] at hle
        calc n ≤ p * (2 ^ fuel * 2) := hle
        _ = 2 * p * 2 ^ fuel := by ring
      obtain ⟨hcase1, hcase2⟩ := ih (2 * p) n (by omega) hle2
      by_cases h2 : 2 * p < n
      · obtain ⟨j, hj, hb1, hb2⟩ := hcase1 h2
        refine ⟨j + 1, ?_, ?_, ?_⟩
        · rw [hj]; ring
        · calc n ≤ 2 * p * 2 ^ j := hb1
          _ = p * 2 ^ (j + 1) := by ring
        · calc p * 2 ^ (j + 1) = 2 * p * 2 ^ j := by ring
          _ < 2 * n := hb2
      · refine ⟨1, ?_, by omega, by omega⟩
        rw [hcase2 (by omega)]
        ring
    · intro hge
      simp only [nextPow2Go, if_neg (by omega : ¬ p < n)]

theorem nextPow2_spec (n : Nat) (h : 1 ≤ n) :
    ∃ k, nextPow2 n = 2 ^ k ∧ n ≤ 2 ^ k ∧ 2 ^ k < 2 * n := by
  unfold nextPow2
  have hfuel : n ≤ 1 * 2 ^ n := by
    simpa using (Nat.lt_two_pow n).le
  by_cases hp : 1 < n
  · obtain ⟨j, hj, hb1, hb2⟩ := (nextPow2Go_spec n 1 n (le_refl 1) hfuel).1 hp
    exact ⟨j, by simpa using hj, by simpa using hb1, by simpa using hb2⟩
  · have hn1 : n = 1 := by omega
    subst hn1
    exact ⟨0, rfl, le_refl 1, by decide⟩

theorem mkRound1_getElem (division : PlayDiv) (slots : List (Option Team))
    (j : Nat) :
    (mkRound1 division slots)[j]? =
      if j < (slots.length + 1) / 2 then
        some { id := mkId division 1 (j + 1), division := division, round := 1,
               slot := j + 1, team1 := slots.getD (2 * j) none,
               team2 := slots.getD (2 * j + 1) none,
               court := some (courtFor division 1 (j + 1)) }
      else none := by
  unfold mkRound1
  by_cases hj : j < (slots.length + 1) / 2
  · rw [if_pos hj, List.getElem?_map, List.getElem?_range hj]
    rfl
  · rw [if_neg hj, List.getElem?_map, List.getElem?_eq_none]
    · rfl
    · simpa using hj

theorem mkRound1_ids (division : PlayDiv) (slots : List (Option Team)) :
    (mkRound1 division slots).map BracketMatch.id
      = (List.range ((slots.length + 1) / 2)).map
          (fun j => mkId division 1 (j + 1)) := by
  unfold mkRound1
  rw [List.map_map]
  rfl

theorem mkId_range_map_nodup (division : PlayDiv) (r n : Nat) :
    ((List.range n).map (fun j => mkId division r (j + 1))).Nodup := by
  refine List.Nodup.map_on ?_ (List.nodup_range _)
  intro x _ y _ h
  have := (mkId_inj division r (x + 1) r (y + 1) h).2
  omega

theorem mkParents_children_ids (division : PlayDiv) (r : Nat) :
    ∀ (cur : List BracketMatch) (k : Nat),
      (mkParents division r k cur).1.map BracketMatch.id
        = cur.map BracketMatch.id
  | [], _ => rfl
  | [_], _ => rfl
  | a :: b :: rest, k => by
    simp only [mkParents, List.map_cons]
    rw [mkParents_children_ids division r rest (k + 1)]

theorem mkParents_children_mem (division : PlayDiv) (r : Nat) :
    ∀ (cur : List BracketMatch) (k : Nat), ∀ c ∈ (mkParents division r k cur).1,
      ∃ (j : Nat) (a : BracketMatch), cur[j]? = some a ∧
        c = { a with nextId := some (mkId division r (k + j / 2 + 1)),
                     nextSide := some (if j % 2 = 0 then Side.team1
                                       else Side.team2) }
  | [], k => by intro c hc; simp [mkParents] at hc
  | [a], k => by
    intro c hc
    simp only [mkParents, List.mem_singleton] at hc
    refine ⟨0, a, rfl, ?_⟩
    rw [hc]
    simp
  | a :: b :: rest, k => by
    intro c hc
    simp only [mkParents, List.mem_cons] at hc
    rcases hc with rfl | rfl | hc
    · exact ⟨0, a, rfl, by simp⟩
    · exact ⟨1, b, by simp, by simp⟩
    · obtain ⟨j, a0, hj, he⟩ :=
        mkParents_children_mem division r rest (k + 1) c hc
      refine ⟨j + 2, a0, by simpa using hj, ?_⟩
      rw [he]
      have h1 : k + 1 + j / 2 + 1 = k + (j + 2) / 2 + 1 := by omega
      have h2 : j % 2 = (j + 2) % 2 := by omega
      rw [h1, h2]

theorem mkParents_children_keep (division : PlayDiv) (r : Nat) :
    ∀ (cur : List BracketMatch) (k : Nat), ∀ c ∈ cur,
      ∃ c2 ∈ (mkParents division r k cur).1, c2.id = c.id ∧
        c2.round = c.round ∧ c2.slot = c.slot ∧ c2.team1 = c.team1 ∧
        c2.team2 = c.team2
  | [], _ => by intro c hc; simp at hc
  | [a], k => by
    intro c hc
    simp only [List.mem_singleton] at hc
    subst hc
    exact ⟨_, List.mem_singleton.mpr rfl, rfl, rfl, rfl, rfl, rfl⟩
  | a :: b :: rest, k => by
    intro c hc
    rcases List.mem_cons.mp hc with rfl | hc2
    · exact ⟨_, List.mem_cons_self _ _, rfl, rfl, rfl, rfl, rfl⟩
    · rcases List.mem_cons.mp hc2 with rfl | hc3
      · exact ⟨_, List.mem_cons_of_mem _ (List.mem_cons_self _ _),
          rfl, rfl, rfl, rfl, rfl⟩
      · obtain ⟨c2, hm, h1, h2, h3, h4, h5⟩ :=
          mkParents_children_keep division r rest (k + 1) c hc3
        exact ⟨c2, List.mem_cons_of_mem _ (List.mem_cons_of_mem _ hm),
          h1, h2, h3, h4, h5⟩

theorem mkParents_parents_mem (division : PlayDiv) (r : Nat) :
    ∀ (cur : List BracketMatch) (k : Nat), ∀ p ∈ (mkParents division r k cur).2,
      p.round = r ∧ p.team1 = none ∧ p.team2 = none ∧
        ∃ s, k + 1 ≤ s ∧ p.id = mkId division r s
  | [], k => by intro p hp; simp [mkParents] at hp
  | [a], k => by
    intro p hp
    simp only [mkParents, List.mem_singleton] at hp
    subst hp
    exact ⟨rfl, rfl, rfl, k + 1, le_refl _, rfl⟩
  | a :: b :: rest, k => by
    intro p hp
    simp only [mkParents, List.mem_cons] at hp
    rcases hp with rfl | hp
    · exact ⟨rfl, rfl, rfl, k + 1, le_refl _, rfl⟩
    · obtain ⟨h1, h2, h3, s, hs, hid⟩ :=
        mkParents_parents_mem division r rest (k + 1) p hp
      exact ⟨h1, h2, h3, s, by omega, hid⟩

theorem mkParents_parents_ids_nodup (division : PlayDiv) (r : Nat) :
    ∀ (cur : List BracketMatch) (k : Nat),
      ((mkParents division r k cur).2.map BracketMatch.id).Nodup
  | [], _ => List.nodup_nil
  | [a], k => List.nodup_singleton _
  | a :: b :: rest, k => by
    simp only [mkParents, List.map_cons, List.nodup_cons]
    refine ⟨?_, mkParents_parents_ids_nodup division r rest (k + 1)⟩
    intro hmem
    obtain ⟨p, hp, hpid⟩ := List.mem_map.mp hmem
    obtain ⟨-, -, -, s, hs, hid⟩ :=
      mkParents_parents_mem division r rest (k + 1) p hp
    rw [hid] at hpid
    have := (mkId_inj division r s r (k + 1) hpid).2
    omega

theorem mkParents_parent_exists (division : PlayDiv) (r : Nat) :
    ∀ (cur : List BracketMatch) (k i : Nat), i < (cur.length + 1) / 2 →
      ∃ p ∈ (mkParents division r k cur).2, p.id = mkId division r (k + i + 1)
  | [], k, i => by intro hi; simp at hi
  | [a], k, i => by
    intro hi
    simp only [List.length_singleton] at hi
    have hi0 : i = 0 := by omega
    subst hi0
    exact ⟨_, List.mem_singleton.mpr rfl, rfl⟩
  | a :: b :: rest, k, i => by
    intro hi
    cases i with
    | zero => exact ⟨_, List.mem_cons_self _ _, rfl⟩
    | succ i0 =>
      have hi0 : i0 < (rest.length + 1) / 2 := by
        simp only [List.length_cons] at hi
        omega
      obtain ⟨p, hp, hid⟩ :=
        mkParents_parent_exists division r rest (k + 1) i0 hi0
      refine ⟨p, List.mem_cons_of_mem _ hp, ?_⟩
      rw [hid]
      have : k + 1 + i0 + 1 = k + (i0 + 1) + 1 := by omega
      rw [this]

theorem linkRounds_struct (division : PlayDiv) :
    ∀ (fuel rd : Nat) (cur : List BracketMatch),
      (∀ m ∈ cur, m.round = rd ∧ m.team1 = none ∧ m.team2 = none ∧
        ∃ s, m.id = mkId division rd s) →
      (cur.map BracketMatch.id).Nodup →
      ((linkRounds division fuel rd cur).map BracketMatch.id).Nodup ∧
      (∀ m ∈ linkRounds division fuel rd cur, rd ≤ m.round ∧
        m.team1 = none ∧ m.team2 = none ∧
        ∃ r s, rd ≤ r ∧ m.id = mkId division r s) ∧
      (∀ c ∈ cur, ∃ m ∈ linkRounds division fuel rd cur, m.id = c.id) := by
  intro fuel
  induction fuel with
  | zero =>
    intro rd cur hcur hnd
    refine ⟨hnd, ?_, fun c hc => ⟨c, hc, rfl⟩⟩
    intro m hm
    obtain ⟨h1, h2, h3, s, hid⟩ := hcur m hm
    exact ⟨le_of_eq h1.symm, h2, h3, rd, s, le_refl rd, hid⟩
  | succ fuel ih =>
    intro rd cur hcur hnd
    by_cases hlen : cur.length ≤ 1
    · have heq : linkRounds division (fuel + 1) rd cur = cur := by
        simp only [linkRounds, if_pos hlen]
      rw [heq]
      refine ⟨hnd, ?_, fun c hc => ⟨c, hc, rfl⟩⟩
      intro m hm
      obtain ⟨h1, h2, h3, s, hid⟩ := hcur m hm
      exact ⟨le_of_eq h1.symm, h2, h3, rd, s, le_refl rd, hid⟩
    · have heq : linkRounds division (fuel + 1) rd cur =
          (mkParents division (rd + 1) 0 cur).1 ++
          linkRounds division fuel (rd + 1) (mkParents division (rd + 1) 0 cur).2 := by
        simp only [linkRounds, if_neg hlen]
      have hpar : ∀ p ∈ (mkParents division (rd + 1) 0 cur).2,
          p.round = rd + 1 ∧ p.team1 = none ∧ p.team2 = none ∧
          ∃ s, p.id = mkId division (rd + 1) s := by
        intro p hp
        obtain ⟨h1, h2, h3, s, -, hid⟩ :=
          mkParents_parents_mem division (rd + 1) cur 0 p hp
        exact ⟨h1, h2, h3, s, hid⟩
      have hpnd := mkParents_parents_ids_nodup division (rd + 1) cur 0
      obtain ⟨ihnd, ihmem, ihkeep⟩ := ih (rd + 1) _ hpar hpnd
      rw [heq]
      refine ⟨?_, ?_, ?_⟩
      · rw [List.map_append, List.nodup_append]
        refine ⟨?_, ihnd, ?_⟩
        · rw [mkParents_children_ids]; exact hnd
        · intro x hx1 hx2
          rw [mkParents_children_ids] at hx1
          obtain ⟨c, hc, hcid⟩ := List.mem_map.mp hx1
          obtain ⟨-, -, -, s, hcids⟩ := hcur c hc
          obtain ⟨m, hm, hmid⟩ := List.mem_map.mp hx2
          obtain ⟨-, -, -, r2, s2, hr2, hmids⟩ := ihmem m hm
          have hx : mkId division rd s = mkId division r2 s2 :=
            hcids.symm.trans (hcid.trans (hmid.symm.trans hmids))
          have := (mkId_inj division rd s r2 s2 hx).1
          omega
      · intro m hm
        rcases List.mem_append.mp hm with hm1 | hm2
        · obtain ⟨j, a, hj, he⟩ :=
            mkParents_children_mem division (rd + 1) cur 0 m hm1
          obtain ⟨h1, h2, h3, s, hid⟩ := hcur a (List.getElem?_mem hj)
          rw [he]
          exact ⟨le_of_eq h1.symm, h2, h3, rd, s, le_refl rd, hid⟩
        · obtain ⟨h1, h2, h3, r2, s2, hr2, hid⟩ := ihmem m hm2
          exact ⟨by omega, h2, h3, r2, s2, by omega, hid⟩
      · intro c hc
        obtain ⟨c2, hc2, hcid, -, -, -, -⟩ :=
          mkParents_children_keep division (rd + 1) cur 0 c hc
        exact ⟨c2, List.mem_append_left _ hc2, hcid⟩

/-- The single slot write a round-1 match contributes during the
auto-advance pass, if any. -/
def writeOf (byeSeed : Nat → Bool) (c : BracketMatch) :
    Option (String × Side × Team) :=
  match c.team1, c.team2, c.nextId, c.nextSide with
  | some t1, none, some p, some s =>
    if byeSeed t1.seed then some (p, s, t1) else none
  | none, some t2, some p, some s =>
    if byeSeed t2.seed then some (p, s, t2) else none
  | _, _, _, _ => none

theorem advanceByeStep_eq (byeSeed : Nat → Bool) (acc : List BracketMatch)
    (c : BracketMatch) :
    advanceByeStep byeSeed acc c =
      match writeOf byeSeed c with
      | some (p, s, t) => setSlotById acc p s t
      | none => acc := by
  simp only [advanceByeStep, advanceWinner, writeOf]
  rcases h1 : c.team1 with _ | t1 <;> rcases h2 : c.team2 with _ | t2 <;>
    rcases h3 : c.nextId with _ | p <;> rcases h4 : c.nextSide with _ | s <;>
    simp only []
  all_goals try rfl
  all_goals
    first
      | (by_cases hb : byeSeed t1.seed <;> simp [hb])
      | (by_cases hb : byeSeed t2.seed <;> simp [hb])

theorem sideSet_id (t : Team) (m : BracketMatch) (s : Side) :
    (sideSet t m s).id = m.id := by cases s <;> rfl

theorem sideSet_round (t : Team) (m : BracketMatch) (s : Side) :
    (sideSet t m s).round = m.round := by cases s <;> rfl

theorem setSlotById_ids (ms : List BracketMatch) (p : String) (s : Side)
    (t : Team) :
    (setSlotById ms p s t).map BracketMatch.id = ms.map BracketMatch.id := by
  unfold setSlotById
  rw [List.map_map]
  apply List.map_congr_left
  intro x _
  simp only [Function.comp]
  by_cases hc : x.id = p
  · rw [if_pos hc]; cases s <;> rfl
  · rw [if_neg hc]

theorem advanceFold_ids (byeSeed : Nat → Bool) :
    ∀ (cs ms : List BracketMatch),
      (List.foldl (advanceByeStep byeSeed) ms cs).map BracketMatch.id
        = ms.map BracketMatch.id := by
  intro cs
  induction cs with
  | nil => intro ms; rfl
  | cons c rest ih =>
    intro ms
    rw [List.foldl_cons, ih, advanceByeStep_eq]
    rcases hw : writeOf byeSeed c with _ | ⟨p, s, t⟩
    · rfl
    · exact setSlotById_ids ms p s t

theorem advanceFold_keep (byeSeed : Nat → Bool) :
    ∀ (cs ms : List BracketMatch) (y : BracketMatch), y ∈ ms →
      (∀ c ∈ cs, ∀ p s t, writeOf byeSeed c = some (p, s, t) → p ≠ y.id) →
      y ∈ List.foldl (advanceByeStep byeSeed) ms cs := by
  intro cs
  induction cs with
  | nil => intro ms y hy _; exact hy
  | cons c rest ih =>
    intro ms y hy hno
    rw [List.foldl_cons]
    refine ih _ y ?_ (fun c2 hc2 => hno c2 (List.mem_cons_of_mem _ hc2))
    rw [advanceByeStep_eq]
    rcases hw : writeOf byeSeed c with _ | ⟨p, s, t⟩
    · exact hy
    · exact setSlotById_mem_self hy
        (fun h => hno c (List.mem_cons_self c rest) p s t hw h.symm)

theorem advanceFold_round (byeSeed : Nat → Bool) :
    ∀ (cs ms : List BracketMatch),
      ∀ x ∈ List.foldl (advanceByeStep byeSeed) ms cs,
        ∃ y ∈ ms, x.id = y.id ∧ x.round = y.round := by
  intro cs
  induction cs with
  | nil => intro ms x hx; exact ⟨x, hx, rfl, rfl⟩
  | cons c rest ih =>
    intro ms x hx
    rw [List.foldl_cons] at hx
    obtain ⟨y1, hy1, hid, hrd⟩ := ih _ x hx
    rw [advanceByeStep_eq] at hy1
    rcases hw : writeOf byeSeed c with _ | ⟨p, s, t⟩ <;> rw [hw] at hy1
    · exact ⟨y1, hy1, hid, hrd⟩
    · obtain ⟨y0, hy0, hid0, hne, heq⟩ := setSlotById_mem2 ms p s t y1 hy1
      by_cases hc : y0.id = p
      · have he2 := heq hc
        exact ⟨y0, hy0, by rw [hid, he2, sideSet_id],
          by rw [hrd, he2, sideSet_round]⟩
      · have he2 := hne hc
        exact ⟨y0, hy0, by rw [hid, he2], by rw [hrd, he2]⟩

theorem advanceFold_pres (byeSeed : Nat → Bool) :
    ∀ (cs ms : List BracketMatch) (pid : String) (side : Side)
      (V : Option Team),
      (∀ c ∈ cs, ∀ t, writeOf byeSeed c ≠ some (pid, side, t)) →
      (∀ x ∈ ms, x.id = pid → sideGet x side = V) →
      ∀ x ∈ List.foldl (advanceByeStep byeSeed) ms cs, x.id = pid →
        sideGet x side = V := by
  intro cs
  induction cs with
  | nil => intro ms pid side V _ hinv x hx; exact hinv x hx
  | cons c rest ih =>
    intro ms pid side V hno hinv
    rw [List.foldl_cons]
    refine ih (advanceByeStep byeSeed ms c) pid side V
      (fun c2 hc2 => hno c2 (List.mem_cons_of_mem _ hc2)) ?_
    intro x hx hxid
    rw [advanceByeStep_eq] at hx
    rcases hw : writeOf byeSeed c with _ | ⟨p, s, t⟩ <;> rw [hw] at hx
    · exact hinv x hx hxid
    · obtain ⟨y0, hy0, hid0, hne, heq⟩ := setSlotById_mem2 ms p s t x hx
      by_cases hc : y0.id = p
      · have he2 := heq hc
        by_cases hs : s = side
        · exfalso
          subst hs
          apply hno c (List.mem_cons_self c rest) t
          rw [hw]
          have hpp : p = pid := by rw [← hc, ← hid0, hxid]
          rw [hpp]
        · have hgx : sideGet x side = sideGet y0 side := by
            rw [he2]
            exact sideGet_sideSet_other t y0 s side (fun h => hs h.symm)
          rw [hgx]
          exact hinv y0 hy0 (by rw [← hid0, hxid])
      · have he2 := hne hc
        rw [he2] at hxid ⊢
        exact hinv y0 hy0 hxid

theorem advanceFold_write (byeSeed : Nat → Bool) :
    ∀ (cs ms : List BracketMatch) (c0 : BracketMatch) (pid : String)
      (side : Side) (t : Team),
      c0 ∈ cs → writeOf byeSeed c0 = some (pid, side, t) →
      (∀ c ∈ cs, ∀ t2, writeOf byeSeed c = some (pid, side, t2) → t2 = t) →
      ∀ x ∈ List.foldl (advanceByeStep byeSeed) ms cs, x.id = pid →
        sideGet x side = some t := by
  intro cs
  induction cs with
  | nil => intro ms c0 pid side t hc0; simp at hc0
  | cons c rest ih =>
    intro ms c0 pid side t hc0 hw0 huniq
    rw [List.foldl_cons]
    by_cases hrest : ∃ c2 ∈ rest, ∃ t2, writeOf byeSeed c2 = some (pid, side, t2)
    · obtain ⟨c2, hc2, t2, hw2⟩ := hrest
      have ht2 : t2 = t := huniq c2 (List.mem_cons_of_mem _ hc2) t2 hw2
      subst ht2
      exact ih (advanceByeStep byeSeed ms c) c2 pid side t2 hc2 hw2
        (fun c3 hc3 t3 hw3 => huniq c3 (List.mem_cons_of_mem _ hc3) t3 hw3)
    · push_neg at hrest
      have hcc : writeOf byeSeed c = some (pid, side, t) := by
        rcases List.mem_cons.mp hc0 with rfl | hin
        · exact hw0
        · exact absurd hw0 (hrest c0 hin t)
      have hstep : advanceByeStep byeSeed ms c = setSlotById ms pid side t := by
        rw [advanceByeStep_eq, hcc]
      rw [hstep]
      refine advanceFold_pres byeSeed rest (setSlotById ms pid side t) pid side
        (some t) hrest ?_
      intro x hx hxid
      obtain ⟨y0, hy0, hid0, hne, heq⟩ := setSlotById_mem2 ms pid side t x hx
      have hy0id : y0.id = pid := by rw [← hid0]; exact hxid
      rw [heq hy0id]
      exact sideGet_sideSet_self t y0 side

theorem markByes_keep_of_round (ms : List BracketMatch) (y : BracketMatch)
    (hy : y ∈ ms) (hr : y.round ≠ 1) : y ∈ markByes ms := by
  unfold markByes
  refine List.mem_map.mpr ⟨y, hy, ?_⟩
  rw [if_neg]
  intro h
  exact hr h.1

theorem markByes_keep_full (ms : List BracketMatch) (y : BracketMatch)
    (hy : y ∈ ms) (t1 t2 : Team) (h1 : y.team1 = some t1)
    (h2 : y.team2 = some t2) : y ∈ markByes ms := by
  unfold markByes
  refine List.mem_map.mpr ⟨y, hy, ?_⟩
  rw [if_neg]
  rintro ⟨-, h⟩
  rcases h with ⟨-, hb⟩ | ⟨ha, -⟩
  · rw [h2] at hb; exact Option.noConfusion hb
  · rw [h1] at ha; exact Option.noConfusion ha

theorem markByes_mem (ms : List BracketMatch) :
    ∀ x ∈ markByes ms, ∃ y ∈ ms,
      x = if y.round = 1 ∧ ((y.team1.isSome ∧ y.team2 = none) ∨
            (y.team1 = none ∧ y.team2.isSome))
          then { y with score := some "BYE", team1 := none, team2 := none }
          else y := by
  intro x hx
  obtain ⟨y, hy, he⟩ := List.mem_map.mp hx
  exact ⟨y, hy, he.symm⟩

theorem markByes_image (ms : List BracketMatch) (y : BracketMatch)
    (hy : y ∈ ms) :
    (if y.round = 1 ∧ ((y.team1.isSome ∧ y.team2 = none) ∨
        (y.team1 = none ∧ y.team2.isSome))
     then { y with score := some "BYE", team1 := none, team2 := none }
     else y) ∈ markByes ms :=
  List.mem_map_of_mem _ hy

theorem fillSlots_length (order : List Nat) :
    ∀ (ts : List Team) (sl : List (Option Team)),
      (fillSlots sl order ts).length = sl.length := by
  intro ts
  induction ts with
  | nil => intro sl; rfl
  | cons t rest ih =>
    intro sl
    rcases hj : idxBySeed order t.seed with _ | j
    · have hstep : fillSlots sl order (t :: rest) = fillSlots sl order rest := by
        simp only [fillSlots, List.foldl_cons, hj]
      rw [hstep, ih]
    · have hstep : fillSlots sl order (t :: rest)
          = fillSlots (sl.set j (some t)) order rest := by
        simp only [fillSlots, List.foldl_cons, hj]
      rw [hstep, ih, List.length_set]

theorem mkRound1_length (division : PlayDiv) (slots : List (Option Team)) :
    (mkRound1 division slots).length = (slots.length + 1) / 2 := by
  unfold mkRound1
  rw [List.length_map, List.length_range]

theorem mkRound1_mem (division : PlayDiv) (slots : List (Option Team)) :
    ∀ m ∈ mkRound1 division slots, m.round = 1 ∧ m.nextId = none ∧
      ∃ j, m.id = mkId division 1 (j + 1) := by
  intro m hm
  unfold mkRound1 at hm
  obtain ⟨j, hj, he⟩ := List.mem_map.mp hm
  rw [← he]
  exact ⟨rfl, rfl, j, rfl⟩

theorem getD_of_getElem2 {α : Type} {l : List α} {i : Nat} {a : α} (d : α)
    (h : l[i]? = some a) : l.getD i d = a := by
  unfold List.getD
  rw [List.get?_eq_getElem?, h]
  rfl

theorem writeOf_none_of_nextId (byeSeed : Nat → Bool) (c : BracketMatch)
    (h : c.nextId = none) : writeOf byeSeed c = none := by
  unfold writeOf
  rcases h1 : c.team1 with _ | u1 <;> rcases h2 : c.team2 with _ | u2 <;>
    rcases h4 : c.nextSide with _ | s4 <;> simp [h, h1, h2, h4]

theorem writeOf_some (byeSeed : Nat → Bool) (c : BracketMatch) (p : String)
    (s : Side) (t : Team) (h : writeOf byeSeed c = some (p, s, t)) :
    c.nextId = some p ∧ c.nextSide = some s ∧ byeSeed t.seed = true ∧
    ((c.team1 = some t ∧ c.team2 = none) ∨
     (c.team1 = none ∧ c.team2 = some t)) := by
  unfold writeOf at h
  rcases h1 : c.team1 with _ | t1 <;> rw [h1] at h <;>
    rcases h2 : c.team2 with _ | t2 <;> rw [h2] at h <;>
    rcases h3 : c.nextId with _ | p0 <;> rw [h3] at h <;>
    rcases h4 : c.nextSide with _ | s0 <;> rw [h4] at h <;>
    simp only [] at h
  all_goals try exact Option.noConfusion h
  · by_cases hb : byeSeed t2.seed
    · rw [if_pos hb] at h
      have h5 := Option.some.inj h
      obtain ⟨hp, hs, ht⟩ : p0 = p ∧ s0 = s ∧ t2 = t := by
        simpa [Prod.ext_iff] using h5
      subst hp; subst hs; subst ht
      exact ⟨rfl, rfl, hb, Or.inr ⟨rfl, rfl⟩⟩
    · rw [if_neg hb] at h
      exact Option.noConfusion h
  · by_cases hb : byeSeed t1.seed
    · rw [if_pos hb] at h
      have h5 := Option.some.inj h
      obtain ⟨hp, hs, ht⟩ : p0 = p ∧ s0 = s ∧ t1 = t := by
        simpa [Prod.ext_iff] using h5
      subst hp; subst hs; subst ht
      exact ⟨rfl, rfl, hb, Or.inl ⟨rfl, rfl⟩⟩
    · rw [if_neg hb] at h
      exact Option.noConfusion h

theorem bind_pair_getElem (f : Nat → Nat) :
    ∀ (l : List Nat) (i : Nat),
      (l.bind (fun v => [v, f v]))[2 * i]? = l[i]? ∧
      (l.bind (fun v => [v, f v]))[2 * i + 1]? = (l[i]?).map f := by
  intro l
  induction l with
  | nil => intro i; simp
  | cons a rest ih =>
    intro i
    cases i with
    | zero => simp [List.cons_bind]
    | succ i0 =>
      have h1 : 2 * (i0 + 1) = 2 * i0 + 1 + 1 := by omega
      have h2 : 2 * (i0 + 1) + 1 = (2 * i0 + 1) + 1 + 1 := by omega
      constructor
      · rw [h1]
        simp only [List.cons_bind, List.cons_append, List.nil_append,
          List.getElem?_cons_succ]
        exact (ih i0).1
      · rw [h2]
        simp only [List.cons_bind, List.cons_append, List.nil_append,
          List.getElem?_cons_succ]
        exact (ih i0).2

theorem mkParents_children_getElem (division : PlayDiv) (r : Nat) :
    ∀ (cur : List BracketMatch) (k j : Nat),
      ((mkParents division r k cur).1)[j]? = (cur[j]?).map (fun a =>
        { a with nextId := some (mkId division r (k + j / 2 + 1)),
                 nextSide := some (if j % 2 = 0 then Side.team1
                                   else Side.team2) })
  | [], k, j => by simp [mkParents]
  | [a], k, j => by
    match j with
    | 0 => simp [mkParents]
    | j0 + 1 => simp [mkParents]
  | a :: b :: rest, k, j => by
    match j with
    | 0 => simp [mkParents]
    | 1 => simp [mkParents]
    | j3 + 2 =>
      simp only [mkParents, List.getElem?_cons_succ]
      rw [mkParents_children_getElem division r rest (k + 1) j3]
      have h1 : k + 1 + j3 / 2 + 1 = k + (j3 + 2) / 2 + 1 := by omega
      have h2 : j3 % 2 = (j3 + 2) % 2 := by omega
      rw [h1, h2]

/-- The pointer fields `mkParents` stamps onto the child at position `j`. -/
def childPtr (division : PlayDiv) (r k j : Nat) (a : BracketMatch) :
    BracketMatch :=
  { a with
    nextId := some (mkId division r (k + j / 2 + 1)),
    nextSide := some (if j % 2 = 0 then Side.team1 else Side.team2) }

theorem children_getElem2 (division : PlayDiv) (r : Nat)
    (cur : List BracketMatch) (k j : Nat) :
    ((mkParents division r k cur).1)[j]? =
      (cur[j]?).map (childPtr division r k j) := by
  rw [mkParents_children_getElem]
  rfl

theorem childPtr_team1 (division : PlayDiv) (r k j : Nat) (a : BracketMatch) :
    (childPtr division r k j a).team1 = a.team1 := rfl

theorem childPtr_team2 (division : PlayDiv) (r k j : Nat) (a : BracketMatch) :
    (childPtr division r k j a).team2 = a.team2 := rfl

theorem childPtr_round (division : PlayDiv) (r k j : Nat) (a : BracketMatch) :
    (childPtr division r k j a).round = a.round := rfl

theorem childPtr_id (division : PlayDiv) (r k j : Nat) (a : BracketMatch) :
    (childPtr division r k j a).id = a.id := rfl

theorem childPtr_nextId (division : PlayDiv) (r k j : Nat) (a : BracketMatch) :
    (childPtr division r k j a).nextId
      = some (mkId division r (k + j / 2 + 1)) := rfl

theorem childPtr_nextSide (division : PlayDiv) (r k j : Nat)
    (a : BracketMatch) :
    (childPtr division r k j a).nextSide
      = some (if j % 2 = 0 then Side.team1 else Side.team2) := rfl

theorem bracket_advance_core (division : PlayDiv) (slots : List (Option Team))
    (byeSeed : Nat → Bool) (fuel : Nat) (hfuel : 1 ≤ fuel) (j2 : Nat)
    (a2 : BracketMatch) (t : Team)
    (hj2 : (mkRound1 division slots)[j2]? = some a2)
    (hconf : (a2.team1 = some t ∧ a2.team2 = none) ∨
             (a2.team1 = none ∧ a2.team2 = some t))
    (hbye : byeSeed t.seed = true)
    (hlen2 : ¬ (mkRound1 division slots).length ≤ 1) :
    ∃ x ∈ markByes (advanceByes byeSeed
        (linkRounds division fuel 1 (mkRound1 division slots))),
      x.id = mkId division 2 (0 + j2 / 2 + 1) ∧ 2 ≤ x.round ∧
      sideGet x (if j2 % 2 = 0 then Side.team1 else Side.team2) = some t := by
  obtain ⟨g, rfl⟩ : ∃ g, fuel = g + 1 := ⟨fuel - 1, by omega⟩
  have hunfold : linkRounds division (g + 1) 1 (mkRound1 division slots)
      = (mkParents division 2 0 (mkRound1 division slots)).1 ++
        linkRounds division g 2
          (mkParents division 2 0 (mkRound1 division slots)).2 := by
    simp only [linkRounds, if_neg hlen2]
  have hparhyp : ∀ p ∈ (mkParents division 2 0 (mkRound1 division slots)).2,
      p.round = 2 ∧ p.team1 = none ∧ p.team2 = none ∧
      ∃ s, p.id = mkId division 2 s := by
    intro p hp
    obtain ⟨u1, u2, u3, s, -, hid⟩ :=
      mkParents_parents_mem division 2 (mkRound1 division slots) 0 p hp
    exact ⟨u1, u2, u3, s, hid⟩
  obtain ⟨-, hdmem, hdkeep⟩ := linkRounds_struct division g 2
    (mkParents division 2 0 (mkRound1 division slots)).2 hparhyp
    (mkParents_parents_ids_nodup division 2 (mkRound1 division slots) 0)
  have hchild : ((mkParents division 2 0 (mkRound1 division slots)).1)[j2]?
      = some (childPtr division 2 0 j2 a2) := by
    rw [children_getElem2, hj2]
    rfl
  have hw2 : writeOf byeSeed (childPtr division 2 0 j2 a2)
      = some (mkId division 2 (0 + j2 / 2 + 1),
          (if j2 % 2 = 0 then Side.team1 else Side.team2), t) := by
    rcases hconf with ⟨hx1, hx2⟩ | ⟨hx1, hx2⟩ <;>
      simp [writeOf, childPtr, hx1, hx2, hbye]
  have hcs_sub : ∀ c ∈ (linkRounds division (g + 1) 1
      (mkRound1 division slots)).filter (fun x => x.round = 1),
      c ∈ (mkParents division 2 0 (mkRound1 division slots)).1 := by
    intro c hc
    obtain ⟨hcl, hcr⟩ := List.mem_filter.mp hc
    rw [hunfold] at hcl
    rcases List.mem_append.mp hcl with h | h
    · exact h
    · exfalso
      obtain ⟨hge2, -, -, -⟩ := hdmem c h
      have hr1 : c.round = 1 := by simpa using hcr
      omega
  have hc2linked : childPtr division 2 0 j2 a2
      ∈ linkRounds division (g + 1) 1 (mkRound1 division slots) := by
    rw [hunfold]
    exact List.mem_append_left _ (List.getElem?_mem hchild)
  have ha2r1 := mkRound1_mem division slots a2 (List.getElem?_mem hj2)
  have hc2cs : childPtr division 2 0 j2 a2
      ∈ (linkRounds division (g + 1) 1
        (mkRound1 division slots)).filter (fun x => x.round = 1) := by
    refine List.mem_filter.mpr ⟨hc2linked, ?_⟩
    rw [childPtr_round]
    simpa using ha2r1.1
  have huniq : ∀ c ∈ (linkRounds division (g + 1) 1
      (mkRound1 division slots)).filter (fun x => x.round = 1), ∀ t3,
      writeOf byeSeed c = some (mkId division 2 (0 + j2 / 2 + 1),
        (if j2 % 2 = 0 then Side.team1 else Side.team2), t3) → t3 = t := by
    intro c hc t3 hw3
    obtain ⟨j3, hj3⟩ := List.getElem?_of_mem (hcs_sub c hc)
    rw [children_getElem2] at hj3
    rcases hr3 : (mkRound1 division slots)[j3]? with _ | a3
    · rw [hr3] at hj3; exact Option.noConfusion hj3
    rw [hr3] at hj3
    have he3 : childPtr division 2 0 j3 a3 = c := Option.some.inj hj3
    obtain ⟨hni3, hns3, -, hcfg3⟩ := writeOf_some byeSeed c _ _ t3 hw3
    rw [← he3, childPtr_nextId] at hni3
    rw [← he3, childPtr_nextSide] at hns3
    have hpid3 := Option.some.inj hni3
    have hside3 := Option.some.inj hns3
    have hdiv : j3 / 2 = j2 / 2 := by
      have := (mkId_inj division 2 (0 + j3 / 2 + 1) 2 (0 + j2 / 2 + 1)
        hpid3).2
      omega
    have hmod : j3 % 2 = j2 % 2 := by
      by_cases e3 : j3 % 2 = 0 <;> by_cases e2 : j2 % 2 = 0
      · omega
      · exfalso; rw [if_pos e3, if_neg e2] at hside3
        exact Side.noConfusion hside3
      · exfalso; rw [if_neg e3, if_pos e2] at hside3
        exact Side.noConfusion hside3
      · omega
    have hj32 : j3 = j2 := by omega
    subst hj32
    rw [hj2] at hr3
    have ha32 : a2 = a3 := Option.some.inj hr3
    have hct1 : c.team1 = a2.team1 := by
      rw [← he3, childPtr_team1, ← ha32]
    have hct2 : c.team2 = a2.team2 := by
      rw [← he3, childPtr_team2, ← ha32]
    rcases hconf with ⟨hx1, hx2⟩ | ⟨hx1, hx2⟩ <;>
      rcases hcfg3 with ⟨hy1, hy2⟩ | ⟨hy1, hy2⟩
    · rw [hct1, hx1] at hy1; exact (Option.some.inj hy1).symm
    · rw [hct1, hx1] at hy1; exact absurd hy1 (by simp)
    · rw [hct2, hx2] at hy2; exact absurd hy2 (by simp)
    · rw [hct2, hx2] at hy2; exact (Option.some.inj hy2).symm
  have hj2len : j2 < (mkRound1 division slots).length :=
    (List.getElem?_eq_some.mp hj2).1
  obtain ⟨p, hp, hpid_eq⟩ := mkParents_parent_exists division 2
    (mkRound1 division slots) 0 (j2 / 2) (by omega)
  obtain ⟨mdeep, hmdeep, hmid⟩ := hdkeep p hp
  have hpid_mem : mkId division 2 (0 + j2 / 2 + 1)
      ∈ (linkRounds division (g + 1) 1
        (mkRound1 division slots)).map BracketMatch.id := by
    rw [hunfold, List.map_append]
    refine List.mem_append_right _ ?_
    exact List.mem_map.mpr ⟨mdeep, hmdeep, by rw [hmid, hpid_eq]⟩
  have hadv : advanceByes byeSeed (linkRounds division (g + 1) 1
        (mkRound1 division slots))
      = List.foldl (advanceByeStep byeSeed)
        (linkRounds division (g + 1) 1 (mkRound1 division slots))
        ((linkRounds division (g + 1) 1
          (mkRound1 division slots)).filter (fun x => x.round = 1)) := rfl
  have hidsadv := advanceFold_ids byeSeed
    ((linkRounds division (g + 1) 1
      (mkRound1 division slots)).filter (fun x => x.round = 1))
    (linkRounds division (g + 1) 1 (mkRound1 division slots))
  obtain ⟨x, hxadv, hxid⟩ : ∃ x ∈ advanceByes byeSeed
      (linkRounds division (g + 1) 1 (mkRound1 division slots)),
      x.id = mkId division 2 (0 + j2 / 2 + 1) := by
    have hmem2 : mkId division 2 (0 + j2 / 2 + 1)
        ∈ (advanceByes byeSeed (linkRounds division (g + 1) 1
          (mkRound1 division slots))).map BracketMatch.id := by
      rw [hadv, hidsadv]
      exact hpid_mem
    obtain ⟨x, hx, hxid⟩ := List.mem_map.mp hmem2
    exact ⟨x, hx, hxid⟩
  have hxround : 2 ≤ x.round := by
    have hfold : x ∈ List.foldl (advanceByeStep byeSeed)
        (linkRounds division (g + 1) 1 (mkRound1 division slots))
        ((linkRounds division (g + 1) 1
          (mkRound1 division slots)).filter (fun x => x.round = 1)) := by
      rw [← hadv]; exact hxadv
    obtain ⟨y, hy, hyid, hyrd⟩ := advanceFold_round byeSeed _ _ x hfold
    rw [hunfold] at hy
    rcases List.mem_append.mp hy with hy1 | hy2
    · exfalso
      obtain ⟨j4, hj4⟩ := List.getElem?_of_mem hy1
      rw [children_getElem2] at hj4
      rcases hr4 : (mkRound1 division slots)[j4]? with _ | a4
      · rw [hr4] at hj4; exact Option.noConfusion hj4
      rw [hr4] at hj4
      have he4 : childPtr division 2 0 j4 a4 = y := Option.some.inj hj4
      obtain ⟨-, -, j5, ha4id⟩ :=
        mkRound1_mem division slots a4 (List.getElem?_mem hr4)
      have hyid2 : y.id = mkId division 1 (j5 + 1) := by
        rw [← he4, childPtr_id, ha4id]
      have heq12 : mkId division 2 (0 + j2 / 2 + 1)
          = mkId division 1 (j5 + 1) := by
        rw [← hxid, hyid, hyid2]
      have := (mkId_inj division 2 (0 + j2 / 2 + 1) 1 (j5 + 1) heq12).1
      omega
    · obtain ⟨hge, -, -, -⟩ := hdmem y hy2
      rw [hyrd]
      omega
  have hwrite : sideGet x (if j2 % 2 = 0 then Side.team1 else Side.team2)
      = some t := by
    have hfold : x ∈ List.foldl (advanceByeStep byeSeed)
        (linkRounds division (g + 1) 1 (mkRound1 division slots))
        ((linkRounds division (g + 1) 1
          (mkRound1 division slots)).filter (fun x => x.round = 1)) := by
      rw [← hadv]; exact hxadv
    exact advanceFold_write byeSeed _ _ _ _ _ t hc2cs hw2 huniq x hfold hxid
  exact ⟨x, markByes_keep_of_round _ x hxadv (by omega), hxid, hxround,
    hwrite⟩

theorem bracket_keep_core (division : PlayDiv) (slots : List (Option Team))
    (byeSeed : Nat → Bool) (fuel : Nat) (hfuel : 1 ≤ fuel) (j2 : Nat)
    (a2 : BracketMatch) (t1 t2 : Team)
    (hj2 : (mkRound1 division slots)[j2]? = some a2)
    (ht1 : a2.team1 = some t1) (ht2 : a2.team2 = some t2) :
    ∃ x ∈ markByes (advanceByes byeSeed
        (linkRounds division fuel 1 (mkRound1 division slots))),
      x.team1 = some t1 ∧ x.team2 = some t2 := by
  obtain ⟨g, rfl⟩ : ∃ g, fuel = g + 1 := ⟨fuel - 1, by omega⟩
  by_cases hlen : (mkRound1 division slots).length ≤ 1
  · have hlk : linkRounds division (g + 1) 1 (mkRound1 division slots)
        = mkRound1 division slots := by
      simp only [linkRounds, if_pos hlen]
    rw [hlk]
    have hkeep : a2 ∈ advanceByes byeSeed (mkRound1 division slots) := by
      refine advanceFold_keep byeSeed _ _ a2 (List.getElem?_mem hj2) ?_
      intro c hc p s t hw
      obtain ⟨-, hni, -⟩ :=
        mkRound1_mem division slots c (List.mem_of_mem_filter hc)
      rw [writeOf_none_of_nextId byeSeed c hni] at hw
      exact Option.noConfusion hw
    exact ⟨a2, markByes_keep_full _ a2 hkeep t1 t2 ht1 ht2, ht1, ht2⟩
  · have hunfold : linkRounds division (g + 1) 1 (mkRound1 division slots)
        = (mkParents division 2 0 (mkRound1 division slots)).1 ++
          linkRounds division g 2
            (mkParents division 2 0 (mkRound1 division slots)).2 := by
      simp only [linkRounds, if_neg hlen]
    have hparhyp : ∀ p ∈ (mkParents division 2 0 (mkRound1 division slots)).2,
        p.round = 2 ∧ p.team1 = none ∧ p.team2 = none ∧
        ∃ s, p.id = mkId division 2 s := by
      intro p hp
      obtain ⟨u1, u2, u3, s, -, hid⟩ :=
        mkParents_parents_mem division 2 (mkRound1 division slots) 0 p hp
      exact ⟨u1, u2, u3, s, hid⟩
    obtain ⟨-, hdmem, -⟩ := linkRounds_struct division g 2
      (mkParents division 2 0 (mkRound1 division slots)).2 hparhyp
      (mkParents_parents_ids_nodup division 2 (mkRound1 division slots) 0)
    have hchild : ((mkParents division 2 0 (mkRound1 division slots)).1)[j2]?
        = some (childPtr division 2 0 j2 a2) := by
      rw [children_getElem2, hj2]
      rfl
    have hc2linked : childPtr division 2 0 j2 a2
        ∈ linkRounds division (g + 1) 1 (mkRound1 division slots) := by
      rw [hunfold]
      exact List.mem_append_left _ (List.getElem?_mem hchild)
    obtain ⟨-, -, j5, ha2id⟩ :=
      mkRound1_mem division slots a2 (List.getElem?_mem hj2)
    have hkeep : childPtr division 2 0 j2 a2 ∈ advanceByes byeSeed
        (linkRounds division (g + 1) 1 (mkRound1 division slots)) := by
      refine advanceFold_keep byeSeed _ _ _ hc2linked ?_
      intro c hc p s t hw
      have hcl := List.mem_of_mem_filter hc
      have hcr : c.round = 1 := by
        simpa using (List.mem_filter.mp hc).2
      rw [hunfold] at hcl
      rcases List.mem_append.mp hcl with hy1 | hy2
      · obtain ⟨j4, hj4⟩ := List.getElem?_of_mem hy1
        rw [children_getElem2] at hj4
        rcases hr4 : (mkRound1 division slots)[j4]? with _ | a4
        · rw [hr4] at hj4; exact Option.noConfusion hj4
        rw [hr4] at hj4
        have he4 : childPtr division 2 0 j4 a4 = c := Option.some.inj hj4
        obtain ⟨hni, -, -⟩ := writeOf_some byeSeed c p s t hw
        rw [← he4, childPtr_nextId] at hni
        have hpe : mkId division 2 (0 + j4 / 2 + 1) = p :=
          Option.some.inj hni
        intro hcontra
        rw [← hpe] at hcontra
        rw [childPtr_id, ha2id] at hcontra
        have := (mkId_inj division 2 (0 + j4 / 2 + 1) 1 (j5 + 1) hcontra).1
        omega
      · exfalso
        obtain ⟨hge, -, -, -⟩ := hdmem c hy2
        omega
    refine ⟨childPtr division 2 0 j2 a2, ?_, ?_, ?_⟩
    · refine markByes_keep_full _ _ hkeep t1 t2 ?_ ?_
      · rw [childPtr_team1]; exact ht1
      · rw [childPtr_team2]; exact ht2
    · rw [childPtr_team1]; exact ht1
    · rw [childPtr_team2]; exact ht2

theorem buildBracket_unfold (division : PlayDiv) (ts : List Team) (r : Int)
    (hN0 : ¬ ts.length = 0) :
    buildBracket division ts r =
      markByes (advanceByes
        (isByeSeed (wantByesOf (nextPow2 ts.length) ts.length r))
        (linkRounds division (nextPow2 ts.length) 1 (mkRound1 division
          (fillSlots (List.replicate (nextPow2 ts.length) none)
            (espnOrder (nextPow2 ts.length)) (sortBySeed ts))))) := by
  simp only [buildBracket]
  rw [if_neg hN0]

/-- C10 (amended): with at least two teams carrying the distinct seeds
`1..N` and a seed gap `nextPow2 N - N` of at most five, every input team
appears as `team1` or `team2` of some match of the built bracket (for any
requested bye count). -/
theorem buildBracket_no_team_lost (division : PlayDiv) (ts : List Team)
    (r : Int) (hN2 : 2 ≤ ts.length)
    (hgap : nextPow2 ts.length - ts.length ≤ 5)
    (hseeds : (ts.map Team.seed).Perm (List.range' 1 ts.length)) :
    ∀ t ∈ ts, ∃ m ∈ buildBracket division ts r,
      m.team1 = some t ∨ m.team2 = some t := by
  intro t ht
  obtain ⟨k, hk, hNle, hup⟩ := nextPow2_spec ts.length (by omega)
  have hk1 : 1 ≤ k := by
    by_contra hx
    have hk0 : k = 0 := by omega
    rw [hk0, pow_zero] at hNle
    omega
  obtain ⟨k0, rfl⟩ : ∃ k0, k = k0 + 1 := ⟨k - 1, by omega⟩
  have hN0 : ¬ ts.length = 0 := by omega
  have hpow : (2 : Nat) ^ (k0 + 1) = 2 * 2 ^ k0 := by rw [pow_succ]; ring
  have hpow0 : (1 : Nat) ≤ 2 ^ k0 := Nat.one_le_two_pow
  have hk0N : 2 ^ k0 < ts.length := by omega
  have hndr : (List.range' 1 ts.length).Nodup :=
    List.nodup_range' 1 ts.length 1 (by omega)
  have hnds : (ts.map Team.seed).Nodup := hseeds.nodup_iff.mpr hndr
  have htsr : t.seed ∈ List.range' 1 ts.length :=
    hseeds.mem_iff.mp (List.mem_map_of_mem Team.seed ht)
  have hsb := List.mem_range'_1.mp htsr
  have hbb := buildBracket_unfold division ts r hN0
  have hofacts := seedFold_spec (k0 + 1)
  have horder : espnOrder (nextPow2 ts.length) = seedFold (k0 + 1) := by
    rw [hk]; exact hofacts.1
  have hlen_ord : (espnOrder (nextPow2 ts.length)).length = 2 ^ (k0 + 1) := by
    rw [horder]; exact hofacts.2.1
  have hnd_ord : (espnOrder (nextPow2 ts.length)).Nodup := by
    rw [horder]; exact hofacts.2.2.2
  have hsmem : t.seed ∈ espnOrder (nextPow2 ts.length) := by
    rw [horder]
    exact (hofacts.2.2.1 t.seed).mpr ⟨by omega, by omega⟩
  obtain ⟨j, hj⟩ := List.getElem?_of_mem hsmem
  have hjlt : j < 2 ^ (k0 + 1) := by
    have hl := (List.getElem?_eq_some.mp hj).1
    rwa [hlen_ord] at hl
  have hslen : (fillSlots (List.replicate (nextPow2 ts.length) none)
      (espnOrder (nextPow2 ts.length)) (sortBySeed ts)).length
      = 2 ^ (k0 + 1) := by
    rw [fillSlots_length, List.length_replicate, hk]
  have hsortnd : ((sortBySeed ts).map Team.seed).Nodup :=
    ((sortBySeed_perm ts).map Team.seed).nodup_iff.mpr hnds
  have hslotj : (fillSlots (List.replicate (nextPow2 ts.length) none)
      (espnOrder (nextPow2 ts.length)) (sortBySeed ts))[j]?
      = some (some t) :=
    fillSlots_write (espnOrder (nextPow2 ts.length)) hnd_ord j t.seed hj
      (sortBySeed ts) (List.replicate (nextPow2 ts.length) none) t hsortnd
      ((sortBySeed_perm ts).mem_iff.mpr ht) rfl
      (by rw [List.length_replicate, hk]; exact hjlt)
  have hbind : seedFold (k0 + 1) = (seedFold k0).bind
      (fun v => [v, 2 ^ (k0 + 1) + 1 - v]) := by simp only [seedFold]
  have hprev := seedFold_spec k0
  have hsurj : ∀ v, 1 ≤ v → v ≤ ts.length → ∃ u ∈ ts, u.seed = v := by
    intro v h1 h2
    have hvr : v ∈ List.range' 1 ts.length :=
      List.mem_range'_1.mpr ⟨h1, by omega⟩
    obtain ⟨u, hu, hue⟩ := List.mem_map.mp (hseeds.mem_iff.mpr hvr)
    exact ⟨u, hu, hue⟩
  have hfuel1 : 1 ≤ nextPow2 ts.length := by
    rw [hk]; exact Nat.one_le_two_pow
  set slots := fillSlots (List.replicate (nextPow2 ts.length) none)
    (espnOrder (nextPow2 ts.length)) (sortBySeed ts) with hslots
  have hguard : j / 2 < (slots.length + 1) / 2 := by
    rw [hslen]; omega
  have hr1get := mkRound1_getElem division slots (j / 2)
  rw [if_pos hguard] at hr1get
  have hpair := bind_pair_getElem (fun v => 2 ^ (k0 + 1) + 1 - v)
    (seedFold k0) (j / 2)
  by_cases hpar : j % 2 = 0
  · -- `t` sits in the even slot of its pair
    have hj2eq : 2 * (j / 2) = j := by omega
    have hprevj : (seedFold k0)[j / 2]? = some t.seed := by
      rw [← hpair.1, hj2eq, ← hbind, ← horder]
      exact hj
    have hsmemprev : t.seed ∈ seedFold k0 := List.getElem?_mem hprevj
    have hs_le : t.seed ≤ 2 ^ k0 := ((hprev.2.2.1 t.seed).mp hsmemprev).2
    have hpartner : (espnOrder (nextPow2 ts.length))[2 * (j / 2) + 1]?
        = some (2 ^ (k0 + 1) + 1 - t.seed) := by
      rw [horder, hbind, hpair.2, hprevj]
      rfl
    have hslotj2 : slots[2 * (j / 2)]? = some (some t) := by
      rw [hj2eq]; exact hslotj
    have ht1pf : slots.getD (2 * (j / 2)) none = some t :=
      getD_of_getElem2 none hslotj2
    by_cases hcomp : 2 ^ (k0 + 1) + 1 - t.seed ≤ ts.length
    · -- partner seed present: the round-1 match keeps both teams
      obtain ⟨t2, ht2mem, ht2seed⟩ :=
        hsurj (2 ^ (k0 + 1) + 1 - t.seed) (by omega) hcomp
      have hslotp : slots[2 * (j / 2) + 1]? = some (some t2) :=
        fillSlots_write (espnOrder (nextPow2 ts.length)) hnd_ord
          (2 * (j / 2) + 1) (2 ^ (k0 + 1) + 1 - t.seed) hpartner
          (sortBySeed ts) (List.replicate (nextPow2 ts.length) none) t2
          hsortnd ((sortBySeed_perm ts).mem_iff.mpr ht2mem) ht2seed
          (by rw [List.length_replicate, hk]; omega)
      have ht2pf : slots.getD (2 * (j / 2) + 1) none = some t2 :=
        getD_of_getElem2 none hslotp
      rw [hbb]
      obtain ⟨x, hx, hxt1, hxt2⟩ := bracket_keep_core division slots
        (isByeSeed (wantByesOf (nextPow2 ts.length) ts.length r))
        (nextPow2 ts.length) hfuel1 (j / 2) _ t t2 hr1get ht1pf ht2pf
      exact ⟨x, hx, Or.inl hxt1⟩
    · -- partner seed absent: eligible single-team match advances `t`
      have hnone : ∀ u ∈ sortBySeed ts,
          u.seed ≠ 2 ^ (k0 + 1) + 1 - t.seed := by
        intro u hu he
        have hur : u.seed ∈ List.range' 1 ts.length :=
          hseeds.mem_iff.mp (List.mem_map_of_mem Team.seed
            ((sortBySeed_perm ts).mem_iff.mp hu))
        have := List.mem_range'_1.mp hur
        omega
      have hslotp : slots[2 * (j / 2) + 1]? = some none := by
        rw [hslots, fillSlots_untouched (espnOrder (nextPow2 ts.length))
          hnd_ord (2 * (j / 2) + 1) (2 ^ (k0 + 1) + 1 - t.seed) hpartner
          (sortBySeed ts) (List.replicate (nextPow2 ts.length) none) hnone,
          List.getElem?_replicate, if_pos (by rw [hk]; omega)]
      have ht2pf : slots.getD (2 * (j / 2) + 1) none = none :=
        getD_of_getElem2 none hslotp
      have hk01 : 1 ≤ k0 := by
        by_contra hx
        have hz : k0 = 0 := by omega
        subst hz
        have he1 : (2 : Nat) ^ (0 + 1) = 2 := by norm_num
        have he0 : (2 : Nat) ^ 0 = 1 := by norm_num
        omega
      have h4le : 4 ≤ 2 ^ (k0 + 1) := by
        calc (4 : Nat) = 2 ^ 2 := by norm_num
        _ ≤ 2 ^ (k0 + 1) := Nat.pow_le_pow_right (by omega) (by omega)
      have hlen2 : ¬ (mkRound1 division slots).length ≤ 1 := by
        rw [mkRound1_length, hslen]
        omega
      have hbye : isByeSeed (wantByesOf (nextPow2 ts.length) ts.length r)
          t.seed = true := by
        simp only [isByeSeed, wantByesOf, decide_eq_true_eq]
        rw [hk] at hgap ⊢
        omega
      rw [hbb]
      obtain ⟨x, hx, hxid, hxrd, hxside⟩ := bracket_advance_core division
        slots (isByeSeed (wantByesOf (nextPow2 ts.length) ts.length r))
        (nextPow2 ts.length) hfuel1 (j / 2) _ t hr1get
        (Or.inl ⟨ht1pf, ht2pf⟩) hbye hlen2
      refine ⟨x, hx, ?_⟩
      by_cases hp2 : (j / 2) % 2 = 0
      · left
        rw [if_pos hp2] at hxside
        exact hxside
      · right
        rw [if_neg hp2] at hxside
        exact hxside
  · -- `t` sits in the odd slot; its even partner seed is always present
    have hj2eq : 2 * (j / 2) + 1 = j := by omega
    rcases hprev0 : (seedFold k0)[j / 2]? with _ | sprev
    · exfalso
      have hnone2 : (espnOrder (nextPow2 ts.length))[j]? = none := by
        rw [horder, hbind, ← hj2eq, hpair.2, hprev0]
        rfl
      rw [hj] at hnone2
      exact Option.noConfusion hnone2
    · have hsval : t.seed = 2 ^ (k0 + 1) + 1 - sprev := by
        have h2 : (espnOrder (nextPow2 ts.length))[j]?
            = some (2 ^ (k0 + 1) + 1 - sprev) := by
          rw [horder, hbind, ← hj2eq, hpair.2, hprev0]
          rfl
        rw [hj] at h2
        exact Option.some.inj h2
      have hspmem : sprev ∈ seedFold k0 := List.getElem?_mem hprev0
      have hspb := (hprev.2.2.1 sprev).mp hspmem
      obtain ⟨t2, ht2mem, ht2seed⟩ := hsurj sprev hspb.1 (by omega)
      have hpartner : (espnOrder (nextPow2 ts.length))[2 * (j / 2)]?
          = some sprev := by
        rw [horder, hbind, hpair.1, hprev0]
      have hslotp : slots[2 * (j / 2)]? = some (some t2) :=
        fillSlots_write (espnOrder (nextPow2 ts.length)) hnd_ord
          (2 * (j / 2)) sprev hpartner (sortBySeed ts)
          (List.replicate (nextPow2 ts.length) none) t2 hsortnd
          ((sortBySeed_perm ts).mem_iff.mpr ht2mem) ht2seed
          (by rw [List.length_replicate, hk]; omega)
      have hslotj2 : slots[2 * (j / 2) + 1]? = some (some t) := by
        rw [hj2eq]; exact hslotj
      have ht1pf : slots.getD (2 * (j / 2)) none = some t2 :=
        getD_of_getElem2 none hslotp
      have ht2pf : slots.getD (2 * (j / 2) + 1) none = some t :=
        getD_of_getElem2 none hslotj2
      rw [hbb]
      obtain ⟨x, hx, hxt1, hxt2⟩ := bracket_keep_core division slots
        (isByeSeed (wantByesOf (nextPow2 ts.length) ts.length r))
        (nextPow2 ts.length) hfuel1 (j / 2) _ t2 t hr1get ht1pf ht2pf
      exact ⟨x, hx, Or.inr hxt2⟩

def soloTeam : Team :=
  { id := "solo", name := "Solo", members := ("A", "B"), seed := 1,
    division := PlayDiv.UPPER }

/-- C10 counterexample: a one-team bracket (seeds exactly `1..1`) builds a
single round-1 match, marks it "BYE" and strips both team references, so
the team occurs nowhere in the returned bracket. -/
theorem buildBracket_team_lost_cex :
    ([soloTeam].map Team.seed).Perm (List.range' 1 1) ∧
    (buildBracket PlayDiv.UPPER [soloTeam] 0).length = 1 ∧
    ∀ m ∈ buildBracket PlayDiv.UPPER [soloTeam] 0,
      m.team1 ≠ some soloTeam ∧ m.team2 ≠ some soloTeam :=
  ⟨by decide, by decide, by decide⟩

/-- C10 witness: four teams seeded `1..4` all appear in the built bracket. -/
theorem buildBracket_no_team_lost_witness :
    2 ≤ c4teams.length ∧
    ∀ t ∈ c4teams, ∃ m ∈ buildBracket PlayDiv.UPPER c4teams 0,
      m.team1 = some t ∨ m.team2 = some t :=
  ⟨by decide, buildBracket_no_team_lost PlayDiv.UPPER c4teams 0 (by decide)
    (by decide) (by decide)⟩

def c5t1 : Team :=
  { id := "u1", name := "U1", members := ("A", "B"), seed := 1,
    division := PlayDiv.UPPER }

def c5t2 : Team :=
  { id := "u2", name := "U2", members := ("C", "D"), seed := 2,
    division := PlayDiv.UPPER }

def c5t3 : Team :=
  { id := "u3", name := "U3", members := ("E", "F"), seed := 3,
    division := PlayDiv.UPPER }

def c5t4 : Team :=
  { id := "u4", name := "U4", members := ("G", "H"), seed := 4,
    division := PlayDiv.UPPER }

def c5t5 : Team :=
  { id := "u5", name := "U5", members := ("I", "J"), seed := 5,
    division := PlayDiv.UPPER }

def c5teams : List Team := [c5t1, c5t2, c5t3, c5t4, c5t5]

def c3match : BracketMatch :=
  { id := "UPPER-R1-1", division := PlayDiv.UPPER, round := 1, slot := 1,
    team1 := some c5t1, team2 := none, court := some 1 }

/-- C3 counterexample: with one team and no requested byes no seed is
bye-eligible (`effectiveByes = 0`), yet the single round-1 match is still
marked with the "BYE" sentinel and stripped of both team references —
marking is not restricted to the bye-eligible matches. -/
theorem markByes_not_only_eligible_cex :
    wantByesOf (nextPow2 1) 1 0 = 0 ∧
    (∀ s : Nat, isByeSeed (wantByesOf (nextPow2 1) 1 0) s = false) ∧
    (buildBracket PlayDiv.UPPER [soloTeam] 0).map
        (fun m => (m.round, m.score, m.team1, m.team2))
      = [(1, some "BYE", none, none)] := by
  refine ⟨by decide, ?_, by decide⟩
  intro s
  rw [show wantByesOf (nextPow2 1) 1 0 = (0 : Int) from by decide]
  simp only [isByeSeed, decide_eq_false_iff_not]
  omega

/-- C3 (amended): the bracket size is the least power of two at least `N`;
`effectiveByes` follows the claimed `min(max(size - N, r), 5, size)`
formula; exactly the seeds `1..effectiveByes` are bye-eligible; a round-1
match holding exactly one real team whose seed is bye-eligible has that
team written into its parent's slot in the returned bracket; the marking
pass then marks with "BYE" and strips EVERY round-1 match holding exactly
one team — bye-eligible or not — and leaves all other matches unchanged;
and `N = 5` with one requested bye gives size `8` and three byes. -/
theorem buildBracket_byes_spec :
    (∀ N : Nat, 1 ≤ N →
      ∃ k, nextPow2 N = 2 ^ k ∧ N ≤ 2 ^ k ∧ 2 ^ k < 2 * N) ∧
    (∀ (size N : Nat) (r : Int), (N : Int) ≤ (size : Int) →
      wantByesOf size N r
        = min (min (max ((size : Int) - (N : Int)) r) 5) (size : Int)) ∧
    (∀ (w : Int) (s : Nat),
      isByeSeed w s = true ↔ 1 ≤ (s : Int) ∧ (s : Int) ≤ w) ∧
    (∀ (division : PlayDiv) (ts : List Team) (r : Int), ¬ ts.length = 0 →
      ∀ (j2 : Nat) (a2 : BracketMatch) (t : Team),
        (mkRound1 division (fillSlots
          (List.replicate (nextPow2 ts.length) none)
          (espnOrder (nextPow2 ts.length)) (sortBySeed ts)))[j2]?
          = some a2 →
        ((a2.team1 = some t ∧ a2.team2 = none) ∨
         (a2.team1 = none ∧ a2.team2 = some t)) →
        isByeSeed (wantByesOf (nextPow2 ts.length) ts.length r) t.seed
          = true →
        ¬ (mkRound1 division (fillSlots
          (List.replicate (nextPow2 ts.length) none)
          (espnOrder (nextPow2 ts.length)) (sortBySeed ts))).length ≤ 1 →
        ∃ x ∈ buildBracket division ts r,
          x.id = mkId division 2 (0 + j2 / 2 + 1) ∧ 2 ≤ x.round ∧
          sideGet x (if j2 % 2 = 0 then Side.team1 else Side.team2)
            = some t) ∧
    (∀ (division : PlayDiv) (ts : List Team) (r : Int), ¬ ts.length = 0 →
      buildBracket division ts r = markByes (advanceByes
        (isByeSeed (wantByesOf (nextPow2 ts.length) ts.length r))
        (linkRounds division (nextPow2 ts.length) 1 (mkRound1 division
          (fillSlots (List.replicate (nextPow2 ts.length) none)
            (espnOrder (nextPow2 ts.length)) (sortBySeed ts)))))) ∧
    (∀ ms : List BracketMatch, ∀ x ∈ markByes ms, ∃ y ∈ ms,
      x = if y.round = 1 ∧ ((y.team1.isSome ∧ y.team2 = none) ∨
            (y.team1 = none ∧ y.team2.isSome))
          then { y with score := some "BYE", team1 := none, team2 := none }
          else y) ∧
    (∀ (ms : List BracketMatch) (y : BracketMatch), y ∈ ms →
      (if y.round = 1 ∧ ((y.team1.isSome ∧ y.team2 = none) ∨
          (y.team1 = none ∧ y.team2.isSome))
       then { y with score := some "BYE", team1 := none, team2 := none }
       else y) ∈ markByes ms) ∧
    (nextPow2 5 = 8 ∧ wantByesOf 8 5 1 = 3) := by
  refine ⟨?_, ?_, ?_, ?_, ?_, markByes_mem, markByes_image, by decide⟩
  · intro N hN
    exact nextPow2_spec N hN
  · intro size N r hle
    unfold wantByesOf
    omega
  · intro w s
    simp [isByeSeed]
  · intro division ts r hN0 j2 a2 t hj2 hconf hbye hlen2
    obtain ⟨k, hk, -, -⟩ := nextPow2_spec ts.length (by omega)
    have hfuel : 1 ≤ nextPow2 ts.length := by
      rw [hk]; exact Nat.one_le_two_pow
    rw [buildBracket_unfold division ts r hN0]
    exact bracket_advance_core division _
      (isByeSeed (wantByesOf (nextPow2 ts.length) ts.length r))
      (nextPow2 ts.length) hfuel j2 a2 t hj2 hconf hbye hlen2
  · intro division ts r hN0
    exact buildBracket_unfold division ts r hN0

/-- C3 witness: five teams seeded `1..5` with one requested bye — the
seed-1 single-team round-1 match advances its team into slot `team1` of
the round-2 match `UPPER-R2-1` of the returned bracket. -/
theorem buildBracket_byes_spec_witness :
    ((mkRound1 PlayDiv.UPPER (fillSlots
        (List.replicate (nextPow2 c5teams.length) none)
        (espnOrder (nextPow2 c5teams.length)) (sortBySeed c5teams)))[0]?
      = some c3match) ∧
    isByeSeed (wantByesOf (nextPow2 c5teams.length) c5teams.length 1)
      c5t1.seed = true ∧
    ∃ x ∈ buildBracket PlayDiv.UPPER c5teams 1,
      x.id = mkId PlayDiv.UPPER 2 (0 + 0 / 2 + 1) ∧ 2 ≤ x.round ∧
      sideGet x (if 0 % 2 = 0 then Side.team1 else Side.team2) = some c5t1 :=
  ⟨by decide, by decide,
   buildBracket_byes_spec.2.2.2.1 PlayDiv.UPPER c5teams 1 (by decide) 0
     c3match c5t1 (by decide) (Or.inl ⟨rfl, rfl⟩) (by decide) (by decide)⟩
